/-
  Verification of the church-pantry application core (src/pantry_app.py).

  Shallow embedding notes:
  * SQLite REAL / Python float quantities are modelled as exact rationals (Rat);
    the claims under study concern orderings, sums and differences of quantities,
    none of which depend on binary floating-point rounding at the scales involved.
  * Timestamps (datetime.utcnow(), sqlite datetime('now')) and the acting manager
    (current_manager_name()) are threaded as explicit `now`/`actor` string arguments.
  * CSV cells that the source parses with str.isdigit() / parse_float are modelled
    as already-parsed `Option Nat` / `Option Rat` cells; free-text cells stay String.
  * SQL constraint violations (UNIQUE, PRIMARY KEY, FOREIGN KEY) abort the whole
    surrounding transaction with a rollback in the source (no commit is reached),
    which is modelled by `Except String` results that leave the store unchanged.
-/
import Mathlib

/-! ### Structural string primitives.
The stock String functions (trim, toLower, splitOn, ...) are implemented on
byte iterators with well-founded recursion, which blocks kernel evaluation;
these character-list versions compute the same functions structurally. -/

/-- Python str.strip(). -/
def String.pyStrip (s : String) : String :=
  ⟨((s.data.dropWhile Char.isWhitespace).reverse.dropWhile Char.isWhitespace).reverse⟩

/-- Python str.lower() (ASCII; the data at issue is ASCII). -/
def String.pyLower (s : String) : String := ⟨s.data.map Char.toLower⟩

/-- Python str.upper() (ASCII). -/
def String.pyUpper (s : String) : String := ⟨s.data.map Char.toUpper⟩

/-- Python str.endswith(suffix). -/
def String.pyEndsWith (s suffix : String) : Bool := suffix.data.isSuffixOf s.data

/-- Python s[:-n]. -/
def String.pyDropRight (s : String) (n : Nat) : String :=
  ⟨s.data.take (s.data.length - n)⟩

/-- Python str.split(sep) on character lists, driven by a fuel argument so the
recursion is structural (each step consumes at least one character, so
`length + 1` fuel always suffices for a non-empty separator). -/
def splitOnFuel (sep : List Char) : Nat → List Char → List (List Char)
  | 0, _ => [[]]
  | _ + 1, [] => [[]]
  | fuel + 1, c :: rest =>
    if sep.isPrefixOf (c :: rest) then
      [] :: splitOnFuel sep fuel ((c :: rest).drop sep.length)
    else
      match splitOnFuel sep fuel rest with
      | [] => [[c]]
      | h :: tl => (c :: h) :: tl

/-- Python str.split(sep) for a non-empty separator. -/
def String.pySplit (s sep : String) : List String :=
  if sep.data.isEmpty then [s]
  else (splitOnFuel sep.data (s.data.length + 1) s.data).map fun cs => ⟨cs⟩

/-- Byte-wise (here: character-wise) string comparison standing in for the
SQLite BINARY collation of ORDER BY. -/
def charListLeB : List Char → List Char → Bool
  | [], _ => true
  | _ :: _, [] => false
  | a :: as, b :: bs => if a = b then charListLeB as bs else decide (a < b)

def strLeB (a b : String) : Bool := charListLeB a.data b.data

/-- Decimal rendering of a Nat (fuel-structural). -/
def natTextGo : Nat → Nat → List Char
  | 0, _ => []
  | fuel + 1, n => if n = 0 then [] else natTextGo fuel (n / 10) ++ [Char.ofNat (48 + n % 10)]

def natText (n : Nat) : String := if n = 0 then "0" else ⟨natTextGo (n + 1) n⟩

def intText (i : Int) : String :=
  if i < 0 then "-" ++ natText i.natAbs else natText i.natAbs

/-- Stable insertion sort with a Bool comparator, standing in for ORDER BY. -/
def orderedInsertBy {α : Type} (le : α → α → Bool) (a : α) : List α → List α
  | [] => [a]
  | b :: l => if le a b then a :: b :: l else b :: orderedInsertBy le a l

def insertionSortBy {α : Type} (le : α → α → Bool) : List α → List α
  | [] => []
  | a :: l => orderedInsertBy le a (insertionSortBy le l)


namespace Pantry

/-- Row of the `items` table (src/pantry_app.py init_db). `isActive` is the raw
INTEGER flag as stored; sku/image_url/created_at are omitted: no claim reads them. -/
structure Item where
  itemId : Nat
  itemName : String
  unit : String
  qtyAvailable : Rat
  unitCost : Option Rat
  isActive : Nat
  expiryDate : Option String
deriving Repr, DecidableEq

/-- Row of the `members` table. -/
structure Member where
  memberId : Nat
  name : String
  phone : String
  email : String
  createdAt : String
deriving Repr, DecidableEq

/-- Row of the `requests` table. NULL note/reject_reason are modelled as "",
matching how every reader of those columns applies `or ""`. -/
structure RequestRow where
  requestId : Nat
  memberId : Nat
  status : String
  note : String
  rejectReason : String
  createdAt : String
  decidedAt : Option String
  decidedBy : Option String
deriving Repr, DecidableEq

/-- Row of the `request_items` table (the surrogate request_item_id is omitted:
nothing in the source ever reads it). -/
structure RequestLine where
  requestId : Nat
  itemId : Nat
  qtyRequested : Rat
deriving Repr, DecidableEq

/-- Row of the `stock_movements` table. -/
structure Movement where
  movementId : Nat
  itemId : Nat
  movementType : String
  qty : Rat
  note : String
  createdBy : String
  createdAt : String
deriving Repr, DecidableEq

/-- Row of the `managers` table. -/
structure ManagerRow where
  managerId : Nat
  username : String
  email : String
  passwordHash : String
  isActive : Nat
  createdAt : String
deriving Repr, DecidableEq

/-- The SQLite database. Lists are in rowid (insertion) order; the `next*`
fields model the AUTOINCREMENT sequences (monotone, never reused, bumped past
any explicitly inserted id, as sqlite_sequence behaves). -/
structure Store where
  items : List Item
  members : List Member
  requests : List RequestRow
  requestItems : List RequestLine
  movements : List Movement
  managers : List ManagerRow
  nextItemId : Nat
  nextMemberId : Nat
  nextRequestId : Nat
  nextMovementId : Nat
  nextManagerId : Nat
deriving Repr, DecidableEq

/-- A freshly initialised database (init_db): empty tables, rowids start at 1. -/
def emptyStore : Store :=
  { items := [], members := [], requests := [], requestItems := [], movements := [],
    managers := [], nextItemId := 1, nextMemberId := 1, nextRequestId := 1,
    nextMovementId := 1, nextManagerId := 1 }

/-! ### Small helpers from the source -/

/-- parse_bool_status (src/pantry_app.py:118). -/
def parse_bool_status (value : String) : Nat :=
  if value = "" then 1
  else
    let val := value.pyStrip.pyLower
    if val = "inactive" ∨ val = "0" ∨ val = "false" ∨ val = "no" then 0 else 1

/-- Python `(text).strip() or None` idiom used for optional CSV cells. -/
def optOfTrim (t : String) : Option String :=
  let u := t.pyStrip
  if u = "" then none else some u

/-- Digits-to-Nat accumulator for the float parser. -/
def digitsToNat (cs : List Char) : Nat :=
  cs.foldl (fun a c => a * 10 + (c.toNat - 48)) 0

/-- parse_float (src/pantry_app.py:154) restricted to the CSV string cells this
model keeps as text (the flattened request-line summaries). Only plain decimal
literals (optional sign, digits, optional fractional part) are modelled; no
claim observes the parsed quantity of a flattened line, so the full Python
float grammar is not needed. -/
def parse_float (value : String) : Option Rat :=
  let text := value.pyStrip
  if text = "" then none
  else
    let (neg, rest) :=
      match text.toList with
      | '-' :: cs => (true, cs)
      | '+' :: cs => (false, cs)
      | cs => (false, cs)
    let intPart := rest.takeWhile Char.isDigit
    let rest2 := rest.drop intPart.length
    let mk (num : Rat) : Option Rat := some (if neg then -num else num)
    match rest2 with
    | [] => if intPart.isEmpty then none else mk (digitsToNat intPart)
    | '.' :: frac =>
      if frac.all Char.isDigit ∧ ¬ (intPart.isEmpty ∧ frac.isEmpty) then
        mk ((digitsToNat intPart : Rat) +
          (digitsToNat frac : Rat) / ((10 : Rat) ^ frac.length))
      else none
    | _ => none

/-- Python `s.rsplit(sep, 1)` (both halves), for a separator known to occur. -/
def rsplit1 (s sep : String) : String × String :=
  let parts := s.pySplit sep
  (String.intercalate sep parts.dropLast, parts.getLastD "")

/-- Python `sep in s` membership test. -/
def containsSub (s sep : String) : Bool :=
  (s.pySplit sep).length ≥ 2

/-! ### Table lookups (SELECT by key, in rowid order) -/

def findItemById (s : Store) (iid : Nat) : Option Item :=
  s.items.find? (fun it => it.itemId == iid)

def findItemByName (s : Store) (name : String) : Option Item :=
  s.items.find? (fun it => it.itemName == name)

def findRequest (s : Store) (rid : Nat) : Option RequestRow :=
  s.requests.find? (fun r => r.requestId == rid)

def findMovementById (s : Store) (mid : Nat) : Option Movement :=
  s.movements.find? (fun m => m.movementId == mid)

/-- `SELECT member_id FROM members WHERE email=? OR phone=? ORDER BY created_at
DESC LIMIT 1`. Among matches the one with the greatest created_at wins; the tie
order of identical timestamps is unspecified in SQLite, modelled as
latest-inserted-wins. -/
def latestMemberMatch (members : List Member) (email phone : String) : Option Member :=
  (members.filter (fun m => m.email == email || m.phone == phone)).foldl
    (fun acc m =>
      match acc with
      | none => some m
      | some b => if strLeB b.createdAt m.createdAt then some m else some b) none

/-- `SELECT ... FROM request_items ri JOIN items i ... WHERE ri.request_id=?`
as used by both decision paths (request_items scan order, lines whose item was
deleted drop out of the join). -/
structure LineJoin where
  itemId : Nat
  qtyRequested : Rat
  qtyAvailable : Rat
  itemName : String
  isActive : Nat
deriving Repr, DecidableEq

def joinLines (items : List Item) (lines : List RequestLine) (rid : Nat) : List LineJoin :=
  (lines.filter (fun ri => ri.requestId == rid)).filterMap fun ri =>
    (items.find? (fun it => it.itemId == ri.itemId)).map fun it =>
      ⟨ri.itemId, ri.qtyRequested, it.qtyAvailable, it.itemName, it.isActive⟩

def requestLinesJoined (s : Store) (rid : Nat) : List LineJoin :=
  joinLines s.items s.requestItems rid

/-- `UPDATE items SET qty_available = f(qty_available) WHERE item_id=?`. -/
def updateItemQty (items : List Item) (iid : Nat) (f : Rat → Rat) : List Item :=
  items.map fun it =>
    if it.itemId == iid then { it with qtyAvailable := f it.qtyAvailable } else it

/-! ### Inventory operations (src/pantry_app.py 1641-1777) -/

inductive AddItemOutcome where
  | badInput
  | nameConflict
  | added (itemId : Nat)
deriving Repr, DecidableEq

/-- manager_add_item (src/pantry_app.py:1641). UNIQUE(item_name) makes the
INSERT raise on a duplicate name; nothing is committed in that case. -/
def manager_add_item (s : Store) (itemName unitLabel : String)
    (expiryDate : Option String) (unitCost : Option Rat) (initialQty : Rat)
    (actor now : String) : Store × AddItemOutcome :=
  let itemName := itemName.pyStrip
  let unitLabel := unitLabel.pyStrip
  if itemName = "" ∨ unitLabel = "" then (s, .badInput)
  else if (findItemByName s itemName).isSome then (s, .nameConflict)
  else
    let iid := s.nextItemId
    let s1 := { s with
      items := s.items ++
        [⟨iid, itemName, unitLabel, max 0 initialQty, unitCost, 1, expiryDate⟩],
      nextItemId := iid + 1 }
    if 0 < initialQty then
      ({ s1 with
          movements := s1.movements ++
            [⟨s1.nextMovementId, iid, "IN", initialQty, "Initial stock", actor, now⟩],
          nextMovementId := s1.nextMovementId + 1 }, .added iid)
    else (s1, .added iid)

inductive UpdateItemOutcome where
  | fkError
  | updated
deriving Repr, DecidableEq

/-- manager_update_item (src/pantry_app.py:1681), the stock-intake path. When
add_qty > 0 and the item id does not exist, the stock_movements INSERT violates
its FOREIGN KEY and the whole transaction rolls back. Image upload is out of
scope (external file storage). -/
def manager_update_item (s : Store) (iid : Nat) (addQty : Rat)
    (expiryUpdate : Option String) (unitCostUpdate : Option Rat) (isActive : Nat)
    (actor now : String) : Store × UpdateItemOutcome :=
  let setFlags (st : Store) : Store :=
    { st with items := st.items.map fun it =>
        if it.itemId == iid then
          { it with
            expiryDate := match expiryUpdate with | some e => some e | none => it.expiryDate
            unitCost := match unitCostUpdate with | some v => some v | none => it.unitCost
            isActive := isActive }
        else it }
  if 0 < addQty then
    if (findItemById s iid).isNone then (s, .fkError)
    else
      let s1 := { s with
        movements := s.movements ++
          [⟨s.nextMovementId, iid, "IN", addQty, "Intake", actor, now⟩],
        nextMovementId := s.nextMovementId + 1,
        items := updateItemQty s.items iid (· + addQty) }
      (setFlags s1, .updated)
  else (setFlags s, .updated)

inductive EditItemOutcome where
  | badInput
  | qtyNegative
  | itemMissing
  | nameConflict
  | edited
deriving Repr, DecidableEq

/-- manager_edit_item (src/pantry_app.py:1728), the manual set-quantity path.
A malformed qty string ("Quantity must be a number") is a parse concern outside
the typed model, so qtySet arrives as `Option Rat` (none = blank field).
Renaming onto another item's name trips UNIQUE(item_name); the handler catches
sqlite3.IntegrityError and redirects with no commit, i.e. no change at all. -/
def manager_edit_item (s : Store) (iid : Nat) (itemName unitLabel : String)
    (qtySet : Option Rat) (unitCost : Option Rat) (expiryDate : Option String)
    (isActive : Nat) (actor now : String) : Store × EditItemOutcome :=
  let itemName := itemName.pyStrip
  let unitLabel := unitLabel.pyStrip
  if itemName = "" ∨ unitLabel = "" then (s, .badInput)
  else if (match qtySet with | some q => decide (q < 0) | none => false) then (s, .qtyNegative)
  else match findItemById s iid with
  | none => (s, .itemMissing)
  | some current =>
    if (s.items.find? fun it => it.itemName == itemName && it.itemId != iid).isSome then
      (s, .nameConflict)
    else
      let newItems : List Item := s.items.map fun it =>
        if it.itemId == iid then
          { it with
            itemName := itemName, unit := unitLabel, unitCost := unitCost,
            expiryDate := expiryDate, isActive := isActive }
        else it
      let s1 := { s with items := newItems }
      match qtySet with
      | some q =>
        if q ≠ current.qtyAvailable then
          let delta := q - current.qtyAvailable
          ({ s1 with
              items := updateItemQty s1.items iid (fun _ => q),
              movements := s1.movements ++
                [⟨s1.nextMovementId, iid, (if 0 < delta then "IN" else "OUT"), |delta|,
                  "Manual adjustment", actor, now⟩],
              nextMovementId := s1.nextMovementId + 1 }, .edited)
        else (s1, .edited)
      | none => (s1, .edited)

/-! ### Request submission (src/pantry_app.py:1342 member_request_submit) -/

inductive SubmitOutcome where
  | badInput
  | noQuantities
  | submitted (requestId : Nat)
deriving Repr, DecidableEq

/-- `SELECT ... FROM items WHERE is_active=1 AND COALESCE(qty_available,0) > 0`. -/
def eligibleItems (s : Store) : List Item :=
  s.items.filter fun it => it.isActive == 1 && decide (0 < it.qtyAvailable)

/-- `DELETE FROM members WHERE member_id=?` with the schema's ON DELETE CASCADE:
the member's requests go, and those requests' request_items go with them. -/
def deleteMemberCascade (s : Store) (mid : Nat) : Store :=
  let deadReqs := (s.requests.filter (fun r => r.memberId == mid)).map (·.requestId)
  { s with
    members := s.members.filter (fun m => m.memberId != mid),
    requests := s.requests.filter (fun r => r.memberId != mid),
    requestItems := s.requestItems.filter (fun ri => !(deadReqs.contains ri.requestId)) }

/-- member_request_submit (src/pantry_app.py:1342). The form quantities arrive
as `qtys : Nat → Rat` (the qty_{item_id} field parsed by float(), defaulting 0).
Note the emptiness branch: the request row is deleted and then the member row is
deleted unconditionally, whether or not the member existed before this call. -/
def member_request_submit (s : Store) (name phone email note : String)
    (qtys : Nat → Rat) (now : String) : Store × SubmitOutcome :=
  let name := name.pyStrip
  let phone := phone.pyStrip
  let email := email.pyStrip
  let note := note.pyStrip
  if name = "" ∨ phone = "" then (s, .badInput)
  else
    let updMembers (mid : Nat) : List Member := s.members.map fun x =>
      if x.memberId == mid then { x with name := name, phone := phone, email := email }
      else x
    let (s1, mid) :=
      match latestMemberMatch s.members email phone with
      | some m =>
        ({ s with members := updMembers m.memberId }, m.memberId)
      | none =>
        ({ s with
            members := s.members ++
              [Member.mk s.nextMemberId name phone email now],
            nextMemberId := s.nextMemberId + 1 }, s.nextMemberId)
    let rid := s1.nextRequestId
    let s2 := { s1 with
      requests := s1.requests ++
        [RequestRow.mk rid mid "PENDING" note "" now none none],
      nextRequestId := rid + 1 }
    let chosen := (eligibleItems s2).filter fun it => decide (0 < qtys it.itemId)
    let s3 := { s2 with
      requestItems := s2.requestItems ++
        chosen.map fun it => RequestLine.mk rid it.itemId (qtys it.itemId) }
    if chosen.isEmpty then
      let s4 := { s3 with requests := s3.requests.filter (fun r => r.requestId != rid) }
      (deleteMemberCascade s4 mid, .noQuantities)
    else (s3, .submitted rid)

/-! ### Single-request decision (src/pantry_app.py:3253 manager_decide_request) -/

inductive DecideOutcome where
  | invalidDecision
  | notFound
  | alreadyDecided
  | insufficient (itemName : String) (requested available : Rat)
  | approvedOk
deriving Repr, DecidableEq

/-- Deduct every joined line of the request and append one OUT movement per
line (the two-statement loop at src/pantry_app.py:3316-3324, identical to the
bulk loop at 2659-2667). The join is read once before the loop. -/
def deductRequestLines (s : Store) (rows : List LineJoin) (rid : Nat)
    (actor now : String) : Store :=
  rows.foldl
    (fun st l =>
      { st with
        items := updateItemQty st.items l.itemId (· - l.qtyRequested),
        movements := st.movements ++
          [⟨st.nextMovementId, l.itemId, "OUT", l.qtyRequested,
            "Approved request #" ++ natText rid, actor, now⟩],
        nextMovementId := st.nextMovementId + 1 }) s

/-- `UPDATE requests SET status='APPROVED', decided_at=?, decided_by=? ...`. -/
def markRequestApproved (reqs : List RequestRow) (rid : Nat) (actor now : String) :
    List RequestRow :=
  reqs.map fun r =>
    if r.requestId == rid then
      { r with status := "APPROVED", decidedAt := some now, decidedBy := some actor }
    else r

/-- `UPDATE requests SET status='REJECTED', reject_reason=?, ...`. -/
def markRequestRejected (reqs : List RequestRow) (rid : Nat)
    (reason actor now : String) : List RequestRow :=
  reqs.map fun r =>
    if r.requestId == rid then
      { r with
        status := "REJECTED", rejectReason := reason,
        decidedAt := some now, decidedBy := some actor }
    else r

/-- manager_decide_request (src/pantry_app.py:3253). Faithful to the source's
control flow: the block handling decision == "REJECT" (lines 3269-3289) is
indented inside `if r["status"] != "PENDING":` AFTER its `return`, so it is
unreachable; for a PENDING request both decisions fall through to the
"APPROVE: check stock and deduct" path. The stock check returns on the FIRST
line whose qty_requested exceeds qty_available and never looks at is_active. -/
def manager_decide_request (s : Store) (reqId : Nat) (decision : String)
    (rejectReason actor now : String) : Store × DecideOutcome :=
  if decision ≠ "APPROVE" ∧ decision ≠ "REJECT" then (s, .invalidDecision)
  else
    match findRequest s reqId with
    | none => (s, .notFound)
    | some r =>
      if r.status ≠ "PENDING" then
        (s, .alreadyDecided)
      else
        let rows := requestLinesJoined s reqId
        match rows.find? (fun row => decide (row.qtyAvailable < row.qtyRequested)) with
        | some row => (s, .insufficient row.itemName row.qtyRequested row.qtyAvailable)
        | none =>
          let s1 := deductRequestLines s rows reqId actor now
          ({ s1 with requests := markRequestApproved s1.requests reqId actor now },
            .approvedOk)

/-! ### Bulk decision (src/pantry_app.py:2593 manager_requests_bulk) -/

structure BulkResults where
  approved : List Nat
  rejected : List Nat
  skipped : List (Nat × String)
  failed : List (Nat × String)
deriving Repr, DecidableEq

def emptyBulkResults : BulkResults := ⟨[], [], [], []⟩

/-- Classification of one id inside the bulk loop. -/
inductive BulkTag where
  | approvedTag
  | rejectedTag
  | skippedTag (reason : String)
  | failedTag (reason : String)
deriving Repr, DecidableEq

def consBulkTag (rid : Nat) (tag : BulkTag) (res : BulkResults) : BulkResults :=
  match tag with
  | .approvedTag => { res with approved := rid :: res.approved }
  | .rejectedTag => { res with rejected := rid :: res.rejected }
  | .skippedTag reason => { res with skipped := (rid, reason) :: res.skipped }
  | .failedTag reason => { res with failed := (rid, reason) :: res.failed }

/-- The per-line validation of the bulk APPROVE branch (lines 2649-2654):
every offending line contributes one message. The `(qty_available or 0)`
guard is the identity here because the column is NOT NULL. -/
def bulkBlockedReasons (rows : List LineJoin) : List String :=
  rows.filterMap fun row =>
    if row.isActive ≠ 1 then some (row.itemName ++ " inactive")
    else if decide (row.qtyAvailable < row.qtyRequested) then
      some (row.itemName ++ " insufficient stock")
    else none

/-- One iteration of the bulk loop for request id `rid` (action already
validated to be APPROVE or REJECT). The opening SELECT joins members, so a
request whose member row is missing lands in skipped("Not found"). -/
def bulkStep (s : Store) (rid : Nat) (action rejectReason actor now : String) :
    Store × BulkTag :=
  match findRequest s rid with
  | none => (s, .skippedTag "Not found")
  | some r =>
    match s.members.find? (fun m => m.memberId == r.memberId) with
    | none => (s, .skippedTag "Not found")
    | some _ =>
      if r.status ≠ "PENDING" then (s, .skippedTag ("Already " ++ r.status))
      else if action = "REJECT" then
        ({ s with requests := markRequestRejected s.requests rid rejectReason actor now },
          .rejectedTag)
      else
        let rows := requestLinesJoined s rid
        let blocked := bulkBlockedReasons rows
        if ¬ blocked.isEmpty then
          (s, .failedTag (String.intercalate "; " blocked))
        else
          let s1 := deductRequestLines s rows rid actor now
          ({ s1 with requests := markRequestApproved s1.requests rid actor now },
            .approvedTag)

/-- The bulk loop over the selected ids, in form order. Each id is classified
into exactly one bucket; bucket order matches processing order. -/
def bulkRun (s : Store) (ids : List Nat) (action rejectReason actor now : String) :
    Store × BulkResults :=
  match ids with
  | [] => (s, emptyBulkResults)
  | rid :: rest =>
    let (s1, tag) := bulkStep s rid action rejectReason actor now
    let (s2, res) := bulkRun s1 rest action rejectReason actor now
    (s2, consBulkTag rid tag res)

inductive BulkOutcome where
  | noSelection
  | invalidAction
  | done (results : BulkResults)
deriving Repr, DecidableEq

/-- manager_requests_bulk (src/pantry_app.py:2593). -/
def manager_requests_bulk (s : Store) (ids : List Nat)
    (action rejectReason actor now : String) : Store × BulkOutcome :=
  if ids.isEmpty then (s, .noSelection)
  else if action ≠ "APPROVE" ∧ action ≠ "REJECT" then (s, .invalidAction)
  else
    let (s', res) := bulkRun s ids action rejectReason actor now
    (s', .done res)

/-! ### Administrative request edit (src/pantry_app.py:2170 manager_request_edit).
Included because it is one of the "manual edits" of the op sequences the
invariant claims quantify over; it never touches items or stock_movements. -/

inductive RequestEditOutcome where
  | notFound
  | badInput
  | invalidStatus
  | edited
deriving Repr, DecidableEq

def manager_request_edit (s : Store) (reqId : Nat)
    (name phone email note rejectReason status : String)
    (qtys : Nat → Option Rat) (actor now : String) : Store × RequestEditOutcome :=
  match findRequest s reqId with
  | none => (s, .notFound)
  | some req =>
    match s.members.find? (fun m => m.memberId == req.memberId) with
    | none => (s, .notFound)
    | some _ =>
      let name := name.pyStrip
      let phone := phone.pyStrip
      let email := email.pyStrip
      let note := note.pyStrip
      let rejectReason := rejectReason.pyStrip
      let status := (if status = "" then "PENDING" else status).pyStrip.pyUpper
      if name = "" ∨ phone = "" then (s, .badInput)
      else if status ≠ "PENDING" ∧ status ≠ "APPROVED" ∧ status ≠ "REJECTED" then
        (s, .invalidStatus)
      else
        let newMembers : List Member := s.members.map fun x =>
          if x.memberId == req.memberId then
            { x with name := name, phone := phone, email := email }
          else x
        let (decidedAt, decidedBy) : Option String × Option String :=
          if status ≠ req.status then
            if status = "APPROVED" ∨ status = "REJECTED" then (some now, some actor)
            else (none, none)
          else (req.decidedAt, req.decidedBy)
        let newRequests : List RequestRow := s.requests.map fun r =>
          if r.requestId == reqId then
            { r with
              status := status, note := note, rejectReason := rejectReason,
              decidedAt := decidedAt, decidedBy := decidedBy }
          else r
        let keptLines := s.requestItems.filter (fun ri => ri.requestId != reqId)
        let newLines : List RequestLine := s.items.filterMap fun it =>
          match qtys it.itemId with
          | some q => if 0 < q then some ⟨reqId, it.itemId, q⟩ else none
          | none => none
        ({ s with
            members := newMembers, requests := newRequests,
            requestItems := keptLines ++ newLines }, .edited)

/-! ### Export sections (src/pantry_app.py 3713-3852).
CSV rows are modelled with typed cells: cells the importer feeds through
str.isdigit() are `Option Nat`, cells fed through parse_float are `Option Rat`,
everything else is the raw string. A blank cell is `none` / `""`. -/

structure ItemsRow where
  itemId : Option Nat
  itemName : String
  unit : String
  qtyAvailable : Option Rat
  unitCost : Option Rat
  expiryDate : String
  status : String
deriving Repr, DecidableEq

structure RequestsRow where
  requestId : Option Nat
  status : String
  createdAt : String
  memberName : String
  phone : String
  email : String
  note : String
  rejectReason : String
  items : String
deriving Repr, DecidableEq

structure MovementsRow where
  movementId : Option Nat
  itemId : Option Nat
  movementType : String
  qty : Option Rat
  note : String
  createdBy : String
  createdAt : String
deriving Repr, DecidableEq

structure ManagersRow where
  managerId : Option Nat
  username : String
  email : String
  passwordHash : String
  isActive : String
  createdAt : String
deriving Repr, DecidableEq

/-- Rendering of a REAL quantity into the flattened line summary. Python uses
str(float); the exact digit string is a serialization detail no claim observes,
so the Rat's own rendering stands in for it. -/
def ratText (q : Rat) : String :=
  if q.den = 1 then intText q.num else intText q.num ++ "/" ++ natText q.den

/-- The flattened `"Name (unit) x qty; ..."` summary of one request's lines
(src/pantry_app.py:3768-3779): request_items joined against items in line
order, lines whose item is gone drop out of the join. -/
def requestItemsSummary (s : Store) (rid : Nat) : String :=
  String.intercalate "; "
    ((s.requestItems.filter (fun ri => ri.requestId == rid)).filterMap fun ri =>
      (findItemById s ri.itemId).map fun it =>
        it.itemName ++ " (" ++ it.unit ++ ") x " ++ ratText ri.qtyRequested)

/-- export_items_rows (src/pantry_app.py:3713): ORDER BY item_name. -/
def export_items_rows (s : Store) : List ItemsRow :=
  (insertionSortBy (fun a b => strLeB a.itemName b.itemName) s.items).map fun it =>
    { itemId := some it.itemId, itemName := it.itemName, unit := it.unit,
      qtyAvailable := some it.qtyAvailable, unitCost := it.unitCost,
      expiryDate := it.expiryDate.getD "",
      status := if it.isActive == 1 then "Active" else "Inactive" }

/-- export_requests_rows (src/pantry_app.py:3742): requests JOIN members
ORDER BY request_id; requests whose member row is missing drop out. -/
def export_requests_rows (s : Store) : List RequestsRow :=
  ((insertionSortBy (fun a b => a.requestId ≤ b.requestId) s.requests).filterMap
    fun r => (s.members.find? (fun m => m.memberId == r.memberId)).map fun m =>
      ({ requestId := some r.requestId, status := r.status, createdAt := r.createdAt,
         memberName := m.name, phone := m.phone, email := m.email,
         note := r.note, rejectReason := r.rejectReason,
         items := requestItemsSummary s r.requestId } : RequestsRow))

/-- export_stock_movements_rows (src/pantry_app.py:3826): ORDER BY movement_id. -/
def export_stock_movements_rows (s : Store) : List MovementsRow :=
  (insertionSortBy (fun a b => a.movementId ≤ b.movementId) s.movements).map fun m =>
    { movementId := some m.movementId, itemId := some m.itemId,
      movementType := m.movementType, qty := some m.qty, note := m.note,
      createdBy := m.createdBy, createdAt := m.createdAt }

/-- export_managers_rows (src/pantry_app.py:3798): ORDER BY username. -/
def export_managers_rows (s : Store) : List ManagersRow :=
  (insertionSortBy (fun a b => strLeB a.username b.username) s.managers).map fun g =>
    { managerId := some g.managerId, username := g.username, email := g.email,
      passwordHash := g.passwordHash, isActive := natText g.isActive,
      createdAt := g.createdAt }

/-! ### Import: items section.
The loop body is textually identical in manager_import (import_type "items",
src/pantry_app.py:4400-4463) and apply_backup_import (3925-3978), so it is
defined once with (created, updated) counters; the backup path ignores them. -/

/-- Error marker for a violated UNIQUE/PRIMARY KEY/FOREIGN KEY constraint:
sqlite3.IntegrityError propagates, the connection closes without commit and the
transaction rolls back, so the caller observes an unchanged store. -/
def integrityError (what : String) : Except String (Store × Nat × Nat) :=
  .error ("IntegrityError: " ++ what)

def importItemsRowStep (s : Store) (row : ItemsRow) : Except String (Store × Nat × Nat) :=
  let name := row.itemName.pyStrip
  let unitLabel := row.unit.pyStrip
  let qty := row.qtyAvailable.getD 0
  let unitCost := row.unitCost
  let expiryDate := optOfTrim row.expiryDate
  let isActive := parse_bool_status row.status
  if name = "" ∨ unitLabel = "" then .ok (s, 0, 0)
  else
    match row.itemId with
    | some iid =>
      match findItemById s iid with
      | some _ =>
        -- UPDATE ... WHERE item_id=?: renaming onto another row's name trips UNIQUE
        if (s.items.find? fun it => it.itemName == name && it.itemId != iid).isSome then
          integrityError "items.item_name"
        else
          let newItems : List Item := s.items.map fun it =>
            if it.itemId == iid then
              { it with
                itemName := name, unit := unitLabel, qtyAvailable := qty,
                unitCost := unitCost, expiryDate := expiryDate, isActive := isActive }
            else it
          .ok ({ s with items := newItems }, 0, 1)
      | none =>
        -- INSERT with the explicit id; UNIQUE(item_name) can still fire
        if (findItemByName s name).isSome then integrityError "items.item_name"
        else
          .ok ({ s with
                  items := s.items ++
                    [⟨iid, name, unitLabel, qty, unitCost, isActive, expiryDate⟩],
                  nextItemId := max s.nextItemId (iid + 1) }, 1, 0)
    | none =>
      match findItemByName s name with
      | some ex =>
        -- UPDATE ... WHERE item_id=?, not touching item_name
        let newItems : List Item := s.items.map fun it =>
          if it.itemId == ex.itemId then
            { it with
              unit := unitLabel, qtyAvailable := qty, unitCost := unitCost,
              expiryDate := expiryDate, isActive := isActive }
          else it
        .ok ({ s with items := newItems }, 0, 1)
      | none =>
        .ok ({ s with
                items := s.items ++
                  [⟨s.nextItemId, name, unitLabel, qty, unitCost, isActive, expiryDate⟩],
                nextItemId := s.nextItemId + 1 }, 1, 0)

def manager_import_items (s : Store) (rows : List ItemsRow) :
    Except String (Store × Nat × Nat) :=
  match rows with
  | [] => .ok (s, 0, 0)
  | row :: rest =>
    match importItemsRowStep s row with
    | .error e => .error e
    | .ok (s1, c1, u1) =>
      match manager_import_items s1 rest with
      | .error e => .error e
      | .ok (s2, c2, u2) => .ok (s2, c1 + c2, u1 + u2)

/-! ### Import: requests section -/

/-- The member upsert shared by both requests-import paths
(src/pantry_app.py:4007-4022 and 4499-4514). -/
def upsertMember (s : Store) (memberName phone email createdAt now : String) :
    Store × Nat :=
  match latestMemberMatch s.members email phone with
  | some m =>
    let newMembers : List Member := s.members.map fun x =>
      if x.memberId == m.memberId then
        { x with name := memberName, phone := phone, email := email }
      else x
    ({ s with members := newMembers }, m.memberId)
  | none =>
    ({ s with
        members := s.members ++
          [Member.mk s.nextMemberId memberName phone email
            (if createdAt = "" then now else createdAt)],
        nextMemberId := s.nextMemberId + 1 }, s.nextMemberId)

/-- One parsed `"Name (unit) x qty"` fragment. -/
structure ParsedLine where
  name : String
  unit : String
  qty : Rat
deriving Repr, DecidableEq

/-- The per-fragment parse of the flattened items summary
(src/pantry_app.py:4078-4096): rsplit on " x " for the quantity, then rsplit
on " (" for the unit when the fragment ends in ")". -/
def parseLinePart (part : String) : Option ParsedLine :=
  let part := part.pyStrip
  if part = "" then none
  else
    let (nameUnit, qtyVal) :=
      if containsSub part " x " then
        let (nu, qt) := rsplit1 part " x "
        (nu, (parse_float qt).getD 0)
      else (part, 0)
    let nameUnit := nameUnit.pyStrip
    let (name, unitLabel) :=
      if nameUnit.pyEndsWith ")" && containsSub nameUnit " (" then
        let (n, u) := rsplit1 nameUnit " ("
        (n, u.pyDropRight 1)
      else (nameUnit, "")
    let name := name.pyStrip
    let unitLabel := unitLabel.pyStrip
    if name = "" then none else some ⟨name, unitLabel, qtyVal⟩

/-- Item lookup/placeholder-creation plus request_items insert for one parsed
fragment (src/pantry_app.py:4097-4113). The placeholder is
`INSERT INTO items (item_name, unit, qty_available, is_active) VALUES (?, ?, 0, 1)`. -/
def insertRequestLineFromPart (s : Store) (rid : Nat) (p : ParsedLine) : Store :=
  let (s1, iid) :=
    match findItemByName s p.name with
    | some it => (s, it.itemId)
    | none =>
      ({ s with
          items := s.items ++
            [Item.mk s.nextItemId p.name (if p.unit = "" then "unit" else p.unit) 0
              none 1 none],
          nextItemId := s.nextItemId + 1 }, s.nextItemId)
  if 0 < p.qty then
    { s1 with requestItems := s1.requestItems ++ [RequestLine.mk rid iid p.qty] }
  else s1

/-- `for part in items_text.split(";")` over an already-stripped summary. -/
def insertRequestLines (s : Store) (rid : Nat) (itemsText : String) : Store :=
  (itemsText.pySplit ";").foldl
    (fun st part =>
      match parseLinePart part with
      | none => st
      | some p => insertRequestLineFromPart st rid p) s

/-- `(row.get("status") or "PENDING").strip().upper() or "PENDING"`. -/
def normStatus (raw : String) : String :=
  let t := (if raw = "" then "PENDING" else raw).pyStrip.pyUpper
  if t = "" then "PENDING" else t

/-- One requests row of apply_backup_import (src/pantry_app.py:3982-4113):
an existing request id is UPDATEd in place (member link, status, note, reason,
created_at) and its request_items rows are DELETEd before the summary is
re-parsed; a fresh numeric id is inserted as-is; a row without a numeric id is
inserted under a new id. -/
def applyBackupImportRequestsRow (s : Store) (row : RequestsRow) (now : String) : Store :=
  let status := normStatus row.status
  let createdAt := row.createdAt.pyStrip
  let memberName := row.memberName.pyStrip
  let phone := let p := row.phone.pyStrip; if p = "" then "unknown" else p
  let email := row.email.pyStrip
  let note := row.note.pyStrip
  let rejectReason := row.rejectReason.pyStrip
  let itemsText := row.items.pyStrip
  if memberName = "" then s
  else
    let (s1, memberId) := upsertMember s memberName phone email createdAt now
    let createdAtVal := if createdAt = "" then now else createdAt
    let (s2, rid) :=
      match row.requestId with
      | some ridGiven =>
        if (findRequest s ridGiven).isSome then
          let newRequests : List RequestRow := s1.requests.map fun r =>
            if r.requestId == ridGiven then
              { r with
                memberId := memberId, status := status, note := note,
                rejectReason := rejectReason, createdAt := createdAtVal }
            else r
          ({ s1 with
              requests := newRequests,
              requestItems := s1.requestItems.filter (fun ri => ri.requestId != ridGiven) },
            ridGiven)
        else
          ({ s1 with
              requests := s1.requests ++
                [RequestRow.mk ridGiven memberId status note rejectReason
                  createdAtVal none none],
              nextRequestId := max s1.nextRequestId (ridGiven + 1) }, ridGiven)
      | none =>
        ({ s1 with
            requests := s1.requests ++
              [RequestRow.mk s1.nextRequestId memberId status note rejectReason
                createdAtVal none none],
            nextRequestId := s1.nextRequestId + 1 }, s1.nextRequestId)
    if itemsText = "" then s2 else insertRequestLines s2 rid itemsText

def applyBackupImportRequests (s : Store) (rows : List RequestsRow) (now : String) : Store :=
  rows.foldl (fun st row => applyBackupImportRequestsRow st row now) s

/-- One requests row of the per-section import (manager_import, import_type
"requests", src/pantry_app.py:4472-4585): an existing numeric request id is
counted skipped and the row has NO effect at all. Returns (store, created?, skipped?). -/
def managerImportRequestsRow (s : Store) (row : RequestsRow) (now : String) :
    Store × Nat × Nat :=
  let status := normStatus row.status
  let createdAt := row.createdAt.pyStrip
  let memberName := row.memberName.pyStrip
  let phone := let p := row.phone.pyStrip; if p = "" then "unknown" else p
  let email := row.email.pyStrip
  let note := row.note.pyStrip
  let rejectReason := row.rejectReason.pyStrip
  let itemsText := row.items.pyStrip
  if memberName = "" then (s, 0, 1)
  else
    match row.requestId with
    | some ridGiven =>
      if (findRequest s ridGiven).isSome then (s, 0, 1)
      else
        let (s1, memberId) := upsertMember s memberName phone email createdAt now
        let createdAtVal := if createdAt = "" then now else createdAt
        let s2 :=
          { s1 with
            requests := s1.requests ++
              [RequestRow.mk ridGiven memberId status note rejectReason
                createdAtVal none none],
            nextRequestId := max s1.nextRequestId (ridGiven + 1) }
        (if itemsText = "" then s2 else insertRequestLines s2 ridGiven itemsText, 1, 0)
    | none =>
      let (s1, memberId) := upsertMember s memberName phone email createdAt now
      let createdAtVal := if createdAt = "" then now else createdAt
      let rid := s1.nextRequestId
      let s2 :=
        { s1 with
          requests := s1.requests ++
            [RequestRow.mk rid memberId status note rejectReason createdAtVal none none],
          nextRequestId := rid + 1 }
      (if itemsText = "" then s2 else insertRequestLines s2 rid itemsText, 1, 0)

def manager_import_requests (s : Store) (rows : List RequestsRow) (now : String) :
    Store × Nat × Nat :=
  match rows with
  | [] => (s, 0, 0)
  | row :: rest =>
    let (s1, c1, k1) := managerImportRequestsRow s row now
    let (s2, c2, k2) := manager_import_requests s1 rest now
    (s2, c1 + c2, k1 + k2)

/-! ### Import: managers section (identical loop in manager_import 4595-4658
and apply_backup_import 4117-4174). -/

/-- Stand-in for werkzeug's generate_password_hash("ChangeMe123!"): its salted
output is irrelevant to every claim, only that SOME non-empty hash is stored. -/
def defaultPasswordHash : String := "hash-ChangeMe123"

def importManagersRowStep (s : Store) (row : ManagersRow) (now : String) :
    Except String (Store × Nat × Nat) :=
  let username := row.username.pyStrip
  if username = "" then .ok (s, 0, 0)
  else
    let email := row.email.pyStrip
    let passwordHash := row.passwordHash.pyStrip
    let isActive : Nat :=
      if (if row.isActive = "" then "1" else row.isActive).pyStrip ≠ "0" then 1 else 0
    let createdAt := let a := row.createdAt.pyStrip; if a = "" then now else a
    match s.managers.find? (fun g => g.username == username) with
    | some ex =>
      let newManagers : List ManagerRow := s.managers.map fun g =>
        if g.managerId == ex.managerId then
          (if passwordHash ≠ "" then
            { g with email := email, passwordHash := passwordHash, isActive := isActive }
          else
            { g with email := email, isActive := isActive })
        else g
      .ok ({ s with managers := newManagers }, 0, 1)
    | none =>
      let hash := if passwordHash = "" then defaultPasswordHash else passwordHash
      match row.managerId with
      | some gid =>
        if (s.managers.find? (fun g => g.managerId == gid)).isSome then
          .error "IntegrityError: managers.manager_id"
        else
          .ok ({ s with
                  managers := s.managers ++
                    [ManagerRow.mk gid username email hash isActive createdAt],
                  nextManagerId := max s.nextManagerId (gid + 1) }, 1, 0)
      | none =>
        .ok ({ s with
                managers := s.managers ++
                  [ManagerRow.mk s.nextManagerId username email hash isActive createdAt],
                nextManagerId := s.nextManagerId + 1 }, 1, 0)

def manager_import_managers (s : Store) (rows : List ManagersRow) (now : String) :
    Except String (Store × Nat × Nat) :=
  match rows with
  | [] => .ok (s, 0, 0)
  | row :: rest =>
    match importManagersRowStep s row now with
    | .error e => .error e
    | .ok (s1, c1, u1) =>
      match manager_import_managers s1 rest now with
      | .error e => .error e
      | .ok (s2, c2, u2) => .ok (s2, c1 + c2, u1 + u2)

/-! ### Import: stock movements section (identical loop in manager_import
4668-4710 and apply_backup_import 4178-4217): an existing movement_id is
skipped entirely, a fresh one is inserted, never updated. -/

def importMovementsRowStep (s : Store) (row : MovementsRow) (now : String) :
    Except String (Store × Nat × Nat) :=
  let movementType := row.movementType.pyStrip.pyUpper
  let note := row.note.pyStrip
  let createdBy := let b := row.createdBy.pyStrip; if b = "" then "manager" else b
  let createdAt := let a := row.createdAt.pyStrip; if a = "" then now else a
  match row.itemId, row.qty with
  | some iid, some qtyVal =>
    if movementType = "" then .ok (s, 0, 1)
    else
      match row.movementId with
      | some mid =>
        if (findMovementById s mid).isSome then .ok (s, 0, 1)
        else if (findItemById s iid).isNone then
          .error "IntegrityError: FOREIGN KEY stock_movements.item_id"
        else
          .ok ({ s with
                  movements := s.movements ++
                    [Movement.mk mid iid movementType qtyVal note createdBy createdAt],
                  nextMovementId := max s.nextMovementId (mid + 1) }, 1, 0)
      | none =>
        if (findItemById s iid).isNone then
          .error "IntegrityError: FOREIGN KEY stock_movements.item_id"
        else
          .ok ({ s with
                  movements := s.movements ++
                    [Movement.mk s.nextMovementId iid movementType qtyVal note
                      createdBy createdAt],
                  nextMovementId := s.nextMovementId + 1 }, 1, 0)
  | _, _ => .ok (s, 0, 1)

def manager_import_stock_movements (s : Store) (rows : List MovementsRow) (now : String) :
    Except String (Store × Nat × Nat) :=
  match rows with
  | [] => .ok (s, 0, 0)
  | row :: rest =>
    match importMovementsRowStep s row now with
    | .error e => .error e
    | .ok (s1, c1, k1) =>
      match manager_import_stock_movements s1 rest now with
      | .error e => .error e
      | .ok (s2, c2, k2) => .ok (s2, c1 + c2, k1 + k2)

/-! ### Full backup import (src/pantry_app.py:3901 apply_backup_import) -/

/-- The mirror_local pre-step: DELETE FROM every table (DELETE does not reset
the sqlite_sequence counters). Stored image files are out of scope. -/
def mirrorWipe (s : Store) : Store :=
  { s with
    items := [], members := [], requests := [], requestItems := [],
    movements := [], managers := [] }

/-- apply_backup_import: items, then requests, then managers, then stock
movements, one transaction; an IntegrityError anywhere rolls everything back. -/
def apply_backup_import (s : Store) (itemsRows : List ItemsRow)
    (requestsRows : List RequestsRow) (managersRows : List ManagersRow)
    (movementsRows : List MovementsRow) (mirrorLocal : Bool) (now : String) :
    Except String Store :=
  let s0 := if mirrorLocal then mirrorWipe s else s
  match manager_import_items s0 itemsRows with
  | .error e => .error e
  | .ok (s1, _, _) =>
    let s2 := applyBackupImportRequests s1 requestsRows now
    match manager_import_managers s2 managersRows now with
    | .error e => .error e
    | .ok (s3, _, _) =>
      match manager_import_stock_movements s3 movementsRows now with
      | .error e => .error e
      | .ok (s4, _, _) => .ok s4

/-! ### Invariants of the ledger -/

/-- Signed contribution of one stock movement to one item: IN adds, OUT
subtracts, a movement of another item (or of a type the application never
writes) contributes nothing. -/
def movementContrib (m : Movement) (iid : Nat) : Rat :=
  if m.itemId = iid then
    (if m.movementType = "IN" then m.qty
     else if m.movementType = "OUT" then -m.qty
     else 0)
  else 0

/-- Signed sum of an item's stock movements. -/
def movementSum (ms : List Movement) (iid : Nat) : Rat :=
  (ms.map (fun m => movementContrib m iid)).sum

/-- The claimed ledger invariant: every item's qty_available equals the signed
sum of its stock movements. -/
def ledgerBalanced (s : Store) : Prop :=
  ∀ it ∈ s.items, it.qtyAvailable = movementSum s.movements it.itemId

/-- The claimed non-negativity invariant. -/
def qtyNonneg (s : Store) : Prop :=
  ∀ it ∈ s.items, 0 ≤ it.qtyAvailable

instance (s : Store) : Decidable (ledgerBalanced s) := by
  unfold ledgerBalanced; infer_instance

instance (s : Store) : Decidable (qtyNonneg s) := by
  unfold qtyNonneg; infer_instance

/-- Structural well-formedness maintained by SQLite itself (PRIMARY KEY
uniqueness, AUTOINCREMENT bounds, FOREIGN KEY on movements) plus the
`request_items` shape guaranteed by the submission/edit paths (at most one
line per item per request). Only the components the invariant proofs consume
are recorded. -/
structure StoreWF (s : Store) : Prop where
  itemsNodup : (s.items.map (·.itemId)).Nodup
  itemsLt : ∀ it ∈ s.items, it.itemId < s.nextItemId
  requestsLt : ∀ r ∈ s.requests, r.requestId < s.nextRequestId
  movementsItemLt : ∀ m ∈ s.movements, m.itemId < s.nextItemId
  linesNodup : (s.requestItems.map (fun ri => (ri.requestId, ri.itemId))).Nodup
  linesReqLt : ∀ ri ∈ s.requestItems, ri.requestId < s.nextRequestId

/-- One external operation of the running system, for quantifying over
"any sequence of operations" (imports are deliberately separate: they are the
reconciliation path, exercised by apply_backup_import / manager_import_*). -/
inductive PantryOp where
  | submit (name phone email noteText : String) (qtys : Nat → Rat) (now : String)
  | decide (reqId : Nat) (decision rejectReason actor now : String)
  | bulk (ids : List Nat) (action rejectReason actor now : String)
  | addItem (itemName unitLabel : String) (expiryDate : Option String)
      (unitCost : Option Rat) (initialQty : Rat) (actor now : String)
  | intake (iid : Nat) (addQty : Rat) (expiryUpdate : Option String)
      (unitCostUpdate : Option Rat) (isActive : Nat) (actor now : String)
  | editItem (iid : Nat) (itemName unitLabel : String) (qtySet : Option Rat)
      (unitCost : Option Rat) (expiryDate : Option String) (isActive : Nat)
      (actor now : String)
  | editRequest (reqId : Nat) (name phone email noteText rejectReason status : String)
      (qtys : Nat → Option Rat) (actor now : String)

def applyOp (s : Store) (op : PantryOp) : Store :=
  match op with
  | .submit n p e nt q now => (member_request_submit s n p e nt q now).1
  | .decide rid d rr a now => (manager_decide_request s rid d rr a now).1
  | .bulk ids act rr a now => (manager_requests_bulk s ids act rr a now).1
  | .addItem n u ed uc iq a now => (manager_add_item s n u ed uc iq a now).1
  | .intake iid aq eu ucu ia a now => (manager_update_item s iid aq eu ucu ia a now).1
  | .editItem iid n u qs uc ed ia a now =>
      (manager_edit_item s iid n u qs uc ed ia a now).1
  | .editRequest rid n p e nt rr st q a now =>
      (manager_request_edit s rid n p e nt rr st q a now).1

def applyOps (s : Store) (ops : List PantryOp) : Store :=
  ops.foldl applyOp s

/-- Conditions under which a store round-trips through export/import: they are
facts SQLite enforces (key uniqueness) or that every write path of the
application establishes (trimmed non-empty names and units, canonical
uppercase statuses, movements referencing live items, IN/OUT movement types). -/
structure ExportWF (s : Store) : Prop where
  itemsNodup : (s.items.map (·.itemId)).Nodup
  itemNamesNodup : (s.items.map (·.itemName)).Nodup
  itemNameCanon : ∀ it ∈ s.items, it.itemName.pyStrip = it.itemName ∧ it.itemName ≠ ""
  itemUnitCanon : ∀ it ∈ s.items, it.unit.pyStrip ≠ ""
  memberNameCanon : ∀ m ∈ s.members, m.name.pyStrip ≠ ""
  requestsNodup : (s.requests.map (·.requestId)).Nodup
  requestMember : ∀ r ∈ s.requests, ∃ m ∈ s.members, m.memberId = r.memberId
  statusCanon : ∀ r ∈ s.requests, normStatus r.status = r.status
  movementsNodup : (s.movements.map (·.movementId)).Nodup
  movementItem : ∀ m ∈ s.movements, ∃ it ∈ s.items, it.itemId = m.itemId
  movementTypeCanon : ∀ m ∈ s.movements, m.movementType.pyStrip.pyUpper ≠ ""
  usernamesNodup : (s.managers.map (·.username)).Nodup
  managersNodup : (s.managers.map (·.managerId)).Nodup
  usernameCanon : ∀ g ∈ s.managers, g.username.pyStrip = g.username ∧ g.username ≠ ""

/-! ### Concrete fixtures used by the scenario and counterexample theorems -/

def riceItem : Item := ⟨1, "Rice", "bag", 10, none, 1, none⟩
def amaMember : Member := ⟨1, "Ama", "555", "a@x", "t0"⟩
def requestA : RequestRow := ⟨1, 1, "PENDING", "", "", "t0", none, none⟩
def requestB : RequestRow := ⟨2, 1, "PENDING", "", "", "t0", none, none⟩
def lineA : RequestLine := ⟨1, 1, 6⟩
def lineB : RequestLine := ⟨2, 1, 6⟩

/-- Item "Rice (bag)" qty 10; requests A and B, both PENDING, each asking 6. -/
def baseStore : Store :=
  { items := [riceItem], members := [amaMember],
    requests := [requestA, requestB],
    requestItems := [lineA, lineB], movements := [], managers := [],
    nextItemId := 2, nextMemberId := 2, nextRequestId := 3,
    nextMovementId := 1, nextManagerId := 1 }

/-- baseStore with the item flagged inactive (for the APPROVE re-validation). -/
def inactiveStore : Store := { baseStore with items := [{ riceItem with isActive := 0 }] }

/-- baseStore with B already APPROVED plus a third PENDING request C. -/
def bulkStore : Store :=
  { baseStore with
    requests := [requestA, { requestB with status := "APPROVED" },
      ⟨3, 1, "PENDING", "", "", "t0", none, none⟩],
    nextRequestId := 4 }

/-- A store holding only the member and the item (no requests). -/
def memberOnlyStore : Store :=
  { baseStore with requests := [], requestItems := [] }

/-- A store holding only the Rice item. -/
def itemOnlyStore : Store :=
  { baseStore with
    members := [], requests := [], requestItems := [],
    nextMemberId := 1, nextRequestId := 1 }

/-- Items CSV row whose item_id (5) is absent but whose item_name matches. -/
def c5Row : ItemsRow := ⟨some 5, "Rice", "bag", some 7, none, "", "Active"⟩

/-- Items CSV row importing quantity 5 into an empty store. -/
def c2Row : ItemsRow := ⟨some 1, "Beans", "bag", some 5, none, "", "Active"⟩

/-- The store produced by importing c2Row into the empty store. -/
def c2BadStore : Store :=
  { emptyStore with items := [⟨1, "Beans", "bag", 5, none, 1, none⟩], nextItemId := 2 }

/-- Items CSV row carrying a negative qty_available. -/
def c3Row : ItemsRow := ⟨some 1, "Beans", "bag", some (-5), none, "", "Active"⟩

/-- The store produced by importing c3Row into the empty store. -/
def c3BadStore : Store :=
  { emptyStore with items := [⟨1, "Beans", "bag", -5, none, 1, none⟩], nextItemId := 2 }

/-- A store in which request 1 is already APPROVED with one line. -/
def c6Store : Store :=
  { baseStore with
    requests := [{ requestA with status := "APPROVED" }],
    requestItems := [lineA] }

/-- Requests CSV row re-importing request id 1 with status PENDING and no lines. -/
def c6Row : RequestsRow := ⟨some 1, "PENDING", "t0", "Ama", "555", "a@x", "", "", ""⟩

/-- Movements CSV row with a BLANK movement_id. -/
def c10Row : MovementsRow := ⟨none, some 1, "IN", some 2, "", "m", "t0"⟩

/-- A minimal well-formed store exercising every export section: one item, one
member, one PENDING request with one line, one movement, one manager. -/
def roundTripStore : Store :=
  { items := [riceItem], members := [amaMember], requests := [requestA],
    requestItems := [lineA],
    movements := [⟨1, 1, "IN", 10, "Initial stock", "mgr", "t0"⟩],
    managers := [⟨1, "admin", "adm@x", "h1", 1, "t0"⟩],
    nextItemId := 2, nextMemberId := 2, nextRequestId := 2,
    nextMovementId := 2, nextManagerId := 2 }

/-- The store after approving request A on baseStore, with the deducted
quantity written as the literal 4 (= 10 - 6). -/
def afterAStore : Store :=
  { items := [⟨1, "Rice", "bag", 4, none, 1, none⟩], members := [amaMember],
    requests := [⟨1, 1, "APPROVED", "", "", "t0", some "t1", some "mgr"⟩, requestB],
    requestItems := [lineA, lineB],
    movements := [⟨1, 1, "OUT", 6, "Approved request #1", "mgr", "t1"⟩],
    managers := [],
    nextItemId := 2, nextMemberId := 2, nextRequestId := 3,
    nextMovementId := 2, nextManagerId := 1 }

/-- Two active items for the submission line-filter scenario. -/
def twoItemStore : Store :=
  { itemOnlyStore with
    items := [riceItem, ⟨2, "Beans", "tin", 8, none, 1, none⟩],
    nextItemId := 3 }

/-- Movements CSV row with an explicit movement_id (7). -/
def mvRow7 : MovementsRow := ⟨some 7, some 1, "IN", some 2, "", "m", "t0"⟩

/-- itemOnlyStore after importing mvRow7 once. -/
def c10OnceStore : Store :=
  { itemOnlyStore with
    movements := [⟨7, 1, "IN", 2, "", "m", "t0"⟩],
    nextMovementId := 8 }

/-- The five-way case split the items import actually performs (the C5
theorem proves it): update in place by id; INSERT under a given fresh id with
no name fallback; IntegrityError in the exact situation the claim expects a
name-merge; update by name only when the row carries no id; insert fresh
otherwise. -/
def ItemsMergeSpec (s : Store) (row : ItemsRow) : Prop :=
  (∀ iid, row.itemId = some iid → (findItemById s iid).isSome = true →
    (s.items.find? fun it =>
      it.itemName == row.itemName.pyStrip && it.itemId != iid).isNone = true →
    ∃ t, importItemsRowStep s row = .ok (t, 0, 1) ∧
      t.items.map (fun it => it.itemId) = s.items.map (fun it => it.itemId) ∧
      ∀ it ∈ t.items, it.itemId = iid →
        it.qtyAvailable = row.qtyAvailable.getD 0) ∧
  (∀ iid, row.itemId = some iid → findItemById s iid = none →
    findItemByName s row.itemName.pyStrip = none →
    ∃ t, importItemsRowStep s row = .ok (t, 1, 0) ∧
      t.items.map (fun it => it.itemId)
        = s.items.map (fun it => it.itemId) ++ [iid]) ∧
  (∀ iid, row.itemId = some iid → findItemById s iid = none →
    (findItemByName s row.itemName.pyStrip).isSome = true →
    importItemsRowStep s row = .error "IntegrityError: items.item_name") ∧
  (row.itemId = none → ∀ ex, findItemByName s row.itemName.pyStrip = some ex →
    ∃ t, importItemsRowStep s row = .ok (t, 0, 1) ∧
      t.items.map (fun it => it.itemId) = s.items.map (fun it => it.itemId) ∧
      ∀ it ∈ t.items, it.itemId = ex.itemId →
        it.qtyAvailable = row.qtyAvailable.getD 0) ∧
  (row.itemId = none → findItemByName s row.itemName.pyStrip = none →
    ∃ t, importItemsRowStep s row = .ok (t, 1, 0) ∧
      t.items.map (fun it => it.itemId)
        = s.items.map (fun it => it.itemId) ++ [s.nextItemId])

/-- Flattening of the four bulk result buckets back into one id list. -/
def bulkFlatten (res : BulkResults) : List Nat :=
  res.approved ++ res.rejected ++ res.skipped.map Prod.fst ++ res.failed.map Prod.fst

/-- The Item that importing an id-carrying exported row into a store where the
id and name are fresh inserts. -/
def itemOfRow (row : ItemsRow) : Item :=
  ⟨row.itemId.getD 0, row.itemName.pyStrip, row.unit.pyStrip,
    row.qtyAvailable.getD 0, row.unitCost, parse_bool_status row.status,
    optOfTrim row.expiryDate⟩

/-- Equality of Except results is decidable componentwise. -/
instance {e a : Type} [DecidableEq e] [DecidableEq a] : DecidableEq (Except e a) :=
  fun x y =>
    match x, y with
    | .ok u, .ok v =>
      if h : u = v then isTrue (by rw [h]) else isFalse (by intro hc; cases hc; exact h rfl)
    | .error u, .error v =>
      if h : u = v then isTrue (by rw [h]) else isFalse (by intro hc; cases hc; exact h rfl)
    | .ok _, .error _ => isFalse (by intro hc; cases hc)
    | .error _, .ok _ => isFalse (by intro hc; cases hc)

/-! ### Claim theorems: concrete evidence -/

/-- C1: refuted by the code as written. POST /manager/decide with
decision=REJECT on PENDING request 1 does NOT set status REJECTED: the REJECT
branch is unreachable (dead code after the early return), so the request is
APPROVED, 6 units of stock are deducted (10 → 4) and an OUT StockMovement is
appended — the exact opposite of "no stock effect". -/
theorem c1_reject_decides_approve_bug :
    (manager_decide_request baseStore 1 "REJECT" "out of season" "mgr" "t1").2
        = .approvedOk ∧
    ((findRequest (manager_decide_request baseStore 1 "REJECT" "out of season"
        "mgr" "t1").1 1).map (·.status)) = some "APPROVED" ∧
    ((findItemById (manager_decide_request baseStore 1 "REJECT" "out of season"
        "mgr" "t1").1 1).map (·.qtyAvailable)) = some 4 ∧
    ((manager_decide_request baseStore 1 "REJECT" "out of season"
        "mgr" "t1").1.movements.map (fun m => (m.movementType, m.itemId, m.qty)))
        = [("OUT", 1, 6)] := by
  refine ⟨rfl, by decide, ?_, by decide⟩
  show some ((10 : Rat) - 6) = some 4
  norm_num

/-- C2: counterexample. One items-section import (the merge path named by the
claim) sets qty_available to 5 while appending no StockMovement, so the
signed-sum invariant fails in the resulting store. -/
theorem c2_import_breaks_ledger_counterexample :
    manager_import_items emptyStore [c2Row] = .ok (c2BadStore, 1, 0) ∧
    ¬ ledgerBalanced c2BadStore := by
  exact ⟨by decide, by decide⟩

/-- C3: counterexample to the universal non-negativity claim. The items import
(one of the operations the claim itself enumerates) accepts a negative
qty_available cell and stores it, leaving an item at -5. -/
theorem c3_import_negative_qty_counterexample :
    manager_import_items emptyStore [c3Row] = .ok (c3BadStore, 1, 0) ∧
    ¬ qtyNonneg c3BadStore := by
  exact ⟨by decide, by decide⟩

/-- C4: counterexample. The single-request Decide(APPROVE) on a PENDING
request whose only line references an INACTIVE item does not fail: it approves
the request and deducts the stock, because manager_decide_request checks only
quantities, never is_active. -/
theorem c4_single_decide_ignores_inactive_counterexample :
    ((findItemById inactiveStore 1).map (·.isActive)) = some 0 ∧
    (manager_decide_request inactiveStore 1 "APPROVE" "" "mgr" "t1").2
        = .approvedOk ∧
    ((findItemById (manager_decide_request inactiveStore 1 "APPROVE" ""
        "mgr" "t1").1 1).map (·.qtyAvailable)) = some 4 ∧
    ((findRequest (manager_decide_request inactiveStore 1 "APPROVE" ""
        "mgr" "t1").1 1).map (·.status)) = some "APPROVED" := by
  refine ⟨by decide, by decide, ?_, by decide⟩
  show some ((10 : Rat) - 6) = some 4
  norm_num

/-- C5: counterexample. An Items row with item_id 5 (absent) and item_name
Rice (present) is NOT merged into the existing row: the code inserts a new
row under id 5, which violates UNIQUE(item_name) and aborts the whole items
section with a rollback — no row is updated and nothing is created. -/
theorem c5_numeric_id_no_name_fallback_counterexample :
    manager_import_items itemOnlyStore [c5Row]
      = .error "IntegrityError: items.item_name" := by
  decide

/-- C6: counterexample for the full-backup path. Re-importing request id 1
(locally APPROVED, one RequestLine) through apply_backup_import OVERWRITES the
request — its status becomes the row's PENDING — and DELETEs its RequestLine
rows, instead of skipping the row. -/
theorem c6_backup_overwrites_request_counterexample :
    ((findRequest c6Store 1).map (·.status)) = some "APPROVED" ∧
    c6Store.requestItems.length = 1 ∧
    ((apply_backup_import c6Store [] [c6Row] [] [] false "t1").toOption.map
      (fun st => ((findRequest st 1).map (·.status), st.requestItems.length)))
      = some (some "PENDING", 0) := by
  exact ⟨by decide, by decide, by decide⟩

/-- C7: counterexample. Ama existed BEFORE the submission; an all-zero
submission under her phone number deletes her member row (the DELETE is
unconditional, not limited to a member created by this submission). -/
theorem c7_preexisting_member_deleted_counterexample :
    memberOnlyStore.members = [amaMember] ∧
    (member_request_submit memberOnlyStore "Bob" "555" "" "" (fun _ => 0) "t1").2
        = .noQuantities ∧
    (member_request_submit memberOnlyStore "Bob" "555" "" "" (fun _ => 0) "t1").1.members
        = [] := by
  exact ⟨by decide, by decide, by decide⟩

/-- C10: counterexample. A movements row with a BLANK movement_id is inserted
unconditionally, so importing the same section twice stores the movement twice:
the resulting state differs from a single import (2 rows versus 1). -/
theorem c10_blank_id_duplicates_counterexample :
    ((manager_import_stock_movements itemOnlyStore [c10Row] "t1").toOption.map
      (fun x => x.1.movements.length)) = some 1 ∧
    ((do
      let (s1, _, _) ← manager_import_stock_movements itemOnlyStore [c10Row] "t1"
      let (s2, _, _) ← manager_import_stock_movements s1 [c10Row] "t1"
      Except.ok s2.movements.length : Except String Nat)) = .ok 2 := by
  exact ⟨by decide, by decide⟩

/-! ### Ledger bookkeeping lemmas -/

theorem movementSum_append (ms₁ ms₂ : List Movement) (iid : Nat) :
    movementSum (ms₁ ++ ms₂) iid = movementSum ms₁ iid + movementSum ms₂ iid := by
  simp [movementSum]

theorem movementSum_single (m : Movement) (iid : Nat) :
    movementSum [m] iid = movementContrib m iid := by
  simp [movementSum]

theorem movementSum_eq_zero {ms : List Movement} {iid : Nat}
    (h : ∀ m ∈ ms, m.itemId ≠ iid) : movementSum ms iid = 0 := by
  induction ms with
  | nil => simp [movementSum]
  | cons m rest ih =>
    have hm : movementContrib m iid = 0 := by
      simp [movementContrib, h m (List.mem_cons_self m rest)]
    have hr : movementSum rest iid = 0 :=
      ih (fun x hx => h x (List.mem_cons_of_mem m hx))
    simp [movementSum] at hr ⊢
    simp [hm, hr]

theorem movementContrib_out (mid iid iid' : Nat) (q : Rat) (nt cb ca : String) :
    movementContrib ⟨mid, iid, "OUT", q, nt, cb, ca⟩ iid'
      = if iid = iid' then -q else 0 := by
  simp [movementContrib]

theorem movementContrib_in (mid iid iid' : Nat) (q : Rat) (nt cb ca : String) :
    movementContrib ⟨mid, iid, "IN", q, nt, cb, ca⟩ iid'
      = if iid = iid' then q else 0 := by
  simp [movementContrib]

/-! ### updateItemQty lemmas -/

theorem updateItemQty_itemId (items : List Item) (iid : Nat) (f : Rat → Rat) :
    (updateItemQty items iid f).map (·.itemId) = items.map (·.itemId) := by
  unfold updateItemQty
  induction items with
  | nil => rfl
  | cons a l ih =>
    simp only [List.map_cons, ih]
    congr 1
    split <;> rfl

theorem mem_updateItemQty {items : List Item} {iid : Nat} {f : Rat → Rat} {jt : Item}
    (h : jt ∈ updateItemQty items iid f) :
    ∃ it ∈ items,
      (it.itemId = iid ∧ jt = { it with qtyAvailable := f it.qtyAvailable }) ∨
      (it.itemId ≠ iid ∧ jt = it) := by
  unfold updateItemQty at h
  obtain ⟨it, hmem, heq⟩ := List.mem_map.mp h
  refine ⟨it, hmem, ?_⟩
  by_cases hid : it.itemId = iid
  · left
    refine ⟨hid, ?_⟩
    simp [hid] at heq
    subst hid
    exact heq.symm
  · right
    refine ⟨hid, ?_⟩
    simp [hid] at heq
    exact heq.symm

/-! ### Item lookup lemmas -/

theorem findItemById_eq_some {s : Store} {iid : Nat} {it : Item}
    (h : findItemById s iid = some it) : it ∈ s.items ∧ it.itemId = iid := by
  unfold findItemById at h
  refine ⟨List.mem_of_find?_eq_some h, ?_⟩
  have := List.find?_some h
  simpa using this

theorem find?_itemId_of_mem {items : List Item} (hn : (items.map (·.itemId)).Nodup)
    {it : Item} (hit : it ∈ items) :
    items.find? (fun x => x.itemId == it.itemId) = some it := by
  induction items with
  | nil => cases hit
  | cons a l ih =>
    rcases List.mem_cons.mp hit with h | h
    · subst h
      simp [List.find?]
    · have hne : a.itemId ≠ it.itemId := by
        intro contra
        have hmm : it.itemId ∈ l.map (·.itemId) := List.mem_map_of_mem _ h
        rw [← contra] at hmm
        exact (List.nodup_cons.mp hn).1 hmm
      simp only [List.find?]
      rw [show (a.itemId == it.itemId) = false from beq_eq_false_iff_ne.mpr hne]
      exact ih (List.nodup_cons.mp hn).2 h

theorem findItemById_of_mem {s : Store} (hn : (s.items.map (·.itemId)).Nodup)
    {it : Item} (hit : it ∈ s.items) : findItemById s it.itemId = some it :=
  find?_itemId_of_mem hn hit

theorem item_unique_of_nodup {items : List Item}
    (hn : (items.map (·.itemId)).Nodup) {it jt : Item}
    (h1 : it ∈ items) (h2 : jt ∈ items) (heq : it.itemId = jt.itemId) : it = jt :=
  List.inj_on_of_nodup_map hn h1 h2 heq

/-! ### joinLines lemmas -/

theorem mem_joinLines {items : List Item} {lines : List RequestLine} {rid : Nat}
    {row : LineJoin} (h : row ∈ joinLines items lines rid) :
    ∃ ri ∈ lines, ri.requestId = rid ∧ ri.itemId = row.itemId ∧
      ri.qtyRequested = row.qtyRequested ∧
      ∃ it, items.find? (fun x => x.itemId == ri.itemId) = some it ∧
        row.qtyAvailable = it.qtyAvailable ∧ row.itemName = it.itemName ∧
        row.isActive = it.isActive := by
  unfold joinLines at h
  obtain ⟨ri, hri, hmk⟩ := List.mem_filterMap.mp h
  obtain ⟨hmem, hreq⟩ := List.mem_filter.mp hri
  obtain ⟨it, hfind, heq⟩ := Option.map_eq_some'.mp hmk
  refine ⟨ri, hmem, by simpa using hreq, ?_, ?_, it, hfind, ?_, ?_, ?_⟩ <;>
    simp [← heq]

theorem mem_requestLinesJoined {s : Store} {rid : Nat} {row : LineJoin}
    (h : row ∈ requestLinesJoined s rid) :
    ∃ ri ∈ s.requestItems, ri.requestId = rid ∧ ri.itemId = row.itemId ∧
      ri.qtyRequested = row.qtyRequested ∧
      ∃ it, findItemById s row.itemId = some it ∧
        row.qtyAvailable = it.qtyAvailable ∧ row.itemName = it.itemName ∧
        row.isActive = it.isActive := by
  obtain ⟨ri, hmem, hreq, hid, hqty, it, hfind, h1, h2, h3⟩ :=
    mem_joinLines h
  rw [hid] at hfind
  exact ⟨ri, hmem, hreq, hid, hqty, it, hfind, h1, h2, h3⟩

/-- The item ids of one request's joined lines are distinct, given the
per-request uniqueness of request_items. -/
theorem joinLines_nodup (items : List Item) (lines : List RequestLine) (rid : Nat)
    (h : (lines.map (fun ri => (ri.requestId, ri.itemId))).Nodup) :
    ((joinLines items lines rid).map (·.itemId)).Nodup := by
  induction lines with
  | nil => simp [joinLines]
  | cons ri rest ih =>
    have htail := (List.nodup_cons.mp h).2
    have hhead := (List.nodup_cons.mp h).1
    by_cases hr : (ri.requestId == rid) = true
    · have hfilter : List.filter (fun x => x.requestId == rid) (ri :: rest)
          = ri :: List.filter (fun x => x.requestId == rid) rest := by
        simp [List.filter_cons, hr]
      unfold joinLines
      rw [hfilter]
      cases hfind : items.find? (fun x => x.itemId == ri.itemId) with
      | none =>
        simp only [List.filterMap_cons, hfind, Option.map_none']
        exact ih htail
      | some it =>
        simp only [List.filterMap_cons, hfind, Option.map_some', List.map_cons]
        rw [List.nodup_cons]
        refine ⟨?_, ih htail⟩
        intro hmem
        simp only [List.mem_map] at hmem
        obtain ⟨l, hl, hid⟩ := hmem
        obtain ⟨ri2, hri2, hreq2, hid2, -⟩ := mem_joinLines hl
        apply hhead
        show (ri.requestId, ri.itemId) ∈ rest.map fun x => (x.requestId, x.itemId)
        have hrid : ri.requestId = rid := by simpa using hr
        have hpair : (ri.requestId, ri.itemId) = (ri2.requestId, ri2.itemId) := by
          rw [hrid, hreq2, ← hid, ← hid2]
        rw [hpair]
        exact List.mem_map_of_mem _ hri2
    · have hfilter : List.filter (fun x => x.requestId == rid) (ri :: rest)
          = List.filter (fun x => x.requestId == rid) rest := by
        simp [List.filter_cons, hr]
      unfold joinLines
      rw [hfilter]
      exact ih htail

theorem requestLinesJoined_nodup {s : Store} {rid : Nat}
    (h : (s.requestItems.map (fun ri => (ri.requestId, ri.itemId))).Nodup) :
    ((requestLinesJoined s rid).map (·.itemId)).Nodup :=
  joinLines_nodup s.items s.requestItems rid h

/-! ### deductRequestLines lemmas -/

theorem deductRequestLines_cons (s : Store) (l : LineJoin) (rest : List LineJoin)
    (rid : Nat) (actor now : String) :
    deductRequestLines s (l :: rest) rid actor now =
      deductRequestLines
        { s with
          items := updateItemQty s.items l.itemId (· - l.qtyRequested),
          movements := s.movements ++
            [⟨s.nextMovementId, l.itemId, "OUT", l.qtyRequested,
              "Approved request #" ++ natText rid, actor, now⟩],
          nextMovementId := s.nextMovementId + 1 } rest rid actor now := rfl

theorem deductRequestLines_fields (s : Store) (rows : List LineJoin) (rid : Nat)
    (actor now : String) :
    (deductRequestLines s rows rid actor now).members = s.members ∧
    (deductRequestLines s rows rid actor now).requests = s.requests ∧
    (deductRequestLines s rows rid actor now).requestItems = s.requestItems ∧
    (deductRequestLines s rows rid actor now).managers = s.managers ∧
    (deductRequestLines s rows rid actor now).nextItemId = s.nextItemId ∧
    (deductRequestLines s rows rid actor now).nextRequestId = s.nextRequestId := by
  induction rows generalizing s with
  | nil => exact ⟨rfl, rfl, rfl, rfl, rfl, rfl⟩
  | cons l rest ih =>
    rw [deductRequestLines_cons]
    exact ih _

theorem deductRequestLines_itemIds (s : Store) (rows : List LineJoin) (rid : Nat)
    (actor now : String) :
    (deductRequestLines s rows rid actor now).items.map (·.itemId)
      = s.items.map (·.itemId) := by
  induction rows generalizing s with
  | nil => rfl
  | cons l rest ih =>
    rw [deductRequestLines_cons, ih]
    exact updateItemQty_itemId s.items l.itemId fun q => q - l.qtyRequested

/-- One deduction step on bare lists: subtracting a line while appending its
OUT movement preserves the signed-sum property. -/
theorem ledger_step {items : List Item} {ms : List Movement} (mid : Nat)
    (l : LineJoin) (noteText actor now : String)
    (hled : ∀ it ∈ items, it.qtyAvailable = movementSum ms it.itemId) :
    ∀ jt ∈ updateItemQty items l.itemId (· - l.qtyRequested),
      jt.qtyAvailable =
        movementSum
          (ms ++ [⟨mid, l.itemId, "OUT", l.qtyRequested, noteText, actor, now⟩])
          jt.itemId := by
  intro jt hjt
  obtain ⟨itx, hitx, hcase⟩ := mem_updateItemQty hjt
  have hbase := hled itx hitx
  rw [movementSum_append, movementSum_single]
  rcases hcase with ⟨hid, heq⟩ | ⟨hid, heq⟩ <;> rw [heq]
  · show itx.qtyAvailable - l.qtyRequested = movementSum ms itx.itemId + _
    rw [movementContrib_out, if_pos hid.symm, hbase]
    ring
  · show itx.qtyAvailable = movementSum ms itx.itemId + _
    rw [movementContrib_out, if_neg (fun hc => hid hc.symm), hbase]
    ring

/-- Each deduction step subtracts a line's quantity and logs the matching OUT
movement, so the signed-sum invariant survives the whole loop. -/
theorem deductRequestLines_ledger {s : Store} {rows : List LineJoin} {rid : Nat}
    {actor now : String} (hled : ledgerBalanced s) :
    ledgerBalanced (deductRequestLines s rows rid actor now) := by
  revert hled
  induction rows generalizing s with
  | nil => exact fun h => h
  | cons l rest ih =>
    intro hled
    rw [deductRequestLines_cons]
    apply ih
    exact fun jt hjt =>
      ledger_step s.nextMovementId l ("Approved request #" ++ natText rid)
        actor now hled jt hjt

/-- One deduction step on bare lists for non-negativity. -/
theorem nonneg_step {items : List Item} (l : LineJoin)
    (hcov : l.qtyRequested ≤ l.qtyAvailable)
    (hqty : ∀ it ∈ items, it.itemId = l.itemId → it.qtyAvailable = l.qtyAvailable)
    (hnn : ∀ it ∈ items, 0 ≤ it.qtyAvailable) :
    ∀ jt ∈ updateItemQty items l.itemId (· - l.qtyRequested), 0 ≤ jt.qtyAvailable := by
  intro jt hjt
  obtain ⟨itx, hitx, hcase⟩ := mem_updateItemQty hjt
  rcases hcase with ⟨hid, heq⟩ | ⟨hid, heq⟩ <;> rw [heq]
  · show 0 ≤ itx.qtyAvailable - l.qtyRequested
    have hq := hqty itx hitx hid
    rw [hq]
    linarith
  · exact hnn itx hitx

/-- If every line's requested quantity is covered by the item's quantity as it
stood when the join was read, the loop never drives a quantity negative
(distinct item ids per line mean each item is deducted exactly once). -/
theorem deductRequestLines_nonneg {s : Store} {rows : List LineJoin} {rid : Nat}
    {actor now : String}
    (hnd : (rows.map (·.itemId)).Nodup)
    (hrows : ∀ row ∈ rows, row.qtyRequested ≤ row.qtyAvailable ∧
      ∀ it ∈ s.items, it.itemId = row.itemId → it.qtyAvailable = row.qtyAvailable)
    (hnn : qtyNonneg s) :
    qtyNonneg (deductRequestLines s rows rid actor now) := by
  revert hnd hrows hnn
  induction rows generalizing s with
  | nil => exact fun _ _ h => h
  | cons l rest ih =>
    intro hnd hrows hnn
    rw [deductRequestLines_cons]
    have hl := hrows l (List.mem_cons_self l rest)
    have hcons := List.nodup_cons.mp (by simpa using hnd :
      (l.itemId :: rest.map (·.itemId)).Nodup)
    apply ih hcons.2
    · intro row hrow
      refine ⟨(hrows row (List.mem_cons_of_mem l hrow)).1, ?_⟩
      intro it2 hit2 hideq
      have hit2b : it2 ∈ updateItemQty s.items l.itemId (fun q => q - l.qtyRequested) :=
        hit2
      obtain ⟨itx, hitx, hcase⟩ := mem_updateItemQty hit2b
      rcases hcase with ⟨hid, heq⟩ | ⟨hid, heq⟩
      · exfalso
        apply hcons.1
        have hlr : l.itemId = row.itemId := by
          rw [← hid]
          rw [heq] at hideq
          simpa using hideq
        rw [hlr]
        exact List.mem_map_of_mem _ hrow
      · rw [heq] at hideq ⊢
        exact (hrows row (List.mem_cons_of_mem l hrow)).2 itx hitx hideq
    · exact fun jt hjt => nonneg_step l hl.1 hl.2 hnn jt hjt

/-! ### Generic map/key lemmas -/

theorem map_map_key {α β : Type} {l : List α} {f : α → α} {k : α → β}
    (hf : ∀ x, k (f x) = k x) : (l.map f).map k = l.map k := by
  induction l with
  | nil => rfl
  | cons a tl ih => simp [ih, hf]

theorem forall_mem_map_of_key {α β : Type} {l : List α} {f : α → α} {k : α → β}
    {p : β → Prop} (hf : ∀ x, k (f x) = k x) (h : ∀ x ∈ l, p (k x)) :
    ∀ y ∈ l.map f, p (k y) := by
  intro y hy
  obtain ⟨x, hx, rfl⟩ := List.mem_map.mp hy
  rw [hf]
  exact h x hx

theorem nodup_key_filter {α β : Type} (p : α → Bool) {l : List α} {k : α → β}
    (h : (l.map k).Nodup) : ((l.filter p).map k).Nodup :=
  ((List.filter_sublist l).map k).nodup h

theorem forall_mem_filter {α : Type} {p : α → Bool} {l : List α} {q : α → Prop}
    (h : ∀ x ∈ l, q x) : ∀ x ∈ l.filter p, q x :=
  fun x hx => h x (List.mem_of_mem_filter hx)

/-! ### List-level insertion/update lemmas -/

theorem nodup_key_append_fresh {α β : Type} {l : List α} {k : α → β} {a : α}
    (h : (l.map k).Nodup) (hfresh : k a ∉ l.map k) :
    ((l ++ [a]).map k).Nodup := by
  rw [List.map_append, List.nodup_append]
  refine ⟨h, List.nodup_singleton _, ?_⟩
  intro x hx hxa
  simp only [List.map_cons, List.map_nil, List.mem_singleton] at hxa
  rw [hxa] at hx
  exact hfresh hx

theorem forall_mem_append_single {α : Type} {l : List α} {a : α} {p : α → Prop}
    (h : ∀ x ∈ l, p x) (ha : p a) : ∀ x ∈ l ++ [a], p x := by
  intro x hx
  rcases List.mem_append.mp hx with hx | hx
  · exact h x hx
  · simp at hx
    rw [hx]
    exact ha

/-- Appending a fresh item together with its matching IN movement keeps the
signed sums intact. -/
theorem ledger_insert_item {items : List Item} {ms : List Movement}
    (hled : ∀ it ∈ items, it.qtyAvailable = movementSum ms it.itemId)
    (newIt : Item) (mid : Nat) (q : Rat) (nt cb ca : String)
    (hfresh : ∀ it ∈ items, it.itemId ≠ newIt.itemId)
    (hnomoves : ∀ m ∈ ms, m.itemId ≠ newIt.itemId)
    (hqty : newIt.qtyAvailable = q) :
    ∀ jt ∈ items ++ [newIt],
      jt.qtyAvailable =
        movementSum (ms ++ [⟨mid, newIt.itemId, "IN", q, nt, cb, ca⟩]) jt.itemId := by
  intro jt hjt
  rw [movementSum_append, movementSum_single, movementContrib_in]
  rcases List.mem_append.mp hjt with h | h
  · rw [if_neg (fun hc => hfresh jt h hc.symm), hled jt h]
    ring
  · simp at h
    subst h
    rw [if_pos rfl, movementSum_eq_zero hnomoves, hqty]
    ring

/-- Appending a fresh item with no movement keeps the signed sums intact when
the new quantity is zero. -/
theorem ledger_insert_item_nomv {items : List Item} {ms : List Movement}
    (hled : ∀ it ∈ items, it.qtyAvailable = movementSum ms it.itemId)
    (newIt : Item)
    (hnomoves : ∀ m ∈ ms, m.itemId ≠ newIt.itemId)
    (hqty : newIt.qtyAvailable = 0) :
    ∀ jt ∈ items ++ [newIt], jt.qtyAvailable = movementSum ms jt.itemId := by
  intro jt hjt
  rcases List.mem_append.mp hjt with h | h
  · exact hled jt h
  · simp at h
    subst h
    rw [movementSum_eq_zero hnomoves, hqty]

/-- A field rewrite that touches neither item id nor quantity transports the
signed-sum property. -/
theorem ledger_map_preserving {items : List Item} {ms : List Movement}
    (hled : ∀ it ∈ items, it.qtyAvailable = movementSum ms it.itemId)
    {g : Item → Item}
    (hg : ∀ x, (g x).itemId = x.itemId ∧ (g x).qtyAvailable = x.qtyAvailable) :
    ∀ jt ∈ items.map g, jt.qtyAvailable = movementSum ms jt.itemId := by
  intro jt hjt
  obtain ⟨x, hx, rfl⟩ := List.mem_map.mp hjt
  rw [(hg x).1, (hg x).2]
  exact hled x hx

theorem nonneg_map_preserving {items : List Item}
    (hnn : ∀ it ∈ items, 0 ≤ it.qtyAvailable) {g : Item → Item}
    (hg : ∀ x, (g x).qtyAvailable = x.qtyAvailable) :
    ∀ jt ∈ items.map g, 0 ≤ jt.qtyAvailable := by
  intro jt hjt
  obtain ⟨x, hx, rfl⟩ := List.mem_map.mp hjt
  rw [hg x]
  exact hnn x hx

/-- Stock intake on an item plus the matching IN movement preserves the
signed sums. -/
theorem ledger_intake {items : List Item} {ms : List Movement}
    (hled : ∀ it ∈ items, it.qtyAvailable = movementSum ms it.itemId)
    (iid : Nat) (q : Rat) (mid : Nat) (nt cb ca : String) :
    ∀ jt ∈ updateItemQty items iid (· + q),
      jt.qtyAvailable =
        movementSum (ms ++ [⟨mid, iid, "IN", q, nt, cb, ca⟩]) jt.itemId := by
  intro jt hjt
  obtain ⟨itx, hitx, hcase⟩ := mem_updateItemQty hjt
  have hbase := hled itx hitx
  rw [movementSum_append, movementSum_single, movementContrib_in]
  rcases hcase with ⟨hid, heq⟩ | ⟨hid, heq⟩
  · have hjq : jt.qtyAvailable = itx.qtyAvailable + q := by rw [heq]
    have hjid : jt.itemId = itx.itemId := by rw [heq]
    rw [hjq, hjid, if_pos hid.symm, hbase]
  · rw [heq, if_neg (fun hc => hid hc.symm), hbase]
    ring

/-- The manual set-quantity path: rewriting the quantity to q while logging a
movement of |q - current| in the appropriate direction preserves the sums. -/
theorem ledger_setqty {items : List Item} {ms : List Movement}
    (hled : ∀ it ∈ items, it.qtyAvailable = movementSum ms it.itemId)
    {iid : Nat} {current q : Rat}
    (hcur : ∀ it ∈ items, it.itemId = iid → it.qtyAvailable = current)
    (mid : Nat) (nt cb ca : String) :
    ∀ jt ∈ updateItemQty items iid (fun _ => q),
      jt.qtyAvailable =
        movementSum
          (ms ++ [⟨mid, iid, (if 0 < q - current then "IN" else "OUT"),
            |q - current|, nt, cb, ca⟩]) jt.itemId := by
  intro jt hjt
  obtain ⟨itx, hitx, hcase⟩ := mem_updateItemQty hjt
  have hbase := hled itx hitx
  rw [movementSum_append, movementSum_single]
  rcases hcase with ⟨hid, heq⟩ | ⟨hid, heq⟩
  · have hjq : jt.qtyAvailable = q := by rw [heq]
    have hjid : jt.itemId = itx.itemId := by rw [heq]
    have hms : movementSum ms itx.itemId = current := by
      rw [← hbase]
      exact hcur itx hitx hid
    rw [hjq, hjid, hms]
    by_cases hd : 0 < q - current
    · rw [if_pos hd, movementContrib_in, if_pos hid.symm, abs_of_pos hd]
      ring
    · rw [if_neg hd, movementContrib_out, if_pos hid.symm,
        abs_of_nonpos (le_of_not_lt (fun hgt => hd (by linarith)))]
      ring
  · rw [heq]
    have hcontrib : movementContrib
        ⟨mid, iid, (if 0 < q - current then "IN" else "OUT"),
          |q - current|, nt, cb, ca⟩ itx.itemId = 0 := by
      by_cases hd : 0 < q - current
      · rw [if_pos hd, movementContrib_in, if_neg (fun hc => hid hc.symm)]
      · rw [if_neg hd, movementContrib_out, if_neg (fun hc => hid hc.symm)]
    rw [hcontrib, hbase]
    ring

/-! ### Operation-by-operation preservation of the invariants -/

theorem manager_add_item_inv (s : Store) (itemName unitLabel : String)
    (expiryDate : Option String) (unitCost : Option Rat) (initialQty : Rat)
    (actor now : String) (hwf : StoreWF s) :
    StoreWF (manager_add_item s itemName unitLabel expiryDate unitCost
        initialQty actor now).1 ∧
    (ledgerBalanced s → ledgerBalanced (manager_add_item s itemName unitLabel
        expiryDate unitCost initialQty actor now).1) ∧
    (qtyNonneg s → qtyNonneg (manager_add_item s itemName unitLabel
        expiryDate unitCost initialQty actor now).1) := by
  simp only [manager_add_item]
  by_cases h1 : itemName.pyStrip = "" ∨ unitLabel.pyStrip = ""
  · rw [if_pos h1]
    exact ⟨hwf, fun h => h, fun h => h⟩
  rw [if_neg h1]
  by_cases h2 : (findItemByName s itemName.pyStrip).isSome
  · rw [if_pos h2]
    exact ⟨hwf, fun h => h, fun h => h⟩
  rw [if_neg h2]
  have hfresh : ∀ it ∈ s.items, it.itemId ≠ s.nextItemId :=
    fun it hit => Nat.ne_of_lt (hwf.itemsLt it hit)
  have hfreshm : s.nextItemId ∉ s.items.map (·.itemId) := by
    intro hc
    obtain ⟨itx, hitx, hid⟩ := List.mem_map.mp hc
    exact hfresh itx hitx hid
  have hnomoves : ∀ m ∈ s.movements, m.itemId ≠ s.nextItemId :=
    fun m hm => Nat.ne_of_lt (hwf.movementsItemLt m hm)
  by_cases h3 : 0 < initialQty
  · rw [if_pos h3]
    refine ⟨?_, ?_, ?_⟩
    · refine ⟨?_, ?_, hwf.requestsLt, ?_, hwf.linesNodup, hwf.linesReqLt⟩
      · exact nodup_key_append_fresh hwf.itemsNodup hfreshm
      · exact forall_mem_append_single
          (fun it hit => Nat.lt_succ_of_lt (hwf.itemsLt it hit))
          (Nat.lt_succ_self _)
      · exact forall_mem_append_single
          (fun m hm => Nat.lt_succ_of_lt (hwf.movementsItemLt m hm))
          (Nat.lt_succ_self _)
    · intro hled
      have hq : max (0 : Rat) initialQty = initialQty := max_eq_right (le_of_lt h3)
      exact ledger_insert_item hled _ s.nextMovementId initialQty
        "Initial stock" actor now hfresh hnomoves hq
    · intro hnn
      exact forall_mem_append_single hnn (le_max_left 0 initialQty)
  · rw [if_neg h3]
    refine ⟨?_, ?_, ?_⟩
    · refine ⟨?_, ?_, hwf.requestsLt, ?_, hwf.linesNodup, hwf.linesReqLt⟩
      · exact nodup_key_append_fresh hwf.itemsNodup hfreshm
      · exact forall_mem_append_single
          (fun it hit => Nat.lt_succ_of_lt (hwf.itemsLt it hit))
          (Nat.lt_succ_self _)
      · exact fun m hm => Nat.lt_succ_of_lt (hwf.movementsItemLt m hm)
    · intro hled
      have hq : max (0 : Rat) initialQty = 0 := max_eq_left (le_of_not_lt h3)
      exact ledger_insert_item_nomv hled _ hnomoves hq
    · intro hnn
      exact forall_mem_append_single hnn (le_max_left 0 initialQty)

theorem forall_key_of_map_eq {α β : Type} {l l2 : List α} {k : α → β} {p : β → Prop}
    (heq : l2.map k = l.map k) (h : ∀ x ∈ l, p (k x)) : ∀ x ∈ l2, p (k x) := by
  intro x hx
  have hmem : k x ∈ l2.map k := List.mem_map_of_mem _ hx
  rw [heq] at hmem
  obtain ⟨y, hy, hk⟩ := List.mem_map.mp hmem
  rw [← hk]
  exact h y hy

theorem nonneg_intake {items : List Item} (hnn : ∀ it ∈ items, 0 ≤ it.qtyAvailable)
    (iid : Nat) {q : Rat} (hq : 0 ≤ q) :
    ∀ jt ∈ updateItemQty items iid (· + q), 0 ≤ jt.qtyAvailable := by
  intro jt hjt
  obtain ⟨itx, hitx, hcase⟩ := mem_updateItemQty hjt
  rcases hcase with ⟨hid, heq⟩ | ⟨hid, heq⟩
  · have hjq : jt.qtyAvailable = itx.qtyAvailable + q := by rw [heq]
    rw [hjq]
    have := hnn itx hitx
    linarith
  · rw [heq]
    exact hnn itx hitx

theorem manager_update_item_inv (s : Store) (iid : Nat) (addQty : Rat)
    (expiryUpdate : Option String) (unitCostUpdate : Option Rat) (isActive : Nat)
    (actor now : String) (hwf : StoreWF s) :
    StoreWF (manager_update_item s iid addQty expiryUpdate unitCostUpdate
        isActive actor now).1 ∧
    (ledgerBalanced s → ledgerBalanced (manager_update_item s iid addQty
        expiryUpdate unitCostUpdate isActive actor now).1) ∧
    (qtyNonneg s → qtyNonneg (manager_update_item s iid addQty
        expiryUpdate unitCostUpdate isActive actor now).1) := by
  have hg : ∀ x : Item,
      ((if x.itemId == iid then
        { x with
          expiryDate := match expiryUpdate with | some e => some e | none => x.expiryDate,
          unitCost := match unitCostUpdate with | some v => some v | none => x.unitCost,
          isActive := isActive }
      else x) : Item).itemId = x.itemId ∧
      ((if x.itemId == iid then
        { x with
          expiryDate := match expiryUpdate with | some e => some e | none => x.expiryDate,
          unitCost := match unitCostUpdate with | some v => some v | none => x.unitCost,
          isActive := isActive }
      else x) : Item).qtyAvailable = x.qtyAvailable := by
    intro x
    constructor <;> (split <;> rfl)
  simp only [manager_update_item]
  by_cases h1 : 0 < addQty
  · rw [if_pos h1]
    by_cases h2 : (findItemById s iid).isNone
    · rw [if_pos h2]
      exact ⟨hwf, fun h => h, fun h => h⟩
    · rw [if_neg h2]
      have hmem : ∃ itf, findItemById s iid = some itf := by
        cases hfind : findItemById s iid with
        | none => exact absurd (by rw [hfind]; rfl) h2
        | some itf => exact ⟨itf, rfl⟩
      obtain ⟨itf, hitf⟩ := hmem
      have hitmem := findItemById_eq_some hitf
      have hiidlt : iid < s.nextItemId := hitmem.2 ▸ hwf.itemsLt itf hitmem.1
      have hids : ∀ g : Item → Item, (∀ x : Item, (g x).itemId = x.itemId) →
          ((updateItemQty s.items iid (· + addQty)).map g).map (·.itemId)
            = s.items.map (·.itemId) := by
        intro g hgid
        rw [map_map_key hgid]
        exact updateItemQty_itemId s.items iid _
      refine ⟨⟨?_, ?_, hwf.requestsLt, ?_, hwf.linesNodup, hwf.linesReqLt⟩, ?_, ?_⟩
      · rw [hids _ (fun x => (hg x).1)]
        exact hwf.itemsNodup
      · exact @forall_key_of_map_eq Item Nat _ _ (fun it => it.itemId)
          (fun n => n < s.nextItemId) (hids _ (fun x => (hg x).1)) hwf.itemsLt
      · exact forall_mem_append_single hwf.movementsItemLt hiidlt
      · intro hled
        exact ledger_map_preserving
          (ledger_intake hled iid addQty s.nextMovementId "Intake" actor now) hg
      · intro hnn
        exact nonneg_map_preserving
          (nonneg_intake hnn iid (le_of_lt h1)) (fun x => (hg x).2)
  · rw [if_neg h1]
    refine ⟨⟨?_, ?_, hwf.requestsLt, hwf.movementsItemLt, hwf.linesNodup,
      hwf.linesReqLt⟩, ?_, ?_⟩
    · rw [map_map_key (fun x => (hg x).1)]
      exact hwf.itemsNodup
    · exact @forall_key_of_map_eq Item Nat _ _ (fun it => it.itemId)
          (fun n => n < s.nextItemId) (map_map_key (fun x => (hg x).1)) hwf.itemsLt
    · intro hled
      exact ledger_map_preserving hled hg
    · intro hnn
      exact nonneg_map_preserving hnn (fun x => (hg x).2)

theorem nonneg_setqty {items : List Item}
    (hnn : ∀ it ∈ items, 0 ≤ it.qtyAvailable) (iid : Nat) {q : Rat} (hq : 0 ≤ q) :
    ∀ jt ∈ updateItemQty items iid (fun _ => q), 0 ≤ jt.qtyAvailable := by
  intro jt hjt
  obtain ⟨itx, hitx, hcase⟩ := mem_updateItemQty hjt
  rcases hcase with ⟨hid, heq⟩ | ⟨hid, heq⟩
  · have hjq : jt.qtyAvailable = q := by rw [heq]
    rw [hjq]
    exact hq
  · rw [heq]
    exact hnn itx hitx

theorem manager_edit_item_inv (s : Store) (iid : Nat) (itemName unitLabel : String)
    (qtySet : Option Rat) (unitCost : Option Rat) (expiryDate : Option String)
    (isActive : Nat) (actor now : String) (hwf : StoreWF s) :
    StoreWF (manager_edit_item s iid itemName unitLabel qtySet unitCost
        expiryDate isActive actor now).1 ∧
    (ledgerBalanced s → ledgerBalanced (manager_edit_item s iid itemName unitLabel
        qtySet unitCost expiryDate isActive actor now).1) ∧
    (qtyNonneg s → qtyNonneg (manager_edit_item s iid itemName unitLabel
        qtySet unitCost expiryDate isActive actor now).1) := by
  have hg : ∀ x : Item,
      ((if x.itemId == iid then
        { x with
            itemName := itemName.pyStrip, unit := unitLabel.pyStrip,
            unitCost := unitCost, expiryDate := expiryDate, isActive := isActive }
      else x) : Item).itemId = x.itemId ∧
      ((if x.itemId == iid then
        { x with
            itemName := itemName.pyStrip, unit := unitLabel.pyStrip,
            unitCost := unitCost, expiryDate := expiryDate, isActive := isActive }
      else x) : Item).qtyAvailable = x.qtyAvailable := by
    intro x
    constructor <;> (split <;> rfl)
  have hmapids : (s.items.map fun x =>
      (if x.itemId == iid then
        { x with
            itemName := itemName.pyStrip, unit := unitLabel.pyStrip,
            unitCost := unitCost, expiryDate := expiryDate, isActive := isActive }
      else x : Item)).map (·.itemId) = s.items.map (·.itemId) :=
    map_map_key (fun x => (hg x).1)
  simp only [manager_edit_item]
  by_cases h1 : itemName.pyStrip = "" ∨ unitLabel.pyStrip = ""
  · rw [if_pos h1]
    exact ⟨hwf, fun h => h, fun h => h⟩
  rw [if_neg h1]
  by_cases h2 : (match qtySet with | some q => decide (q < 0) | none => false) = true
  · rw [if_pos h2]
    exact ⟨hwf, fun h => h, fun h => h⟩
  rw [if_neg h2]
  cases hfind : findItemById s iid with
  | none =>
    simp only [hfind]
    exact ⟨hwf, fun h => h, fun h => h⟩
  | some current =>
    simp only [hfind]
    have hcurmem := findItemById_eq_some hfind
    have hiidlt : iid < s.nextItemId := hcurmem.2 ▸ hwf.itemsLt current hcurmem.1
    by_cases h3 : (s.items.find? fun it =>
        it.itemName == itemName.pyStrip && it.itemId != iid).isSome
    · rw [if_pos h3]
      exact ⟨hwf, fun h => h, fun h => h⟩
    rw [if_neg h3]
    have hwfmap : StoreWF { s with items := s.items.map fun x =>
        (if x.itemId == iid then
          { x with
            itemName := itemName.pyStrip, unit := unitLabel.pyStrip,
            unitCost := unitCost, expiryDate := expiryDate, isActive := isActive }
        else x : Item) } := by
      refine ⟨?_, ?_, hwf.requestsLt, hwf.movementsItemLt, hwf.linesNodup,
        hwf.linesReqLt⟩
      · rw [hmapids]
        exact hwf.itemsNodup
      · exact @forall_key_of_map_eq Item Nat _ _ (fun it => it.itemId)
          (fun n => n < s.nextItemId) hmapids hwf.itemsLt
    cases qtySet with
    | none =>
      dsimp only
      refine ⟨hwfmap, ?_, ?_⟩
      · intro hled
        exact ledger_map_preserving hled hg
      · intro hnn
        exact nonneg_map_preserving hnn (fun x => (hg x).2)
    | some q =>
      dsimp only
      have hq0x : ¬ q < 0 := by
        intro hneg
        exact h2 (by simp [hneg])
      have hq0 : 0 ≤ q := le_of_not_lt hq0x
      by_cases h4 : q ≠ current.qtyAvailable
      · rw [if_pos h4]
        have hcur2 : ∀ it2 ∈ s.items.map (fun x =>
            (if x.itemId == iid then
              { x with
                itemName := itemName.pyStrip, unit := unitLabel.pyStrip,
                unitCost := unitCost, expiryDate := expiryDate,
                isActive := isActive }
            else x : Item)),
            it2.itemId = iid → it2.qtyAvailable = current.qtyAvailable := by
          intro it2 hit2 hid2
          obtain ⟨x, hx, rfl⟩ := List.mem_map.mp hit2
          rw [(hg x).2]
          have hxid : x.itemId = iid := by rw [← (hg x).1]; exact hid2
          have : x = current :=
            item_unique_of_nodup hwf.itemsNodup hx hcurmem.1 (by rw [hxid, hcurmem.2])
          rw [this]
        refine ⟨?_, ?_, ?_⟩
        · refine ⟨?_, ?_, hwf.requestsLt, ?_, hwf.linesNodup, hwf.linesReqLt⟩
          · rw [updateItemQty_itemId, hmapids]
            exact hwf.itemsNodup
          · exact @forall_key_of_map_eq Item Nat _ _ (fun it => it.itemId)
              (fun n => n < s.nextItemId)
              (by rw [updateItemQty_itemId, hmapids]) hwf.itemsLt
          · exact forall_mem_append_single hwf.movementsItemLt hiidlt
        · intro hled
          exact ledger_setqty (ledger_map_preserving hled hg) hcur2
            s.nextMovementId "Manual adjustment" actor now
        · intro hnn
          exact nonneg_setqty (nonneg_map_preserving hnn (fun x => (hg x).2)) iid hq0
      · rw [if_neg h4]
        refine ⟨hwfmap, ?_, ?_⟩
        · intro hled
          exact ledger_map_preserving hled hg
        · intro hnn
          exact nonneg_map_preserving hnn (fun x => (hg x).2)

/-! ### Submission and request-edit preservation -/

theorem ledger_of_eq {s t : Store} (hit : t.items = s.items)
    (hmv : t.movements = s.movements) (h : ledgerBalanced s) : ledgerBalanced t := by
  simp only [ledgerBalanced, hit, hmv]
  exact h

theorem qtyNonneg_of_eq {s t : Store} (hit : t.items = s.items)
    (h : qtyNonneg s) : qtyNonneg t := by
  simp only [qtyNonneg, hit]
  exact h

theorem lines_append_nodup {lines newLines : List RequestLine} {c : Nat}
    (hold : (lines.map (fun ri => (ri.requestId, ri.itemId))).Nodup)
    (hne : ∀ ri ∈ lines, ri.requestId ≠ c)
    (hnew : (newLines.map (fun ri => (ri.requestId, ri.itemId))).Nodup)
    (hnewid : ∀ ri ∈ newLines, ri.requestId = c) :
    ((lines ++ newLines).map (fun ri => (ri.requestId, ri.itemId))).Nodup := by
  rw [List.map_append, List.nodup_append]
  refine ⟨hold, hnew, ?_⟩
  intro p hp hq
  obtain ⟨ri, hri, hre⟩ := List.mem_map.mp hp
  obtain ⟨rj, hrj, hrf⟩ := List.mem_map.mp hq
  have hfst : ri.requestId = rj.requestId := by
    have : (ri.requestId, ri.itemId) = (rj.requestId, rj.itemId) := by
      rw [hre, ← hrf]
    exact congrArg Prod.fst this
  exact hne ri hri (by rw [hfst, hnewid rj hrj])

theorem chosen_lines_nodup {l : List Item} (h : (l.map (·.itemId)).Nodup)
    (rid : Nat) (q : Nat → Rat) :
    ((l.map (fun it => RequestLine.mk rid it.itemId (q it.itemId))).map
      (fun ri => (ri.requestId, ri.itemId))).Nodup := by
  rw [List.map_map]
  have heq : ((fun ri => (ri.requestId, ri.itemId)) ∘
      (fun it => RequestLine.mk rid it.itemId (q it.itemId)))
      = (fun n => (rid, n)) ∘ (fun it : Item => it.itemId) := rfl
  rw [heq, ← List.map_map]
  exact h.map (fun a b hab => by simpa using hab)

theorem forall_mem_map_mk {l : List Item} {rid : Nat} {q : Nat → Rat}
    {p : RequestLine → Prop}
    (h : ∀ it ∈ l, p (RequestLine.mk rid it.itemId (q it.itemId))) :
    ∀ ri ∈ l.map (fun it => RequestLine.mk rid it.itemId (q it.itemId)), p ri := by
  intro ri hri
  obtain ⟨x, hx, rfl⟩ := List.mem_map.mp hri
  exact h x hx

theorem member_request_submit_inv (s : Store) (name phone email noteText : String)
    (qtys : Nat → Rat) (now : String) (hwf : StoreWF s) :
    StoreWF (member_request_submit s name phone email noteText qtys now).1 ∧
    (member_request_submit s name phone email noteText qtys now).1.items = s.items ∧
    (member_request_submit s name phone email noteText qtys now).1.movements
      = s.movements := by
  have hlinesnd : ((s.requestItems ++
      ((eligibleItems s).filter (fun it => decide (0 < qtys it.itemId))).map
        (fun it => RequestLine.mk s.nextRequestId it.itemId (qtys it.itemId))).map
      (fun ri => (ri.requestId, ri.itemId))).Nodup :=
    lines_append_nodup hwf.linesNodup
      (fun ri hri => Nat.ne_of_lt (hwf.linesReqLt ri hri))
      (chosen_lines_nodup (nodup_key_filter _ (nodup_key_filter _ hwf.itemsNodup))
        s.nextRequestId qtys)
      (forall_mem_map_mk (fun _ _ => rfl))
  have hlineslt : ∀ ri ∈ s.requestItems ++
      ((eligibleItems s).filter (fun it => decide (0 < qtys it.itemId))).map
        (fun it => RequestLine.mk s.nextRequestId it.itemId (qtys it.itemId)),
      ri.requestId < s.nextRequestId + 1 :=
    List.forall_mem_append.mpr
      ⟨fun ri hri => Nat.lt_succ_of_lt (hwf.linesReqLt ri hri),
       forall_mem_map_mk (fun _ _ => Nat.lt_succ_self _)⟩
  simp only [member_request_submit]
  by_cases h1 : name.pyStrip = "" ∨ phone.pyStrip = ""
  · rw [if_pos h1]
    exact ⟨hwf, rfl, rfl⟩
  rw [if_neg h1]
  cases hm : latestMemberMatch s.members email.pyStrip phone.pyStrip with
  | some m =>
    dsimp only
    split
    · refine ⟨⟨hwf.itemsNodup, hwf.itemsLt, ?_, hwf.movementsItemLt, ?_, ?_⟩, rfl, rfl⟩
      · exact forall_mem_filter (forall_mem_filter (forall_mem_append_single
          (fun r hr => Nat.lt_succ_of_lt (hwf.requestsLt r hr)) (Nat.lt_succ_self _)))
      · exact nodup_key_filter _ hlinesnd
      · exact forall_mem_filter hlineslt
    · refine ⟨⟨hwf.itemsNodup, hwf.itemsLt, ?_, hwf.movementsItemLt, ?_, ?_⟩, rfl, rfl⟩
      · exact forall_mem_append_single
          (fun r hr => Nat.lt_succ_of_lt (hwf.requestsLt r hr)) (Nat.lt_succ_self _)
      · exact hlinesnd
      · exact hlineslt
  | none =>
    dsimp only
    split
    · refine ⟨⟨hwf.itemsNodup, hwf.itemsLt, ?_, hwf.movementsItemLt, ?_, ?_⟩, rfl, rfl⟩
      · exact forall_mem_filter (forall_mem_filter (forall_mem_append_single
          (fun r hr => Nat.lt_succ_of_lt (hwf.requestsLt r hr)) (Nat.lt_succ_self _)))
      · exact nodup_key_filter _ hlinesnd
      · exact forall_mem_filter hlineslt
    · refine ⟨⟨hwf.itemsNodup, hwf.itemsLt, ?_, hwf.movementsItemLt, ?_, ?_⟩, rfl, rfl⟩
      · exact forall_mem_append_single
          (fun r hr => Nat.lt_succ_of_lt (hwf.requestsLt r hr)) (Nat.lt_succ_self _)
      · exact hlinesnd
      · exact hlineslt

/-! ### Decision preservation -/

theorem deduct_movements_bound {rows : List LineJoin} {rid : Nat}
    {actor now : String} {c : Nat} :
    ∀ {s : Store}, (∀ m ∈ s.movements, m.itemId < c) → (∀ row ∈ rows, row.itemId < c) →
    ∀ m ∈ (deductRequestLines s rows rid actor now).movements, m.itemId < c := by
  induction rows with
  | nil => exact fun hold _ => hold
  | cons l rest ih =>
    intro s hold hrows
    rw [deductRequestLines_cons]
    exact ih
      (forall_mem_append_single hold (hrows l (List.mem_cons_self l rest)))
      (fun row hrow => hrows row (List.mem_cons_of_mem l hrow))

theorem requestLinesJoined_itemLt {s : Store} {rid : Nat} (hwf : StoreWF s) :
    ∀ row ∈ requestLinesJoined s rid, row.itemId < s.nextItemId := by
  intro row hrow
  obtain ⟨ri, hri, hreq, hid, hqty, it0, hfind, h1, h2, h3⟩ :=
    mem_requestLinesJoined hrow
  obtain ⟨hmem, hiid⟩ := findItemById_eq_some hfind
  rw [← hiid]
  exact hwf.itemsLt it0 hmem

theorem requestLinesJoined_qtyEq {s : Store} {rid : Nat} (hwf : StoreWF s) :
    ∀ row ∈ requestLinesJoined s rid, ∀ it ∈ s.items,
      it.itemId = row.itemId → it.qtyAvailable = row.qtyAvailable := by
  intro row hrow it hit hideq
  obtain ⟨ri, hri, hreq, hid, hqty, it0, hfind, h1, h2, h3⟩ :=
    mem_requestLinesJoined hrow
  obtain ⟨hmem, hiid⟩ := findItemById_eq_some hfind
  have : it = it0 :=
    item_unique_of_nodup hwf.itemsNodup hit hmem (by rw [hideq, hiid])
  rw [this, ← h1]

/-- The store after a successful APPROVE (deduct plus status update), shared by
the single and the bulk path. -/
theorem approve_commit_inv (s : Store) (rows : List LineJoin) (rid : Nat)
    (actor now : String) (hwf : StoreWF s)
    (hrowsLt : ∀ row ∈ rows, row.itemId < s.nextItemId) :
    StoreWF { deductRequestLines s rows rid actor now with
      requests := markRequestApproved
        (deductRequestLines s rows rid actor now).requests rid actor now } ∧
    ((ledgerBalanced s → ledgerBalanced { deductRequestLines s rows rid actor now with
      requests := markRequestApproved
        (deductRequestLines s rows rid actor now).requests rid actor now }) ∧
    ((rows.map (·.itemId)).Nodup →
      (∀ row ∈ rows, row.qtyRequested ≤ row.qtyAvailable ∧
        ∀ it ∈ s.items, it.itemId = row.itemId → it.qtyAvailable = row.qtyAvailable) →
      qtyNonneg s →
      qtyNonneg { deductRequestLines s rows rid actor now with
        requests := markRequestApproved
          (deductRequestLines s rows rid actor now).requests rid actor now })) := by
  obtain ⟨hmem, hreq, hlin, hman, hnii, hnri⟩ :=
    deductRequestLines_fields s rows rid actor now
  have hids := deductRequestLines_itemIds s rows rid actor now
  have hrid : ∀ r : RequestRow,
      ((if r.requestId == rid then
        { r with status := "APPROVED", decidedAt := some now, decidedBy := some actor }
      else r) : RequestRow).requestId = r.requestId := by
    intro r
    split <;> rfl
  refine ⟨⟨?_, ?_, ?_, ?_, ?_, ?_⟩, ?_, ?_⟩
  · show ((deductRequestLines s rows rid actor now).items.map (·.itemId)).Nodup
    rw [hids]
    exact hwf.itemsNodup
  · show ∀ it ∈ (deductRequestLines s rows rid actor now).items,
      it.itemId < (deductRequestLines s rows rid actor now).nextItemId
    rw [hnii]
    exact @forall_key_of_map_eq Item Nat _ _ (fun it => it.itemId)
      (fun n => n < s.nextItemId) hids hwf.itemsLt
  · show ∀ r ∈ markRequestApproved
        (deductRequestLines s rows rid actor now).requests rid actor now,
      r.requestId < (deductRequestLines s rows rid actor now).nextRequestId
    rw [hnri, hreq]
    unfold markRequestApproved
    exact @forall_key_of_map_eq RequestRow Nat _ _ (fun r => r.requestId)
      (fun n => n < s.nextRequestId) (map_map_key hrid) hwf.requestsLt
  · show ∀ m ∈ (deductRequestLines s rows rid actor now).movements,
      m.itemId < (deductRequestLines s rows rid actor now).nextItemId
    rw [hnii]
    exact deduct_movements_bound hwf.movementsItemLt hrowsLt
  · show ((deductRequestLines s rows rid actor now).requestItems.map
      (fun ri => (ri.requestId, ri.itemId))).Nodup
    rw [hlin]
    exact hwf.linesNodup
  · show ∀ ri ∈ (deductRequestLines s rows rid actor now).requestItems,
      ri.requestId < (deductRequestLines s rows rid actor now).nextRequestId
    rw [hlin, hnri]
    exact hwf.linesReqLt
  · intro hled
    exact ledger_of_eq rfl rfl (deductRequestLines_ledger hled)
  · intro hnd hrows hnn
    exact qtyNonneg_of_eq rfl (deductRequestLines_nonneg hnd hrows hnn)

theorem manager_decide_request_inv (s : Store) (reqId : Nat)
    (decision rejectReason actor now : String) (hwf : StoreWF s) :
    StoreWF (manager_decide_request s reqId decision rejectReason actor now).1 ∧
    (ledgerBalanced s →
      ledgerBalanced (manager_decide_request s reqId decision rejectReason actor now).1) ∧
    (qtyNonneg s →
      qtyNonneg (manager_decide_request s reqId decision rejectReason actor now).1) := by
  simp only [manager_decide_request]
  by_cases h1 : decision ≠ "APPROVE" ∧ decision ≠ "REJECT"
  · rw [if_pos h1]
    exact ⟨hwf, fun h => h, fun h => h⟩
  rw [if_neg h1]
  cases hfr : findRequest s reqId with
  | none =>
    simp only [hfr]
    exact ⟨hwf, fun h => h, fun h => h⟩
  | some r =>
    simp only [hfr]
    by_cases h2 : r.status ≠ "PENDING"
    · rw [if_pos h2]
      exact ⟨hwf, fun h => h, fun h => h⟩
    rw [if_neg h2]
    cases hblock : (requestLinesJoined s reqId).find?
        (fun row => decide (row.qtyAvailable < row.qtyRequested)) with
    | some row =>
      simp only [hblock]
      exact ⟨hwf, fun h => h, fun h => h⟩
    | none =>
      simp only [hblock]
      have hlt : ∀ row ∈ requestLinesJoined s reqId, row.itemId < s.nextItemId :=
        requestLinesJoined_itemLt hwf
      obtain ⟨hwf2, hled2, hnn2⟩ := approve_commit_inv s
        (requestLinesJoined s reqId) reqId actor now hwf hlt
      refine ⟨hwf2, hled2, ?_⟩
      intro hnn
      refine hnn2 (requestLinesJoined_nodup hwf.linesNodup) ?_ hnn
      intro row hrow
      have hnotlt := List.find?_eq_none.mp hblock row hrow
      have hle : ¬ row.qtyAvailable < row.qtyRequested := by simpa using hnotlt
      exact ⟨le_of_not_lt hle, requestLinesJoined_qtyEq hwf row hrow⟩


/-! ### Bulk decision preservation -/

theorem bulkBlocked_empty_le {rows : List LineJoin}
    (h : bulkBlockedReasons rows = []) :
    ∀ row ∈ rows, row.qtyRequested ≤ row.qtyAvailable := by
  intro row hrow
  have hnone := List.filterMap_eq_nil_iff.mp h row hrow
  by_cases ha : row.isActive ≠ 1
  · rw [if_pos ha] at hnone
    exact Option.noConfusion hnone
  · rw [if_neg ha] at hnone
    by_cases hl : row.qtyAvailable < row.qtyRequested
    · rw [if_pos (decide_eq_true hl)] at hnone
      exact Option.noConfusion hnone
    · exact le_of_not_lt hl

theorem bulkStep_inv (s : Store) (rid : Nat) (action rejectReason actor now : String)
    (hwf : StoreWF s) :
    StoreWF (bulkStep s rid action rejectReason actor now).1 ∧
    (ledgerBalanced s →
      ledgerBalanced (bulkStep s rid action rejectReason actor now).1) ∧
    (qtyNonneg s → qtyNonneg (bulkStep s rid action rejectReason actor now).1) := by
  simp only [bulkStep]
  cases hfr : findRequest s rid with
  | none =>
    simp only [hfr]
    exact ⟨hwf, fun h => h, fun h => h⟩
  | some r =>
    simp only [hfr]
    cases hfm : s.members.find? (fun m => m.memberId == r.memberId) with
    | none =>
      simp only [hfm]
      exact ⟨hwf, fun h => h, fun h => h⟩
    | some m0 =>
      simp only [hfm]
      by_cases h2 : r.status ≠ "PENDING"
      · rw [if_pos h2]
        exact ⟨hwf, fun h => h, fun h => h⟩
      rw [if_neg h2]
      by_cases h3 : action = "REJECT"
      · rw [if_pos h3]
        have hrid : ∀ rr : RequestRow,
            ((if rr.requestId == rid then
              { rr with
                status := "REJECTED", rejectReason := rejectReason,
                decidedAt := some now, decidedBy := some actor }
            else rr) : RequestRow).requestId = rr.requestId := by
          intro rr
          split <;> rfl
        refine ⟨⟨hwf.itemsNodup, hwf.itemsLt, ?_, hwf.movementsItemLt,
          hwf.linesNodup, hwf.linesReqLt⟩, fun h => ledger_of_eq rfl rfl h,
          fun h => qtyNonneg_of_eq rfl h⟩
        show ∀ rr ∈ markRequestRejected s.requests rid rejectReason actor now,
          rr.requestId < s.nextRequestId
        unfold markRequestRejected
        exact @forall_key_of_map_eq RequestRow Nat _ _ (fun rr => rr.requestId)
          (fun n => n < s.nextRequestId) (map_map_key hrid) hwf.requestsLt
      rw [if_neg h3]
      by_cases h4 : ¬ (bulkBlockedReasons (requestLinesJoined s rid)).isEmpty = true
      · rw [if_pos h4]
        exact ⟨hwf, fun h => h, fun h => h⟩
      rw [if_neg h4]
      have hempty : bulkBlockedReasons (requestLinesJoined s rid) = [] :=
        List.isEmpty_iff.mp (not_not.mp h4)
      have hlt : ∀ row ∈ requestLinesJoined s rid, row.itemId < s.nextItemId :=
        requestLinesJoined_itemLt hwf
      obtain ⟨hwf2, hled2, hnn2⟩ :=
        approve_commit_inv s (requestLinesJoined s rid) rid actor now hwf hlt
      refine ⟨hwf2, hled2, ?_⟩
      intro hnn
      refine hnn2 (requestLinesJoined_nodup hwf.linesNodup) ?_ hnn
      intro row hrow
      exact ⟨bulkBlocked_empty_le hempty row hrow,
        requestLinesJoined_qtyEq hwf row hrow⟩

theorem bulkRun_cons (s : Store) (rid : Nat) (rest : List Nat)
    (action rejectReason actor now : String) :
    (bulkRun s (rid :: rest) action rejectReason actor now).1 =
    (bulkRun (bulkStep s rid action rejectReason actor now).1 rest
      action rejectReason actor now).1 := by
  simp only [bulkRun]

theorem bulkRun_inv (action rejectReason actor now : String) :
    ∀ (ids : List Nat) (s : Store), StoreWF s →
    StoreWF (bulkRun s ids action rejectReason actor now).1 ∧
    (ledgerBalanced s →
      ledgerBalanced (bulkRun s ids action rejectReason actor now).1) ∧
    (qtyNonneg s → qtyNonneg (bulkRun s ids action rejectReason actor now).1) := by
  intro ids
  induction ids with
  | nil =>
    intro s hwf
    exact ⟨hwf, fun h => h, fun h => h⟩
  | cons rid rest ih =>
    intro s hwf
    obtain ⟨hwf1, hled1, hnn1⟩ := bulkStep_inv s rid action rejectReason actor now hwf
    obtain ⟨hwf2, hled2, hnn2⟩ :=
      ih (bulkStep s rid action rejectReason actor now).1 hwf1
    rw [bulkRun_cons]
    exact ⟨hwf2, fun h => hled2 (hled1 h), fun h => hnn2 (hnn1 h)⟩

theorem manager_requests_bulk_inv (s : Store) (ids : List Nat)
    (action rejectReason actor now : String) (hwf : StoreWF s) :
    StoreWF (manager_requests_bulk s ids action rejectReason actor now).1 ∧
    (ledgerBalanced s →
      ledgerBalanced (manager_requests_bulk s ids action rejectReason actor now).1) ∧
    (qtyNonneg s →
      qtyNonneg (manager_requests_bulk s ids action rejectReason actor now).1) := by
  simp only [manager_requests_bulk]
  by_cases h1 : ids.isEmpty = true
  · rw [if_pos h1]
    exact ⟨hwf, fun h => h, fun h => h⟩
  rw [if_neg h1]
  by_cases h2 : action ≠ "APPROVE" ∧ action ≠ "REJECT"
  · rw [if_pos h2]
    exact ⟨hwf, fun h => h, fun h => h⟩
  rw [if_neg h2]
  obtain ⟨hwf2, hled2, hnn2⟩ := bulkRun_inv action rejectReason actor now ids s hwf
  rcases hbr : bulkRun s ids action rejectReason actor now with ⟨s2, res⟩
  rw [hbr] at hwf2 hled2 hnn2
  exact ⟨hwf2, hled2, hnn2⟩

/-! ### Administrative request edit preservation -/

theorem edit_lines_req {items : List Item} {rid : Nat} {q : Nat → Option Rat} :
    ∀ ri ∈ (items.filterMap fun it =>
      match q it.itemId with
      | some qq => if 0 < qq then some (RequestLine.mk rid it.itemId qq) else none
      | none => none), ri.requestId = rid := by
  intro ri hri
  obtain ⟨jt, hjt, hj⟩ := List.mem_filterMap.mp hri
  cases hq2 : q jt.itemId with
  | none =>
    rw [hq2] at hj
    exact Option.noConfusion hj
  | some q2 =>
    rw [hq2] at hj
    dsimp only at hj
    by_cases hp2 : 0 < q2
    · rw [if_pos hp2] at hj
      injection hj with hj2
      rw [← hj2]
    · rw [if_neg hp2] at hj
      exact Option.noConfusion hj

theorem edit_lines_itemId_mem {items : List Item} {rid : Nat} {q : Nat → Option Rat} :
    ∀ ri ∈ (items.filterMap fun it =>
      match q it.itemId with
      | some qq => if 0 < qq then some (RequestLine.mk rid it.itemId qq) else none
      | none => none), ri.itemId ∈ items.map (fun it => it.itemId) := by
  intro ri hri
  obtain ⟨jt, hjt, hj⟩ := List.mem_filterMap.mp hri
  cases hq2 : q jt.itemId with
  | none =>
    rw [hq2] at hj
    exact Option.noConfusion hj
  | some q2 =>
    rw [hq2] at hj
    dsimp only at hj
    by_cases hp2 : 0 < q2
    · rw [if_pos hp2] at hj
      injection hj with hj2
      rw [← hj2]
      exact List.mem_map_of_mem _ hjt
    · rw [if_neg hp2] at hj
      exact Option.noConfusion hj

theorem edit_lines_nodup {items : List Item} (h : (items.map (·.itemId)).Nodup)
    (rid : Nat) (q : Nat → Option Rat) :
    ((items.filterMap fun it =>
      match q it.itemId with
      | some qq => if 0 < qq then some (RequestLine.mk rid it.itemId qq) else none
      | none => none).map (fun ri => (ri.requestId, ri.itemId))).Nodup := by
  induction items with
  | nil => exact List.nodup_nil
  | cons it rest ih =>
    rw [List.map_cons, List.nodup_cons] at h
    rw [List.filterMap_cons]
    cases hq : q it.itemId with
    | none =>
      simp only [hq]
      exact ih h.2
    | some qq =>
      simp only [hq]
      by_cases hpos : 0 < qq
      · rw [if_pos hpos]
        dsimp only
        rw [List.map_cons, List.nodup_cons]
        refine ⟨?_, ih h.2⟩
        intro hmem
        obtain ⟨ri, hri, hre⟩ := List.mem_map.mp hmem
        have hfst : ri.itemId = it.itemId := congrArg Prod.snd hre
        have := edit_lines_itemId_mem ri hri
        rw [hfst] at this
        exact h.1 this
      · rw [if_neg hpos]
        dsimp only
        exact ih h.2

theorem manager_request_edit_inv (s : Store) (reqId : Nat)
    (name phone email noteText rejectReason status : String)
    (qtys : Nat → Option Rat) (actor now : String) (hwf : StoreWF s) :
    StoreWF (manager_request_edit s reqId name phone email noteText rejectReason
      status qtys actor now).1 ∧
    (manager_request_edit s reqId name phone email noteText rejectReason
      status qtys actor now).1.items = s.items ∧
    (manager_request_edit s reqId name phone email noteText rejectReason
      status qtys actor now).1.movements = s.movements := by
  simp only [manager_request_edit]
  cases hfr : findRequest s reqId with
  | none =>
    simp only [hfr]
    exact ⟨hwf, by trivial, by trivial⟩
  | some req =>
    simp only [hfr]
    cases hfm : s.members.find? (fun m => m.memberId == req.memberId) with
    | none =>
      simp only [hfm]
      exact ⟨hwf, by trivial, by trivial⟩
    | some m0 =>
      simp only [hfm]
      have hreqlt : reqId < s.nextRequestId := by
        have hmem := List.mem_of_find?_eq_some hfr
        have hpred : req.requestId = reqId := by
          simpa using List.find?_some hfr
        rw [← hpred]
        exact hwf.requestsLt req hmem
      by_cases h1 : name.pyStrip = "" ∨ phone.pyStrip = ""
      · rw [if_pos h1]
        exact ⟨hwf, by trivial, by trivial⟩
      rw [if_neg h1]
      generalize (if status = "" then "PENDING" else status).pyStrip.pyUpper = stv
      by_cases h2 : stv ≠ "PENDING" ∧ stv ≠ "APPROVED" ∧ stv ≠ "REJECTED"
      · rw [if_pos h2]
        exact ⟨hwf, by trivial, by trivial⟩
      rw [if_neg h2]
      have hrid : ∀ r : RequestRow,
          ((if r.requestId == reqId then
            { r with
              status := stv, note := noteText.pyStrip,
              rejectReason := rejectReason.pyStrip,
              decidedAt := (if stv ≠ req.status then
                  if stv = "APPROVED" ∨ stv = "REJECTED" then (some now, some actor)
                  else (none, none)
                else (req.decidedAt, req.decidedBy)).1,
              decidedBy := (if stv ≠ req.status then
                  if stv = "APPROVED" ∨ stv = "REJECTED" then (some now, some actor)
                  else (none, none)
                else (req.decidedAt, req.decidedBy)).2 }
          else r) : RequestRow).requestId = r.requestId := by
        intro r
        split <;> rfl
      refine ⟨⟨hwf.itemsNodup, hwf.itemsLt, ?_, hwf.movementsItemLt, ?_, ?_⟩,
        by trivial, by trivial⟩
      · exact @forall_key_of_map_eq RequestRow Nat _ _ (fun rr => rr.requestId)
          (fun n => n < s.nextRequestId) (map_map_key hrid) hwf.requestsLt
      · refine lines_append_nodup (nodup_key_filter _ hwf.linesNodup)
          (fun ri hri => ?_) (edit_lines_nodup hwf.itemsNodup reqId qtys)
          edit_lines_req
        simpa using (List.mem_filter.mp hri).2
      · refine List.forall_mem_append.mpr
          ⟨forall_mem_filter hwf.linesReqLt, fun ri hri => ?_⟩
        rw [edit_lines_req ri hri]
        exact hreqlt

/-! ### Preservation over arbitrary operation sequences -/

theorem applyOp_inv (s : Store) (op : PantryOp) (hwf : StoreWF s) :
    StoreWF (applyOp s op) ∧
    (ledgerBalanced s → ledgerBalanced (applyOp s op)) ∧
    (qtyNonneg s → qtyNonneg (applyOp s op)) := by
  cases op with
  | submit n p e nt q now =>
    obtain ⟨hwf2, hit, hmv⟩ := member_request_submit_inv s n p e nt q now hwf
    exact ⟨hwf2, fun h => ledger_of_eq hit hmv h, fun h => qtyNonneg_of_eq hit h⟩
  | decide rid d rr a now => exact manager_decide_request_inv s rid d rr a now hwf
  | bulk ids act rr a now => exact manager_requests_bulk_inv s ids act rr a now hwf
  | addItem n u ed uc iq a now => exact manager_add_item_inv s n u ed uc iq a now hwf
  | intake iid aq eu ucu ia a now =>
    exact manager_update_item_inv s iid aq eu ucu ia a now hwf
  | editItem iid n u qs uc ed ia a now =>
    exact manager_edit_item_inv s iid n u qs uc ed ia a now hwf
  | editRequest rid n p e nt rr st q a now =>
    obtain ⟨hwf2, hit, hmv⟩ :=
      manager_request_edit_inv s rid n p e nt rr st q a now hwf
    exact ⟨hwf2, fun h => ledger_of_eq hit hmv h, fun h => qtyNonneg_of_eq hit h⟩

theorem applyOps_inv (ops : List PantryOp) :
    ∀ (s : Store), StoreWF s →
    StoreWF (applyOps s ops) ∧
    (ledgerBalanced s → ledgerBalanced (applyOps s ops)) ∧
    (qtyNonneg s → qtyNonneg (applyOps s ops)) := by
  induction ops with
  | nil =>
    intro s hwf
    exact ⟨hwf, fun h => h, fun h => h⟩
  | cons op rest ih =>
    intro s hwf
    obtain ⟨hwf1, hled1, hnn1⟩ := applyOp_inv s op hwf
    obtain ⟨hwf2, hled2, hnn2⟩ := ih (applyOp s op) hwf1
    exact ⟨hwf2, fun h => hled2 (hled1 h), fun h => hnn2 (hnn1 h)⟩


/-! ### Claim C2 and C3: the invariants outside the import paths -/

theorem roundTripStore_wf : StoreWF roundTripStore :=
  ⟨by decide, by decide, by decide, by decide, by decide, by decide⟩

theorem roundTripStore_ledger : ledgerBalanced roundTripStore := by
  intro it hit
  simp only [roundTripStore, List.mem_singleton] at hit
  rw [hit]
  show (10 : Rat) = movementSum roundTripStore.movements 1
  simp [movementSum, movementContrib, roundTripStore]

theorem decideA_eq_afterAStore :
    (manager_decide_request baseStore 1 "APPROVE" "" "mgr" "t1").1 = afterAStore := by
  show { afterAStore with items := [⟨1, "Rice", "bag", (10 : Rat) - 6, none, 1, none⟩] }
    = afterAStore
  have h4 : (10 : Rat) - 6 = 4 := by norm_num
  rw [h4]
  decide

/-- C2 (amended): the signed-sum ledger invariant is an invariant of the
RUNNING application only. Every operation reachable from the UI — submission,
single decision, bulk decision, item creation, stock intake, manual
set-quantity edit, administrative request edit — preserves it, over any
sequence; the import/merge paths named by the claim do NOT (they write
qty_available directly and append no movement), as the C2 counterexample
shows. -/
theorem c2_ledger_invariant_outside_imports (s : Store) (ops : List PantryOp)
    (hwf : StoreWF s) (hled : ledgerBalanced s) :
    ledgerBalanced (applyOps s ops) :=
  (applyOps_inv ops s hwf).2.1 hled

theorem c2_ledger_invariant_outside_imports_witness :
    StoreWF roundTripStore ∧ ledgerBalanced roundTripStore ∧
    ledgerBalanced (applyOps roundTripStore
      [PantryOp.decide 1 "APPROVE" "" "mgr" "t1"]) :=
  ⟨roundTripStore_wf, roundTripStore_ledger,
    c2_ledger_invariant_outside_imports roundTripStore
      [PantryOp.decide 1 "APPROVE" "" "mgr" "t1"] roundTripStore_wf
      roundTripStore_ledger⟩

/-- C3 (amended): non-negativity of qty_available is preserved by every
operation of the running application over any sequence (NOT by the import
paths, which accept negative quantity cells — see the C3 counterexample), and
the claim's race scenario holds as stated: with Rice at 10 and requests A, B
each asking 6, approving A succeeds leaving 4, then approving B fails with
"insufficient" reporting 6 requested vs 4 available, the store is returned
unchanged and B stays PENDING. -/
theorem c3_nonneg_outside_imports_and_race (s : Store) (ops : List PantryOp)
    (hwf : StoreWF s) (hnn : qtyNonneg s) :
    qtyNonneg (applyOps s ops) ∧
    ((manager_decide_request baseStore 1 "APPROVE" "" "mgr" "t1").1 = afterAStore ∧
    (manager_decide_request baseStore 1 "APPROVE" "" "mgr" "t1").2 = .approvedOk ∧
    (findItemById afterAStore 1).map (·.qtyAvailable) = some 4 ∧
    manager_decide_request afterAStore 2 "APPROVE" "" "mgr" "t2"
      = (afterAStore, .insufficient "Rice" 6 4) ∧
    (findRequest afterAStore 2).map (·.status) = some "PENDING") :=
  ⟨(applyOps_inv ops s hwf).2.2 hnn,
    decideA_eq_afterAStore, rfl, by decide, by decide, by decide⟩

theorem c3_nonneg_outside_imports_and_race_witness :
    StoreWF roundTripStore ∧ qtyNonneg roundTripStore ∧
    qtyNonneg (applyOps roundTripStore
      [PantryOp.decide 1 "APPROVE" "" "mgr" "t1"]) :=
  ⟨roundTripStore_wf, by decide,
    (c3_nonneg_outside_imports_and_race roundTripStore
      [PantryOp.decide 1 "APPROVE" "" "mgr" "t1"] roundTripStore_wf (by decide)).1⟩


/-! ### Claim C6 and C7: skip rule of the per-section requests import,
cleanup of empty submissions -/

/-- C6 (amended): the per-section requests import (manager_import with the
import_type "requests") honours the skip rule the claim states: a row whose
numeric request_id already exists leaves the store COMPLETELY unchanged (no
status/member/note overwrite, no line deletion) and is counted skipped. The
full-backup import path does NOT honour it: it overwrites the request row and
deletes its request_items rows, as the C6 counterexample shows. -/
theorem c6_section_import_skips_existing_request (s : Store) (row : RequestsRow)
    (rid : Nat) (now : String) (hid : row.requestId = some rid)
    (hex : (findRequest s rid).isSome = true) :
    managerImportRequestsRow s row now = (s, 0, 1) := by
  simp only [managerImportRequestsRow]
  by_cases h1 : row.memberName.pyStrip = ""
  · rw [if_pos h1]
  · rw [if_neg h1]
    simp only [hid]
    rw [if_pos hex]

theorem c6_section_import_skips_existing_request_witness :
    c6Row.requestId = some 1 ∧ (findRequest c6Store 1).isSome = true ∧
    managerImportRequestsRow c6Store c6Row "t1" = (c6Store, 0, 1) :=
  ⟨rfl, by decide,
    c6_section_import_skips_existing_request c6Store c6Row 1 "t1" rfl (by decide)⟩

/-- C7 (amended): an all-zero submission is rejected (.noQuantities models the
ValidationError) and removes the Request row it created, every line, and the
Member row — the member removal is UNCONDITIONAL, so it also deletes a member
who existed before the submission (C7 counterexample), not only a brand-new
one; here the member was brand-new, and no Member/Request/line rows remain. A
submission with one qty-0 line and one qty-3 line persists only the qty-3
line. -/
theorem c7_empty_submission_cleanup_and_line_filter :
    ((member_request_submit twoItemStore "Ama" "555" "" ""
        (fun iid => if iid == 2 then 3 else 0) "t1").2 = .submitted 1 ∧
      (member_request_submit twoItemStore "Ama" "555" "" ""
        (fun iid => if iid == 2 then 3 else 0) "t1").1.requestItems
        = [⟨1, 2, 3⟩] ∧
      (member_request_submit twoItemStore "Ama" "555" "" ""
        (fun iid => if iid == 2 then 3 else 0) "t1").1.items
        = twoItemStore.items) ∧
    ((member_request_submit itemOnlyStore "Bob" "666" "" "" (fun _ => 0) "t1").2
        = .noQuantities ∧
      (member_request_submit itemOnlyStore "Bob" "666" "" "" (fun _ => 0)
        "t1").1.members = [] ∧
      (member_request_submit itemOnlyStore "Bob" "666" "" "" (fun _ => 0)
        "t1").1.requests = [] ∧
      (member_request_submit itemOnlyStore "Bob" "666" "" "" (fun _ => 0)
        "t1").1.requestItems = []) := by
  exact ⟨⟨by decide, by decide, by decide⟩, by decide, by decide, by decide, by decide⟩

/-! ### Claim C10: idempotence of the movements import for id-carrying rows -/

theorem ok_fst {α : Type} {x : α × Nat × Nat} {t1 : α} {c k : Nat}
    (h : (Except.ok x : Except String (α × Nat × Nat)) = .ok (t1, c, k)) :
    x.1 = t1 := by
  injection h with h1
  exact congrArg Prod.fst h1

theorem find?_isSome_of_mem {α : Type} {p : α → Bool} {l : List α} {x : α}
    (hx : x ∈ l) (hp : p x = true) : (l.find? p).isSome = true := by
  induction l with
  | nil => cases hx
  | cons a tl ih =>
    rw [List.find?_cons]
    cases hpa : p a with
    | true => rfl
    | false =>
      rcases List.mem_cons.mp hx with rfl | hx2
      · rw [hpa] at hp
        cases hp
      · exact ih hx2

theorem mem_of_find?_isSome {α : Type} {p : α → Bool} {l : List α}
    (h : (l.find? p).isSome = true) : ∃ x ∈ l, p x = true := by
  cases hf : l.find? p with
  | none =>
    rw [hf] at h
    cases h
  | some x =>
    exact ⟨x, List.mem_of_find?_eq_some hf, List.find?_some hf⟩

theorem importMovementsRowStep_mono {t t1 : Store} {row : MovementsRow}
    {now : String} {c k : Nat}
    (h : importMovementsRowStep t row now = .ok (t1, c, k)) :
    ∀ m ∈ t.movements, m ∈ t1.movements := by
  simp only [importMovementsRowStep] at h
  cases hii : row.itemId with
  | none =>
    cases hq : row.qty with
    | none =>
      rw [hii, hq] at h
      dsimp only at h
      exact fun m hm => ok_fst h ▸ hm
    | some qv =>
      rw [hii, hq] at h
      dsimp only at h
      exact fun m hm => ok_fst h ▸ hm
  | some iid =>
    cases hq : row.qty with
    | none =>
      rw [hii, hq] at h
      dsimp only at h
      exact fun m hm => ok_fst h ▸ hm
    | some qv =>
      rw [hii, hq] at h
      dsimp only at h
      by_cases hty : row.movementType.pyStrip.pyUpper = ""
      · rw [if_pos hty] at h
        exact fun m hm => ok_fst h ▸ hm
      rw [if_neg hty] at h
      cases hmid : row.movementId with
      | some mid =>
        rw [hmid] at h
        dsimp only at h
        by_cases hfm : (findMovementById t mid).isSome = true
        · rw [if_pos hfm] at h
          exact fun m hm => ok_fst h ▸ hm
        rw [if_neg hfm] at h
        by_cases hfi : (findItemById t iid).isNone = true
        · rw [if_pos hfi] at h
          exact Except.noConfusion h
        rw [if_neg hfi] at h
        exact fun m hm => ok_fst h ▸ List.mem_append_left _ hm
      | none =>
        rw [hmid] at h
        dsimp only at h
        by_cases hfi : (findItemById t iid).isNone = true
        · rw [if_pos hfi] at h
          exact Except.noConfusion h
        rw [if_neg hfi] at h
        exact fun m hm => ok_fst h ▸ List.mem_append_left _ hm

theorem importMovementsRowStep_skip_again {t t1 u : Store} {row : MovementsRow}
    {now now2 : String} {c k : Nat} (hmid : row.movementId.isSome = true)
    (h : importMovementsRowStep t row now = .ok (t1, c, k))
    (hsub : ∀ m ∈ t1.movements, m ∈ u.movements) :
    importMovementsRowStep u row now2 = .ok (u, 0, 1) := by
  obtain ⟨mid, hmideq⟩ := Option.isSome_iff_exists.mp hmid
  simp only [importMovementsRowStep] at h ⊢
  cases hii : row.itemId with
  | none =>
    cases hq : row.qty with
    | none => rfl
    | some qv => rfl
  | some iid =>
    cases hq : row.qty with
    | none => rfl
    | some qv =>
      rw [hii, hq] at h
      dsimp only at h
      dsimp only
      by_cases hty : row.movementType.pyStrip.pyUpper = ""
      · rw [if_pos hty]
      rw [if_neg hty] at h ⊢
      rw [hmideq] at h ⊢
      dsimp only at h ⊢
      have hmem : ∃ m ∈ u.movements, (m.movementId == mid) = true := by
        by_cases hfm : (findMovementById t mid).isSome = true
        · rw [if_pos hfm] at h
          obtain ⟨m, hm, hp⟩ := mem_of_find?_isSome hfm
          exact ⟨m, hsub m (ok_fst h ▸ hm), hp⟩
        rw [if_neg hfm] at h
        by_cases hfi : (findItemById t iid).isNone = true
        · rw [if_pos hfi] at h
          exact Except.noConfusion h
        rw [if_neg hfi] at h
        refine ⟨⟨mid, iid, row.movementType.pyStrip.pyUpper, qv, row.note.pyStrip,
          (if row.createdBy.pyStrip = "" then "manager" else row.createdBy.pyStrip),
          (if row.createdAt.pyStrip = "" then now else row.createdAt.pyStrip)⟩,
          hsub _ (ok_fst h ▸ List.mem_append_right _ (List.mem_singleton_self _)), ?_⟩
        show (mid == mid) = true
        exact beq_self_eq_true mid
      obtain ⟨m, hm, hp⟩ := hmem
      have hfind : (findMovementById u mid).isSome = true :=
        @find?_isSome_of_mem Movement (fun mv => mv.movementId == mid)
          u.movements m hm hp
      rw [if_pos hfind]

theorem manager_import_stock_movements_mono (rows : List MovementsRow) :
    ∀ {t t1 : Store} {now : String} {c k : Nat},
    manager_import_stock_movements t rows now = .ok (t1, c, k) →
    ∀ m ∈ t.movements, m ∈ t1.movements := by
  induction rows with
  | nil =>
    intro t t1 now c k h m hm
    simp only [manager_import_stock_movements] at h
    exact ok_fst h ▸ hm
  | cons row rest ih =>
    intro t t1 now c k h m hm
    simp only [manager_import_stock_movements] at h
    cases hstep : importMovementsRowStep t row now with
    | error e =>
      rw [hstep] at h
      exact Except.noConfusion h
    | ok p =>
      obtain ⟨ta, ca, ka⟩ := p
      rw [hstep] at h
      dsimp only at h
      cases hrest : manager_import_stock_movements ta rest now with
      | error e =>
        rw [hrest] at h
        exact Except.noConfusion h
      | ok q =>
        obtain ⟨tb, cb, kb⟩ := q
        rw [hrest] at h
        dsimp only at h
        exact ok_fst h ▸ ih hrest m (importMovementsRowStep_mono hstep m hm)

theorem movements_import_skip_all (rows : List MovementsRow) (now now2 : String) :
    ∀ (t t1 : Store) (c k : Nat),
    (∀ row ∈ rows, row.movementId.isSome = true) →
    manager_import_stock_movements t rows now = .ok (t1, c, k) →
    ∀ u : Store, (∀ m ∈ t1.movements, m ∈ u.movements) →
    manager_import_stock_movements u rows now2 = .ok (u, 0, rows.length) := by
  induction rows with
  | nil =>
    intro t t1 c k hids h u hsub
    rfl
  | cons row rest ih =>
    intro t t1 c k hids h u hsub
    simp only [manager_import_stock_movements] at h
    cases hstep : importMovementsRowStep t row now with
    | error e =>
      rw [hstep] at h
      exact Except.noConfusion h
    | ok p =>
      obtain ⟨ta, ca, ka⟩ := p
      rw [hstep] at h
      dsimp only at h
      cases hrest : manager_import_stock_movements ta rest now with
      | error e =>
        rw [hrest] at h
        exact Except.noConfusion h
      | ok q =>
        obtain ⟨tb, cb, kb⟩ := q
        rw [hrest] at h
        dsimp only at h
        have htb : tb = t1 := ok_fst h
        have hsub1 : ∀ m ∈ ta.movements, m ∈ u.movements := fun m hm =>
          hsub m (htb ▸ manager_import_stock_movements_mono rest hrest m hm)
        have hstepu : importMovementsRowStep u row now2 = .ok (u, 0, 1) :=
          importMovementsRowStep_skip_again
            (hids row (List.mem_cons_self row rest)) hstep hsub1
        have hrestu := ih ta tb cb kb
          (fun r hr => hids r (List.mem_cons_of_mem row hr)) hrest u
          (fun m hm => hsub m (htb ▸ hm))
        simp only [manager_import_stock_movements]
        rw [hstepu]
        dsimp only
        rw [hrestu]
        dsimp only
        rw [List.length_cons]
        norm_num [Nat.add_comm]

/-- C10 (amended): the skip rule DOES make the movements import idempotent for
rows that carry a movement_id: after one successful import of such a section,
re-importing the identical section returns the store unchanged, creating 0
rows and skipping them all. The claim's universal statement that importing the
same section twice yields the same state is false for a BLANK movement_id,
which are inserted unconditionally on every run (C10 counterexample). -/
theorem c10_movements_reimport_is_identity (s s1 : Store)
    (rows : List MovementsRow) (now now2 : String) (c k : Nat)
    (hids : ∀ row ∈ rows, row.movementId.isSome = true)
    (h1 : manager_import_stock_movements s rows now = .ok (s1, c, k)) :
    manager_import_stock_movements s1 rows now2 = .ok (s1, 0, rows.length) :=
  movements_import_skip_all rows now now2 s s1 c k hids h1 s1 (fun _ hm => hm)

theorem c10_movements_reimport_is_identity_witness :
    (∀ row ∈ [mvRow7], row.movementId.isSome = true) ∧
    manager_import_stock_movements itemOnlyStore [mvRow7] "t1"
      = .ok (c10OnceStore, 1, 0) ∧
    manager_import_stock_movements c10OnceStore [mvRow7] "t2"
      = .ok (c10OnceStore, 0, [mvRow7].length) :=
  ⟨by decide, by decide,
    c10_movements_reimport_is_identity itemOnlyStore c10OnceStore [mvRow7]
      "t1" "t2" 1 0 (by decide) (by decide)⟩


/-! ### Claim C5: the items merge resolution as implemented -/

/-- C5 (amended): the import of an Items row resolves in five ways, not the
claimed three: (i) an id that exists is updated in place; (ii) an id that does
NOT exist is INSERTED under that id — there is no fallback to matching by
item_name; (iii) in the claim's own scenario (fresh id, existing name) the
insert violates UNIQUE(item_name) and the whole import aborts with an
IntegrityError rollback (C5 counterexample shows it concretely); (iv) only a
row WITHOUT an id is merged onto an existing item of the same name; (v)
otherwise a fresh row is inserted under the next id. -/
theorem c5_items_merge_resolution (s : Store) (row : ItemsRow)
    (hname : row.itemName.pyStrip ≠ "") (hunit : row.unit.pyStrip ≠ "") :
    ItemsMergeSpec s row := by
  have hcond : ¬ (row.itemName.pyStrip = "" ∨ row.unit.pyStrip = "") := by
    rintro (h | h)
    exacts [hname h, hunit h]
  refine ⟨?_, ?_, ?_, ?_, ?_⟩
  · intro iid hiid hex hnc
    obtain ⟨it0, hit0⟩ := Option.isSome_iff_exists.mp hex
    have hnone : (s.items.find? fun it =>
        it.itemName == row.itemName.pyStrip && it.itemId != iid) = none :=
      Option.isNone_iff_eq_none.mp hnc
    have hstep : importItemsRowStep s row = .ok ({ s with
        items := s.items.map fun it =>
          if it.itemId == iid then
            { it with
              itemName := row.itemName.pyStrip, unit := row.unit.pyStrip,
              qtyAvailable := row.qtyAvailable.getD 0, unitCost := row.unitCost,
              expiryDate := optOfTrim row.expiryDate,
              isActive := parse_bool_status row.status }
          else it }, 0, 1) := by
      simp only [importItemsRowStep]
      rw [if_neg hcond, hiid]
      dsimp only
      rw [hit0]
      dsimp only
      rw [if_neg (by simp [hnone])]
    refine ⟨_, hstep, ?_, ?_⟩
    · exact map_map_key (fun it => by split <;> rfl)
    · intro it hit hid
      obtain ⟨jt, hjt, heq⟩ := List.mem_map.mp hit
      by_cases hb : (jt.itemId == iid) = true
      · rw [← heq]
        rw [if_pos hb]
      · rw [← heq] at hid
        rw [if_neg hb] at hid
        exact absurd (by rw [hid]; exact beq_self_eq_true iid) hb
  · intro iid hiid hnone hnn
    have hstep : importItemsRowStep s row = .ok ({ s with
        items := s.items ++ [⟨iid, row.itemName.pyStrip, row.unit.pyStrip,
          row.qtyAvailable.getD 0, row.unitCost, parse_bool_status row.status,
          optOfTrim row.expiryDate⟩],
        nextItemId := max s.nextItemId (iid + 1) }, 1, 0) := by
      simp only [importItemsRowStep]
      rw [if_neg hcond, hiid]
      dsimp only
      rw [hnone]
      dsimp only
      rw [if_neg (by simp [hnn])]
    refine ⟨_, hstep, ?_⟩
    rw [List.map_append]
    rfl
  · intro iid hiid hnone hsome
    simp only [importItemsRowStep]
    rw [if_neg hcond, hiid]
    dsimp only
    rw [hnone]
    dsimp only
    rw [if_pos hsome]
    decide
  · intro hnid ex hex
    have hstep : importItemsRowStep s row = .ok ({ s with
        items := s.items.map fun it =>
          if it.itemId == ex.itemId then
            { it with
              unit := row.unit.pyStrip, qtyAvailable := row.qtyAvailable.getD 0,
              unitCost := row.unitCost, expiryDate := optOfTrim row.expiryDate,
              isActive := parse_bool_status row.status }
          else it }, 0, 1) := by
      simp only [importItemsRowStep]
      rw [if_neg hcond, hnid]
      dsimp only
      rw [hex]
    refine ⟨_, hstep, ?_, ?_⟩
    · exact map_map_key (fun it => by split <;> rfl)
    · intro it hit hid
      obtain ⟨jt, hjt, heq⟩ := List.mem_map.mp hit
      by_cases hb : (jt.itemId == ex.itemId) = true
      · rw [← heq]
        rw [if_pos hb]
      · rw [← heq] at hid
        rw [if_neg hb] at hid
        exact absurd (by rw [hid]; exact beq_self_eq_true ex.itemId) hb
  · intro hnid hnone
    have hstep : importItemsRowStep s row = .ok ({ s with
        items := s.items ++ [⟨s.nextItemId, row.itemName.pyStrip, row.unit.pyStrip,
          row.qtyAvailable.getD 0, row.unitCost, parse_bool_status row.status,
          optOfTrim row.expiryDate⟩],
        nextItemId := s.nextItemId + 1 }, 1, 0) := by
      simp only [importItemsRowStep]
      rw [if_neg hcond, hnid]
      dsimp only
      rw [hnone]
    refine ⟨_, hstep, ?_⟩
    rw [List.map_append]
    rfl

theorem c5_items_merge_resolution_witness :
    c5Row.itemName.pyStrip ≠ "" ∧ c5Row.unit.pyStrip ≠ "" ∧
    ItemsMergeSpec itemOnlyStore c5Row :=
  ⟨by decide, by decide,
    c5_items_merge_resolution itemOnlyStore c5Row (by decide) (by decide)⟩


/-! ### Claim C8: the bulk decision partitions its ids -/

theorem bulkFlatten_consBulkTag (rid : Nat) (tag : BulkTag) (res : BulkResults) :
    (bulkFlatten (consBulkTag rid tag res)).Perm (rid :: bulkFlatten res) := by
  cases tag with
  | approvedTag => exact List.Perm.refl _
  | rejectedTag => exact (List.perm_middle.append_right _).append_right _
  | skippedTag reason => exact List.perm_middle.append_right _
  | failedTag reason => exact List.perm_middle

theorem bulkRun_cons_results (s : Store) (rid : Nat) (rest : List Nat)
    (action rejectReason actor now : String) :
    (bulkRun s (rid :: rest) action rejectReason actor now).2
      = consBulkTag rid (bulkStep s rid action rejectReason actor now).2
        (bulkRun (bulkStep s rid action rejectReason actor now).1 rest
          action rejectReason actor now).2 := by
  simp only [bulkRun]

theorem bulkRun_partition (action rejectReason actor now : String) :
    ∀ (ids : List Nat) (s : Store),
    (bulkFlatten (bulkRun s ids action rejectReason actor now).2).Perm ids := by
  intro ids
  induction ids with
  | nil =>
    intro s
    exact List.Perm.refl _
  | cons rid rest ih =>
    intro s
    rw [bulkRun_cons_results]
    exact (bulkFlatten_consBulkTag _ _ _).trans ((ih _).cons rid)

/-- C8: confirmed. The bulk decision classifies every selected id into exactly
one of approved / rejected / skipped / failed — the four buckets flattened are
a permutation of the selected ids — and in the claim's scenario
BulkDecide([1,2,3], REJECT) on a store where request 2 is already APPROVED,
ids 1 and 3 are reported rejected, id 2 is skipped ("Already APPROVED"), and
no item quantity changes and no StockMovement row is appended. -/
theorem c8_bulk_partition_and_reject_scenario (s : Store) (ids : List Nat)
    (action rejectReason actor now : String) (hne : ¬ ids.isEmpty = true)
    (hact : ¬ (action ≠ "APPROVE" ∧ action ≠ "REJECT")) :
    (∃ res, manager_requests_bulk s ids action rejectReason actor now
        = ((bulkRun s ids action rejectReason actor now).1, .done res) ∧
      (bulkFlatten res).Perm ids) ∧
    ((manager_requests_bulk bulkStore [1, 2, 3] "REJECT" "out of season"
      "mgr" "t1").2 = .done ⟨[], [1, 3], [(2, "Already APPROVED")], []⟩ ∧
    (manager_requests_bulk bulkStore [1, 2, 3] "REJECT" "out of season"
      "mgr" "t1").1.items = bulkStore.items ∧
    (manager_requests_bulk bulkStore [1, 2, 3] "REJECT" "out of season"
      "mgr" "t1").1.movements = bulkStore.movements) := by
  refine ⟨⟨(bulkRun s ids action rejectReason actor now).2, ?_,
    bulkRun_partition action rejectReason actor now ids s⟩,
    by decide, by decide, by decide⟩
  simp only [manager_requests_bulk]
  rw [if_neg hne, if_neg hact]

theorem c8_bulk_partition_and_reject_scenario_witness :
    ¬ ([1, 2, 3] : List Nat).isEmpty = true ∧
    ¬ (("REJECT" : String) ≠ "APPROVE" ∧ ("REJECT" : String) ≠ "REJECT") ∧
    (∃ res, manager_requests_bulk bulkStore [1, 2, 3] "REJECT" "out of season"
        "mgr" "t1"
        = ((bulkRun bulkStore [1, 2, 3] "REJECT" "out of season" "mgr" "t1").1,
          .done res) ∧
      (bulkFlatten res).Perm [1, 2, 3]) :=
  ⟨by decide, by decide,
    (c8_bulk_partition_and_reject_scenario bulkStore [1, 2, 3] "REJECT"
      "out of season" "mgr" "t1" (by decide) (by decide)).1⟩


/-! ### Claim C9: generic list lemmas for the round trip -/

theorem orderedInsertBy_perm {α : Type} (le : α → α → Bool) (a : α) :
    ∀ l : List α, (orderedInsertBy le a l).Perm (a :: l) := by
  intro l
  induction l with
  | nil => exact List.Perm.refl _
  | cons b tl ih =>
    simp only [orderedInsertBy]
    by_cases h : le a b = true
    · rw [if_pos h]
    · rw [if_neg h]
      exact (ih.cons b).trans (List.Perm.swap a b tl)

theorem insertionSortBy_perm {α : Type} (le : α → α → Bool) :
    ∀ l : List α, (insertionSortBy le l).Perm l := by
  intro l
  induction l with
  | nil => exact List.Perm.refl _
  | cons a tl ih =>
    simp only [insertionSortBy]
    exact (orderedInsertBy_perm le a _).trans (ih.cons a)

theorem nodup_rotate_head {α : Type} {a : α} {l1 l2 : List α}
    (h : ((a :: l1) ++ l2).Nodup) : (l1 ++ (l2 ++ [a])).Nodup := by
  have h2 : (a :: (l1 ++ l2)).Perm ((l1 ++ l2) ++ [a]) :=
    (List.perm_append_singleton a (l1 ++ l2)).symm
  rw [List.append_assoc] at h2
  exact h2.nodup h

theorem filterMap_key_sublist {α β γ : Type} (f : α → Option β)
    (g : β → γ) (h : α → γ) (hfg : ∀ a b, f a = some b → g b = h a) :
    ∀ l : List α, ((l.filterMap f).map g).Sublist (l.map h) := by
  intro l
  induction l with
  | nil => exact List.Sublist.refl _
  | cons a tl ih =>
    rw [List.filterMap_cons]
    cases hfa : f a with
    | none =>
      dsimp only
      rw [List.map_cons]
      exact ih.cons _
    | some b =>
      dsimp only
      rw [List.map_cons, List.map_cons, hfg a b hfa]
      exact ih.cons₂ _

theorem find?_beq_eq_none {α β : Type} [BEq β] [LawfulBEq β] {key : α → β}
    {v : β} {l : List α} (hnot : v ∉ l.map key) :
    l.find? (fun x => key x == v) = none := by
  refine List.find?_eq_none.mpr ?_
  intro x hx hp
  exact hnot (eq_of_beq hp ▸ List.mem_map_of_mem key hx)


/-! ### Claim C9: items phase — every exported row inserts fresh -/

theorem items_import_all_fresh (rows : List ItemsRow) :
    ∀ t : Store,
    (∀ row ∈ rows, row.itemId.isSome = true ∧ row.itemName.pyStrip ≠ "" ∧
      row.unit.pyStrip ≠ "") →
    (rows.map (fun row => row.itemId.getD 0)
      ++ t.items.map (fun it => it.itemId)).Nodup →
    (rows.map (fun row => row.itemName.pyStrip)
      ++ t.items.map (fun it => it.itemName)).Nodup →
    ∃ (t2 : Store) (c u : Nat), manager_import_items t rows = .ok (t2, c, u) ∧
      t2.items = t.items ++ rows.map itemOfRow ∧
      t2.members = t.members ∧ t2.requests = t.requests ∧
      t2.requestItems = t.requestItems ∧ t2.movements = t.movements ∧
      t2.managers = t.managers := by
  induction rows with
  | nil =>
    intro t hall hids hnames
    exact ⟨t, 0, 0, rfl, (List.append_nil t.items).symm, rfl, rfl, rfl, rfl, rfl⟩
  | cons row rest ih =>
    intro t hall hids hnames
    obtain ⟨hsome, hname, hunit⟩ := hall row (List.mem_cons_self row rest)
    obtain ⟨iid, hiid⟩ := Option.isSome_iff_exists.mp hsome
    have hgetd : row.itemId.getD 0 = iid := by rw [hiid]; rfl
    have hcond : ¬ (row.itemName.pyStrip = "" ∨ row.unit.pyStrip = "") := by
      rintro (h | h)
      exacts [hname h, hunit h]
    rw [List.map_cons, List.cons_append] at hids hnames
    rw [hgetd] at hids
    obtain ⟨hidni, hidsrest⟩ := List.nodup_cons.mp hids
    obtain ⟨hnameni, hnamesrest⟩ := List.nodup_cons.mp hnames
    have hfid : findItemById t iid = none :=
      find?_beq_eq_none (fun hmem => hidni (List.mem_append_right _ hmem))
    have hfname : findItemByName t row.itemName.pyStrip = none :=
      find?_beq_eq_none (fun hmem => hnameni (List.mem_append_right _ hmem))
    have hx : itemOfRow row = (⟨iid, row.itemName.pyStrip, row.unit.pyStrip,
        row.qtyAvailable.getD 0, row.unitCost, parse_bool_status row.status,
        optOfTrim row.expiryDate⟩ : Item) := by
      simp [itemOfRow, hiid]
    have hstep : importItemsRowStep t row = .ok ({ t with
        items := t.items ++ [(⟨iid, row.itemName.pyStrip, row.unit.pyStrip,
          row.qtyAvailable.getD 0, row.unitCost, parse_bool_status row.status,
          optOfTrim row.expiryDate⟩ : Item)],
        nextItemId := max t.nextItemId (iid + 1) }, 1, 0) := by
      simp only [importItemsRowStep]
      rw [if_neg hcond, hiid]
      dsimp only
      rw [hfid]
      dsimp only
      rw [if_neg (by simp [hfname])]
    have hids1 : (rest.map (fun row => row.itemId.getD 0)
        ++ ({ t with
          items := t.items ++ [(⟨iid, row.itemName.pyStrip, row.unit.pyStrip,
            row.qtyAvailable.getD 0, row.unitCost, parse_bool_status row.status,
            optOfTrim row.expiryDate⟩ : Item)],
          nextItemId := max t.nextItemId (iid + 1) } : Store).items.map
          (fun it => it.itemId)).Nodup := by
      show (rest.map (fun row => row.itemId.getD 0)
        ++ (t.items ++ [(⟨iid, row.itemName.pyStrip, row.unit.pyStrip,
          row.qtyAvailable.getD 0, row.unitCost, parse_bool_status row.status,
          optOfTrim row.expiryDate⟩ : Item)]).map (fun it => it.itemId)).Nodup
      rw [List.map_append]
      exact nodup_rotate_head hids
    have hnames1 : (rest.map (fun row => row.itemName.pyStrip)
        ++ ({ t with
          items := t.items ++ [(⟨iid, row.itemName.pyStrip, row.unit.pyStrip,
            row.qtyAvailable.getD 0, row.unitCost, parse_bool_status row.status,
            optOfTrim row.expiryDate⟩ : Item)],
          nextItemId := max t.nextItemId (iid + 1) } : Store).items.map
          (fun it => it.itemName)).Nodup := by
      show (rest.map (fun row => row.itemName.pyStrip)
        ++ (t.items ++ [(⟨iid, row.itemName.pyStrip, row.unit.pyStrip,
          row.qtyAvailable.getD 0, row.unitCost, parse_bool_status row.status,
          optOfTrim row.expiryDate⟩ : Item)]).map (fun it => it.itemName)).Nodup
      rw [List.map_append]
      exact nodup_rotate_head hnames
    obtain ⟨t2, c, u, hrec, hitems, hmem, hreq, hreqi, hmov, hman⟩ :=
      ih _ (fun r hr => hall r (List.mem_cons_of_mem _ hr)) hids1 hnames1
    refine ⟨t2, 1 + c, 0 + u, ?_, ?_, hmem, hreq, hreqi, hmov, hman⟩
    · simp only [manager_import_items]
      rw [hstep]
      dsimp only
      rw [hrec]
    · rw [hitems]
      show (t.items ++ [(⟨iid, row.itemName.pyStrip, row.unit.pyStrip,
        row.qtyAvailable.getD 0, row.unitCost, parse_bool_status row.status,
        optOfTrim row.expiryDate⟩ : Item)]) ++ rest.map itemOfRow
        = t.items ++ (row :: rest).map itemOfRow
      rw [List.append_assoc, ← hx]
      rfl


/-! ### Claim C9: requests phase — every exported row inserts fresh -/

theorem upsertMember_fields (s : Store) (a b c d e : String) :
    (upsertMember s a b c d e).1.items = s.items ∧
    (upsertMember s a b c d e).1.requests = s.requests ∧
    (upsertMember s a b c d e).1.movements = s.movements ∧
    (upsertMember s a b c d e).1.managers = s.managers := by
  simp only [upsertMember]
  cases hm : latestMemberMatch s.members c b with
  | some m =>
    simp only [hm]
    exact ⟨by trivial, by trivial, by trivial, by trivial⟩
  | none =>
    simp only [hm]
    exact ⟨by trivial, by trivial, by trivial, by trivial⟩

theorem insertRequestLineFromPart_fields (st : Store) (rid : Nat) (p : ParsedLine) :
    (∀ it ∈ st.items, it ∈ (insertRequestLineFromPart st rid p).items) ∧
    (insertRequestLineFromPart st rid p).requests = st.requests ∧
    (insertRequestLineFromPart st rid p).movements = st.movements ∧
    (insertRequestLineFromPart st rid p).managers = st.managers := by
  simp only [insertRequestLineFromPart]
  cases hf : findItemByName st p.name with
  | some it =>
    simp only [hf]
    by_cases hq : 0 < p.qty
    · rw [if_pos hq]
      exact ⟨fun x h => h, rfl, rfl, rfl⟩
    · rw [if_neg hq]
      exact ⟨fun x h => h, rfl, rfl, rfl⟩
  | none =>
    simp only [hf]
    by_cases hq : 0 < p.qty
    · rw [if_pos hq]
      exact ⟨fun x h => List.mem_append_left _ h, rfl, rfl, rfl⟩
    · rw [if_neg hq]
      exact ⟨fun x h => List.mem_append_left _ h, rfl, rfl, rfl⟩

theorem insertLinesFold_fields (parts : List String) (rid : Nat) :
    ∀ st : Store,
    (∀ it ∈ st.items, it ∈ (parts.foldl (fun st part =>
        match parseLinePart part with
        | none => st
        | some p => insertRequestLineFromPart st rid p) st).items) ∧
    (parts.foldl (fun st part =>
        match parseLinePart part with
        | none => st
        | some p => insertRequestLineFromPart st rid p) st).requests = st.requests ∧
    (parts.foldl (fun st part =>
        match parseLinePart part with
        | none => st
        | some p => insertRequestLineFromPart st rid p) st).movements
      = st.movements ∧
    (parts.foldl (fun st part =>
        match parseLinePart part with
        | none => st
        | some p => insertRequestLineFromPart st rid p) st).managers
      = st.managers := by
  induction parts with
  | nil =>
    intro st
    exact ⟨fun x h => h, rfl, rfl, rfl⟩
  | cons part rest ih =>
    intro st
    rw [List.foldl_cons]
    cases hp : parseLinePart part with
    | none =>
      simp only [hp]
      exact ih st
    | some p =>
      simp only [hp]
      obtain ⟨hi1, hr1, hm1, hg1⟩ := insertRequestLineFromPart_fields st rid p
      obtain ⟨hi2, hr2, hm2, hg2⟩ := ih (insertRequestLineFromPart st rid p)
      exact ⟨fun x h => hi2 x (hi1 x h), hr2.trans hr1, hm2.trans hm1, hg2.trans hg1⟩

theorem insertRequestLines_fields (st : Store) (rid : Nat) (txt : String) :
    (∀ it ∈ st.items, it ∈ (insertRequestLines st rid txt).items) ∧
    (insertRequestLines st rid txt).requests = st.requests ∧
    (insertRequestLines st rid txt).movements = st.movements ∧
    (insertRequestLines st rid txt).managers = st.managers :=
  insertLinesFold_fields (txt.pySplit ";") rid st

theorem backup_requests_row_fresh (s : Store) (row : RequestsRow) (rid : Nat)
    (now : String) (hmn : ¬ row.memberName.pyStrip = "")
    (hid : row.requestId = some rid) (hnf : findRequest s rid = none) :
    (applyBackupImportRequestsRow s row now).requests.map
        (fun r => (r.requestId, r.status))
      = s.requests.map (fun r => (r.requestId, r.status))
        ++ [(rid, normStatus row.status)] ∧
    (∀ it ∈ s.items, it ∈ (applyBackupImportRequestsRow s row now).items) ∧
    (applyBackupImportRequestsRow s row now).movements = s.movements ∧
    (applyBackupImportRequestsRow s row now).managers = s.managers := by
  obtain ⟨hui, hur, hum, hug⟩ := upsertMember_fields s row.memberName.pyStrip
    (if row.phone.pyStrip = "" then "unknown" else row.phone.pyStrip)
    row.email.pyStrip row.createdAt.pyStrip now
  have hnotsome : ¬ ((findRequest s rid).isSome = true) := by simp [hnf]
  simp only [applyBackupImportRequestsRow]
  rw [if_neg hmn]
  simp only [hid]
  rw [if_neg hnotsome]
  dsimp only
  by_cases hit : row.items.pyStrip = ""
  · rw [if_pos hit]
    refine ⟨?_, ?_, ?_, ?_⟩
    · dsimp only
      rw [List.map_append, hur]
      rfl
    · intro it h
      show it ∈ (upsertMember s row.memberName.pyStrip
        (if row.phone.pyStrip = "" then "unknown" else row.phone.pyStrip)
        row.email.pyStrip row.createdAt.pyStrip now).1.items
      rw [hui]
      exact h
    · exact hum
    · exact hug
  · rw [if_neg hit]
    refine ⟨?_, ?_, ?_, ?_⟩
    · rw [(insertRequestLines_fields _ rid row.items.pyStrip).2.1]
      dsimp only
      rw [List.map_append, hur]
      rfl
    · intro it h
      refine (insertRequestLines_fields _ rid row.items.pyStrip).1 it ?_
      show it ∈ (upsertMember s row.memberName.pyStrip
        (if row.phone.pyStrip = "" then "unknown" else row.phone.pyStrip)
        row.email.pyStrip row.createdAt.pyStrip now).1.items
      rw [hui]
      exact h
    · rw [(insertRequestLines_fields _ rid row.items.pyStrip).2.2.1]
      exact hum
    · rw [(insertRequestLines_fields _ rid row.items.pyStrip).2.2.2]
      exact hug

theorem backup_requests_all_fresh (rows : List RequestsRow) (now : String) :
    ∀ t : Store,
    (∀ row ∈ rows, ¬ row.memberName.pyStrip = "" ∧ row.requestId.isSome = true) →
    (rows.map (fun row => row.requestId.getD 0)
      ++ t.requests.map (fun r => r.requestId)).Nodup →
    (applyBackupImportRequests t rows now).requests.map
        (fun r => (r.requestId, r.status))
      = t.requests.map (fun r => (r.requestId, r.status))
        ++ rows.map (fun row => (row.requestId.getD 0, normStatus row.status)) ∧
    (∀ it ∈ t.items, it ∈ (applyBackupImportRequests t rows now).items) ∧
    (applyBackupImportRequests t rows now).movements = t.movements ∧
    (applyBackupImportRequests t rows now).managers = t.managers := by
  induction rows with
  | nil =>
    intro t hall hids
    exact ⟨(List.append_nil _).symm, fun x h => h, rfl, rfl⟩
  | cons row rest ih =>
    intro t hall hids
    obtain ⟨hmn, hsome⟩ := hall row (List.mem_cons_self row rest)
    obtain ⟨rid, hid⟩ := Option.isSome_iff_exists.mp hsome
    have hgetd : row.requestId.getD 0 = rid := by rw [hid]; rfl
    rw [List.map_cons, List.cons_append, hgetd] at hids
    obtain ⟨hni, hrest⟩ := List.nodup_cons.mp hids
    have hnf : findRequest t rid = none :=
      find?_beq_eq_none (fun hmem => hni (List.mem_append_right _ hmem))
    obtain ⟨hproj, hitems, hmov, hman⟩ := backup_requests_row_fresh t row rid now hmn hid hnf
    have hids1 : (rest.map (fun row => row.requestId.getD 0)
        ++ (applyBackupImportRequestsRow t row now).requests.map
          (fun r => r.requestId)).Nodup := by
      have hmapfst := congrArg (List.map Prod.fst) hproj
      rw [List.map_map, List.map_append, List.map_map] at hmapfst
      have hidseq : (applyBackupImportRequestsRow t row now).requests.map
          (fun r => r.requestId) = t.requests.map (fun r => r.requestId) ++ [rid] := by
        exact hmapfst
      rw [hidseq]
      exact nodup_rotate_head hids
    obtain ⟨hproj2, hitems2, hmov2, hman2⟩ :=
      ih (applyBackupImportRequestsRow t row now)
        (fun r hr => hall r (List.mem_cons_of_mem _ hr)) hids1
    have hstepfold : applyBackupImportRequests t (row :: rest) now
        = applyBackupImportRequests (applyBackupImportRequestsRow t row now) rest now := by
      simp only [applyBackupImportRequests, List.foldl_cons]
    refine ⟨?_, ?_, ?_, ?_⟩
    · rw [hstepfold, hproj2, hproj, List.map_cons, List.append_assoc]
      rw [hgetd]
      rfl
    · intro it h
      rw [hstepfold]
      exact hitems2 it (hitems it h)
    · rw [hstepfold, hmov2, hmov]
    · rw [hstepfold, hman2, hman]


/-! ### Claim C9: managers and movements phases -/

theorem managers_import_all_fresh (rows : List ManagersRow) (now : String) :
    ∀ t : Store,
    (∀ row ∈ rows, ¬ row.username.pyStrip = "" ∧ row.managerId.isSome = true) →
    (rows.map (fun row => row.username.pyStrip)
      ++ t.managers.map (fun g => g.username)).Nodup →
    (rows.map (fun row => row.managerId.getD 0)
      ++ t.managers.map (fun g => g.managerId)).Nodup →
    ∃ (t2 : Store) (c u : Nat), manager_import_managers t rows now = .ok (t2, c, u) ∧
      t2.items = t.items ∧ t2.members = t.members ∧ t2.requests = t.requests ∧
      t2.requestItems = t.requestItems ∧ t2.movements = t.movements := by
  induction rows with
  | nil =>
    intro t hall hnames hids
    exact ⟨t, 0, 0, rfl, rfl, rfl, rfl, rfl, rfl⟩
  | cons row rest ih =>
    intro t hall hnames hids
    obtain ⟨hname, hsome⟩ := hall row (List.mem_cons_self row rest)
    obtain ⟨gid, hgid⟩ := Option.isSome_iff_exists.mp hsome
    have hgetd : row.managerId.getD 0 = gid := by rw [hgid]; rfl
    rw [List.map_cons, List.cons_append] at hids hnames
    rw [hgetd] at hids
    obtain ⟨hnameni, hnamesrest⟩ := List.nodup_cons.mp hnames
    obtain ⟨hidni, hidsrest⟩ := List.nodup_cons.mp hids
    have hfindu : t.managers.find? (fun g => g.username == row.username.pyStrip)
        = none :=
      find?_beq_eq_none (fun hmem => hnameni (List.mem_append_right _ hmem))
    have hfindid : t.managers.find? (fun g => g.managerId == gid) = none :=
      find?_beq_eq_none (fun hmem => hidni (List.mem_append_right _ hmem))
    have hstep : importManagersRowStep t row now = .ok ({ t with
        managers := t.managers ++ [(⟨gid, row.username.pyStrip, row.email.pyStrip,
          (if row.passwordHash.pyStrip = "" then defaultPasswordHash
            else row.passwordHash.pyStrip),
          (if (if row.isActive = "" then "1" else row.isActive).pyStrip ≠ "0"
            then 1 else 0),
          (if row.createdAt.pyStrip = "" then now
            else row.createdAt.pyStrip)⟩ : ManagerRow)],
        nextManagerId := max t.nextManagerId (gid + 1) }, 1, 0) := by
      simp only [importManagersRowStep]
      rw [if_neg hname]
      rw [hfindu]
      dsimp only
      rw [hgid]
      dsimp only
      rw [if_neg (by simp [hfindid])]
    have hnames1 : (rest.map (fun row => row.username.pyStrip)
        ++ ({ t with
          managers := t.managers ++ [(⟨gid, row.username.pyStrip, row.email.pyStrip,
            (if row.passwordHash.pyStrip = "" then defaultPasswordHash
              else row.passwordHash.pyStrip),
            (if (if row.isActive = "" then "1" else row.isActive).pyStrip ≠ "0"
              then 1 else 0),
            (if row.createdAt.pyStrip = "" then now
              else row.createdAt.pyStrip)⟩ : ManagerRow)],
          nextManagerId := max t.nextManagerId (gid + 1) } : Store).managers.map
          (fun g => g.username)).Nodup := by
      show (rest.map (fun row => row.username.pyStrip)
        ++ (t.managers ++ [(⟨gid, row.username.pyStrip, row.email.pyStrip,
          (if row.passwordHash.pyStrip = "" then defaultPasswordHash
            else row.passwordHash.pyStrip),
          (if (if row.isActive = "" then "1" else row.isActive).pyStrip ≠ "0"
            then 1 else 0),
          (if row.createdAt.pyStrip = "" then now
            else row.createdAt.pyStrip)⟩ : ManagerRow)]).map
          (fun g => g.username)).Nodup
      rw [List.map_append]
      exact nodup_rotate_head hnames
    have hids1 : (rest.map (fun row => row.managerId.getD 0)
        ++ ({ t with
          managers := t.managers ++ [(⟨gid, row.username.pyStrip, row.email.pyStrip,
            (if row.passwordHash.pyStrip = "" then defaultPasswordHash
              else row.passwordHash.pyStrip),
            (if (if row.isActive = "" then "1" else row.isActive).pyStrip ≠ "0"
              then 1 else 0),
            (if row.createdAt.pyStrip = "" then now
              else row.createdAt.pyStrip)⟩ : ManagerRow)],
          nextManagerId := max t.nextManagerId (gid + 1) } : Store).managers.map
          (fun g => g.managerId)).Nodup := by
      show (rest.map (fun row => row.managerId.getD 0)
        ++ (t.managers ++ [(⟨gid, row.username.pyStrip, row.email.pyStrip,
          (if row.passwordHash.pyStrip = "" then defaultPasswordHash
            else row.passwordHash.pyStrip),
          (if (if row.isActive = "" then "1" else row.isActive).pyStrip ≠ "0"
            then 1 else 0),
          (if row.createdAt.pyStrip = "" then now
            else row.createdAt.pyStrip)⟩ : ManagerRow)]).map
          (fun g => g.managerId)).Nodup
      rw [List.map_append]
      exact nodup_rotate_head hids
    obtain ⟨t2, c, u, hrec, hit2, hmem2, hreq2, hreqi2, hmov2⟩ :=
      ih _ (fun r hr => hall r (List.mem_cons_of_mem _ hr)) hnames1 hids1
    refine ⟨t2, 1 + c, 0 + u, ?_, hit2, hmem2, hreq2, hreqi2, hmov2⟩
    simp only [manager_import_managers]
    rw [hstep]
    dsimp only
    rw [hrec]

theorem movements_import_all_fresh (rows : List MovementsRow) (now : String) :
    ∀ t : Store,
    (∀ row ∈ rows, row.movementId.isSome = true ∧ row.itemId.isSome = true ∧
      row.qty.isSome = true ∧ ¬ row.movementType.pyStrip.pyUpper = "" ∧
      (∃ it ∈ t.items, it.itemId = row.itemId.getD 0)) →
    (rows.map (fun row => row.movementId.getD 0)
      ++ t.movements.map (fun m => m.movementId)).Nodup →
    ∃ (t2 : Store) (c k : Nat),
      manager_import_stock_movements t rows now = .ok (t2, c, k) ∧
      t2.movements.length = t.movements.length + rows.length ∧
      t2.items = t.items ∧ t2.members = t.members ∧ t2.requests = t.requests := by
  induction rows with
  | nil =>
    intro t hall hids
    exact ⟨t, 0, 0, rfl, (Nat.add_zero _).symm, rfl, rfl, rfl⟩
  | cons row rest ih =>
    intro t hall hids
    obtain ⟨hsome, hisome, hqsome, htyne, hfk⟩ := hall row (List.mem_cons_self row rest)
    obtain ⟨mid, hmid⟩ := Option.isSome_iff_exists.mp hsome
    obtain ⟨iid, hiid⟩ := Option.isSome_iff_exists.mp hisome
    obtain ⟨qv, hqv⟩ := Option.isSome_iff_exists.mp hqsome
    have hgetd : row.movementId.getD 0 = mid := by rw [hmid]; rfl
    have hgetdi : row.itemId.getD 0 = iid := by rw [hiid]; rfl
    rw [List.map_cons, List.cons_append] at hids
    rw [hgetd] at hids
    obtain ⟨hmidni, hidsrest⟩ := List.nodup_cons.mp hids
    have hfindm : findMovementById t mid = none :=
      find?_beq_eq_none (fun hmem => hmidni (List.mem_append_right _ hmem))
    have hfindit : (findItemById t iid).isSome = true := by
      obtain ⟨it, hitmem, hiteq⟩ := hfk
      rw [hgetdi] at hiteq
      exact find?_isSome_of_mem hitmem (by rw [hiteq]; exact beq_self_eq_true iid)
    have hstep : importMovementsRowStep t row now = .ok ({ t with
        movements := t.movements ++ [(⟨mid, iid, row.movementType.pyStrip.pyUpper,
          qv, row.note.pyStrip,
          (if row.createdBy.pyStrip = "" then "manager" else row.createdBy.pyStrip),
          (if row.createdAt.pyStrip = "" then now
            else row.createdAt.pyStrip)⟩ : Movement)],
        nextMovementId := max t.nextMovementId (mid + 1) }, 1, 0) := by
      simp only [importMovementsRowStep]
      rw [hiid, hqv]
      dsimp only
      rw [if_neg htyne, hmid]
      dsimp only
      rw [if_neg (by simp [hfindm])]
      rw [if_neg (show ¬ ((findItemById t iid).isNone = true) from by
        intro hh
        rw [Option.isNone_iff_eq_none] at hh
        rw [hh] at hfindit
        exact Bool.noConfusion hfindit)]
    have hids1 : (rest.map (fun row => row.movementId.getD 0)
        ++ ({ t with
          movements := t.movements ++ [(⟨mid, iid, row.movementType.pyStrip.pyUpper,
            qv, row.note.pyStrip,
            (if row.createdBy.pyStrip = "" then "manager" else row.createdBy.pyStrip),
            (if row.createdAt.pyStrip = "" then now
              else row.createdAt.pyStrip)⟩ : Movement)],
          nextMovementId := max t.nextMovementId (mid + 1) } : Store).movements.map
          (fun m => m.movementId)).Nodup := by
      show (rest.map (fun row => row.movementId.getD 0)
        ++ (t.movements ++ [(⟨mid, iid, row.movementType.pyStrip.pyUpper,
          qv, row.note.pyStrip,
          (if row.createdBy.pyStrip = "" then "manager" else row.createdBy.pyStrip),
          (if row.createdAt.pyStrip = "" then now
            else row.createdAt.pyStrip)⟩ : Movement)]).map
          (fun m => m.movementId)).Nodup
      rw [List.map_append]
      exact nodup_rotate_head hids
    obtain ⟨t2, c, k, hrec, hlen, hit2, hmem2, hreq2⟩ :=
      ih _ (fun r hr => ⟨(hall r (List.mem_cons_of_mem _ hr)).1,
        (hall r (List.mem_cons_of_mem _ hr)).2.1,
        (hall r (List.mem_cons_of_mem _ hr)).2.2.1,
        (hall r (List.mem_cons_of_mem _ hr)).2.2.2.1, by
          obtain ⟨it, hitp, hite⟩ := (hall r (List.mem_cons_of_mem _ hr)).2.2.2.2
          exact ⟨it, hitp, hite⟩⟩) hids1
    refine ⟨t2, 1 + c, 0 + k, ?_, ?_, hit2, hmem2, hreq2⟩
    · simp only [manager_import_stock_movements]
      rw [hstep]
      dsimp only
      rw [hrec]
    · rw [hlen]
      simp only [List.length_append, List.length_cons, List.length_nil]
      omega


/-! ### Claim C9: the round trip itself -/

/-- C9: confirmed. Exporting every section of a well-formed store and feeding
the four exported sections to apply_backup_import over an EMPTY store succeeds
and reproduces every item's quantity (matched by id), every request's status
(matched by id), and the exact number of stock movement rows. ExportWF collects
the facts SQLite and the application's write paths guarantee (unique keys,
trimmed canonical names, canonical statuses, movements referencing live
items). -/
theorem c9_export_import_round_trip (s : Store) (now : String) (hwf : ExportWF s) :
    ∃ t : Store,
      apply_backup_import emptyStore (export_items_rows s) (export_requests_rows s)
        (export_managers_rows s) (export_stock_movements_rows s) false now
        = .ok t ∧
      (∀ it ∈ s.items, ∃ it2 ∈ t.items,
        it2.itemId = it.itemId ∧ it2.qtyAvailable = it.qtyAvailable) ∧
      (∀ r ∈ s.requests, ∃ r2 ∈ t.requests,
        r2.requestId = r.requestId ∧ r2.status = r.status) ∧
      t.movements.length = s.movements.length := by
  -- ITEMS phase obligations
  have hall1 : ∀ row ∈ export_items_rows s, row.itemId.isSome = true ∧
      row.itemName.pyStrip ≠ "" ∧ row.unit.pyStrip ≠ "" := by
    intro row hrow
    simp only [export_items_rows, List.mem_map] at hrow
    obtain ⟨it, hit, rfl⟩ := hrow
    have hmem : it ∈ s.items := ((insertionSortBy_perm _ s.items).mem_iff).mp hit
    refine ⟨rfl, ?_, hwf.itemUnitCanon it hmem⟩
    show it.itemName.pyStrip ≠ ""
    rw [(hwf.itemNameCanon it hmem).1]
    exact (hwf.itemNameCanon it hmem).2
  have hidsI : ((export_items_rows s).map (fun row => row.itemId.getD 0)
      ++ emptyStore.items.map (fun it => it.itemId)).Nodup := by
    show ((export_items_rows s).map (fun row => row.itemId.getD 0)
      ++ ([] : List Nat)).Nodup
    rw [List.append_nil]
    have h1 : (export_items_rows s).map (fun row => row.itemId.getD 0)
        = (insertionSortBy (fun a b => strLeB a.itemName b.itemName) s.items).map
          (fun it => it.itemId) := by
      simp only [export_items_rows, List.map_map]
      rfl
    rw [h1]
    exact ((insertionSortBy_perm _ s.items).map (fun it => it.itemId)).symm.nodup
      hwf.itemsNodup
  have hnamesI : ((export_items_rows s).map (fun row => row.itemName.pyStrip)
      ++ emptyStore.items.map (fun it => it.itemName)).Nodup := by
    show ((export_items_rows s).map (fun row => row.itemName.pyStrip)
      ++ ([] : List String)).Nodup
    rw [List.append_nil]
    have h1 : (export_items_rows s).map (fun row => row.itemName.pyStrip)
        = (insertionSortBy (fun a b => strLeB a.itemName b.itemName) s.items).map
          (fun it => it.itemName.pyStrip) := by
      simp only [export_items_rows, List.map_map]
      rfl
    have h2 : (insertionSortBy (fun a b => strLeB a.itemName b.itemName) s.items).map
          (fun it => it.itemName.pyStrip)
        = (insertionSortBy (fun a b => strLeB a.itemName b.itemName) s.items).map
          (fun it => it.itemName) :=
      List.map_congr_left (fun it hit =>
        (hwf.itemNameCanon it (((insertionSortBy_perm _ s.items).mem_iff).mp hit)).1)
    rw [h1, h2]
    exact ((insertionSortBy_perm _ s.items).map (fun it => it.itemName)).symm.nodup
      hwf.itemNamesNodup
  obtain ⟨t1, c1, u1, himp1, hit1, hmem1, hreq1, hreqi1, hmov1, hman1⟩ :=
    items_import_all_fresh (export_items_rows s) emptyStore hall1 hidsI hnamesI
  -- REQUESTS phase obligations
  have hallR : ∀ row ∈ export_requests_rows s,
      ¬ row.memberName.pyStrip = "" ∧ row.requestId.isSome = true := by
    intro row hrow
    simp only [export_requests_rows, List.mem_filterMap] at hrow
    obtain ⟨r, hr, hjoin⟩ := hrow
    cases hfm : s.members.find? (fun m => m.memberId == r.memberId) with
    | none =>
      rw [hfm] at hjoin
      cases hjoin
    | some m =>
      rw [hfm] at hjoin
      injection hjoin with hrow2
      rw [← hrow2]
      refine ⟨?_, rfl⟩
      show ¬ m.name.pyStrip = ""
      exact hwf.memberNameCanon m (List.mem_of_find?_eq_some hfm)
  have hidsR : ((export_requests_rows s).map (fun row => row.requestId.getD 0)
      ++ t1.requests.map (fun r => r.requestId)).Nodup := by
    rw [hreq1]
    show ((export_requests_rows s).map (fun row => row.requestId.getD 0)
      ++ ([] : List Nat)).Nodup
    rw [List.append_nil]
    have hsub : ((export_requests_rows s).map
        (fun row => row.requestId.getD 0)).Sublist
        ((insertionSortBy (fun a b => decide (a.requestId ≤ b.requestId))
          s.requests).map (fun r => r.requestId)) := by
      simp only [export_requests_rows]
      refine filterMap_key_sublist _ _ _ ?_ _
      intro r row hjoin
      cases hfm : s.members.find? (fun m => m.memberId == r.memberId) with
      | none =>
        rw [hfm] at hjoin
        cases hjoin
      | some m =>
        rw [hfm] at hjoin
        injection hjoin with hrow2
        rw [← hrow2]
        rfl
    exact hsub.nodup
      (((insertionSortBy_perm _ s.requests).map (fun r => r.requestId)).symm.nodup
        hwf.requestsNodup)
  obtain ⟨hprojR, hitemsR, hmovR, hmanR⟩ :=
    backup_requests_all_fresh (export_requests_rows s) now t1 hallR hidsR
  -- MANAGERS phase obligations
  have hallG : ∀ row ∈ export_managers_rows s,
      ¬ row.username.pyStrip = "" ∧ row.managerId.isSome = true := by
    intro row hrow
    simp only [export_managers_rows, List.mem_map] at hrow
    obtain ⟨g, hg, rfl⟩ := hrow
    have hmem : g ∈ s.managers := ((insertionSortBy_perm _ s.managers).mem_iff).mp hg
    refine ⟨?_, rfl⟩
    show ¬ g.username.pyStrip = ""
    rw [(hwf.usernameCanon g hmem).1]
    exact (hwf.usernameCanon g hmem).2
  have hnamesG : ((export_managers_rows s).map (fun row => row.username.pyStrip)
      ++ (applyBackupImportRequests t1 (export_requests_rows s) now).managers.map
        (fun g => g.username)).Nodup := by
    rw [hmanR, hman1]
    show ((export_managers_rows s).map (fun row => row.username.pyStrip)
      ++ ([] : List String)).Nodup
    rw [List.append_nil]
    have h1 : (export_managers_rows s).map (fun row => row.username.pyStrip)
        = (insertionSortBy (fun a b => strLeB a.username b.username) s.managers).map
          (fun g => g.username.pyStrip) := by
      simp only [export_managers_rows, List.map_map]
      rfl
    have h2 : (insertionSortBy (fun a b => strLeB a.username b.username)
          s.managers).map (fun g => g.username.pyStrip)
        = (insertionSortBy (fun a b => strLeB a.username b.username) s.managers).map
          (fun g => g.username) :=
      List.map_congr_left (fun g hg =>
        (hwf.usernameCanon g (((insertionSortBy_perm _ s.managers).mem_iff).mp hg)).1)
    rw [h1, h2]
    exact ((insertionSortBy_perm _ s.managers).map (fun g => g.username)).symm.nodup
      hwf.usernamesNodup
  have hidsG : ((export_managers_rows s).map (fun row => row.managerId.getD 0)
      ++ (applyBackupImportRequests t1 (export_requests_rows s) now).managers.map
        (fun g => g.managerId)).Nodup := by
    rw [hmanR, hman1]
    show ((export_managers_rows s).map (fun row => row.managerId.getD 0)
      ++ ([] : List Nat)).Nodup
    rw [List.append_nil]
    have h1 : (export_managers_rows s).map (fun row => row.managerId.getD 0)
        = (insertionSortBy (fun a b => strLeB a.username b.username) s.managers).map
          (fun g => g.managerId) := by
      simp only [export_managers_rows, List.map_map]
      rfl
    rw [h1]
    exact ((insertionSortBy_perm _ s.managers).map (fun g => g.managerId)).symm.nodup
      hwf.managersNodup
  obtain ⟨t3, c3, u3, himp3, hit3, hmem3, hreq3, hreqi3, hmov3⟩ :=
    managers_import_all_fresh (export_managers_rows s) now
      (applyBackupImportRequests t1 (export_requests_rows s) now) hallG hnamesG hidsG
  -- MOVEMENTS phase obligations
  have hitem_in_t3 : ∀ it ∈ s.items, itemOfRow
      (⟨some it.itemId, it.itemName, it.unit, some it.qtyAvailable, it.unitCost,
        it.expiryDate.getD "",
        if it.isActive == 1 then "Active" else "Inactive"⟩ : ItemsRow)
      ∈ t3.items := by
    intro it hit
    rw [hit3]
    refine hitemsR _ ?_
    rw [hit1]
    refine List.mem_append_right _ ?_
    refine List.mem_map_of_mem itemOfRow ?_
    simp only [export_items_rows, List.mem_map]
    exact ⟨it, ((insertionSortBy_perm _ s.items).mem_iff).mpr hit, rfl⟩
  have hallM : ∀ row ∈ export_stock_movements_rows s,
      row.movementId.isSome = true ∧ row.itemId.isSome = true ∧
      row.qty.isSome = true ∧ ¬ row.movementType.pyStrip.pyUpper = "" ∧
      (∃ it ∈ t3.items, it.itemId = row.itemId.getD 0) := by
    intro row hrow
    simp only [export_stock_movements_rows, List.mem_map] at hrow
    obtain ⟨m, hm, rfl⟩ := hrow
    have hmem : m ∈ s.movements :=
      ((insertionSortBy_perm _ s.movements).mem_iff).mp hm
    refine ⟨rfl, rfl, rfl, hwf.movementTypeCanon m hmem, ?_⟩
    obtain ⟨it, hitmem, hiteq⟩ := hwf.movementItem m hmem
    refine ⟨itemOfRow (⟨some it.itemId, it.itemName, it.unit, some it.qtyAvailable,
      it.unitCost, it.expiryDate.getD "",
      if it.isActive == 1 then "Active" else "Inactive"⟩ : ItemsRow),
      hitem_in_t3 it hitmem, ?_⟩
    show it.itemId = m.itemId
    exact hiteq
  have hidsM : ((export_stock_movements_rows s).map
      (fun row => row.movementId.getD 0)
      ++ t3.movements.map (fun m => m.movementId)).Nodup := by
    rw [hmov3, hmovR, hmov1]
    show ((export_stock_movements_rows s).map (fun row => row.movementId.getD 0)
      ++ ([] : List Nat)).Nodup
    rw [List.append_nil]
    have h1 : (export_stock_movements_rows s).map (fun row => row.movementId.getD 0)
        = (insertionSortBy (fun a b => decide (a.movementId ≤ b.movementId))
          s.movements).map (fun m => m.movementId) := by
      simp only [export_stock_movements_rows, List.map_map]
      rfl
    rw [h1]
    exact ((insertionSortBy_perm _ s.movements).map
      (fun m => m.movementId)).symm.nodup hwf.movementsNodup
  obtain ⟨t4, c4, k4, himp4, hlen4, hit4, hmem4, hreq4⟩ :=
    movements_import_all_fresh (export_stock_movements_rows s) now t3 hallM hidsM
  -- assemble the pipeline
  refine ⟨t4, ?_, ?_, ?_, ?_⟩
  · simp only [apply_backup_import, Bool.false_eq_true, if_false]
    rw [himp1]
    dsimp only
    rw [himp3]
    dsimp only
    rw [himp4]
  · intro it hit
    refine ⟨itemOfRow (⟨some it.itemId, it.itemName, it.unit, some it.qtyAvailable,
      it.unitCost, it.expiryDate.getD "",
      if it.isActive == 1 then "Active" else "Inactive"⟩ : ItemsRow),
      ?_, rfl, rfl⟩
    rw [hit4]
    exact hitem_in_t3 it hit
  · intro r hr
    obtain ⟨m0, hm0mem, hm0eq⟩ := hwf.requestMember r hr
    have hfsome : (s.members.find? (fun m => m.memberId == r.memberId)).isSome
        = true :=
      find?_isSome_of_mem hm0mem (by rw [hm0eq]; exact beq_self_eq_true _)
    obtain ⟨m1, hfm⟩ := Option.isSome_iff_exists.mp hfsome
    have hrowmem : (⟨some r.requestId, r.status, r.createdAt, m1.name, m1.phone,
        m1.email, r.note, r.rejectReason,
        requestItemsSummary s r.requestId⟩ : RequestsRow)
        ∈ export_requests_rows s := by
      simp only [export_requests_rows, List.mem_filterMap]
      refine ⟨r, ((insertionSortBy_perm _ s.requests).mem_iff).mpr hr, ?_⟩
      rw [hfm]
      rfl
    have hpairmem : (r.requestId, r.status) ∈ t4.requests.map
        (fun r => (r.requestId, r.status)) := by
      rw [hreq4, hreq3, hprojR, hreq1]
      refine List.mem_append_right _ ?_
      have hmm := List.mem_map_of_mem
        (fun row : RequestsRow => (row.requestId.getD 0, normStatus row.status))
        hrowmem
      simp only [Option.getD_some] at hmm
      rw [hwf.statusCanon r hr] at hmm
      exact hmm
    obtain ⟨r2, hr2mem, hr2eq⟩ := List.mem_map.mp hpairmem
    exact ⟨r2, hr2mem, congrArg Prod.fst hr2eq, congrArg Prod.snd hr2eq⟩
  · rw [hlen4, hmov3, hmovR, hmov1]
    show 0 + (export_stock_movements_rows s).length = s.movements.length
    rw [Nat.zero_add]
    have h1 : (export_stock_movements_rows s).length
        = (insertionSortBy (fun a b => decide (a.movementId ≤ b.movementId))
          s.movements).length := by
      simp only [export_stock_movements_rows, List.length_map]
    rw [h1]
    exact (insertionSortBy_perm _ s.movements).length_eq


theorem roundTripStore_exportwf : ExportWF roundTripStore :=
  ⟨by decide, by decide, by decide, by decide, by decide, by decide, by decide,
    by decide, by decide, by decide, by decide, by decide, by decide, by decide⟩

theorem c9_export_import_round_trip_witness :
    ExportWF roundTripStore ∧
    ∃ t : Store,
      apply_backup_import emptyStore (export_items_rows roundTripStore)
        (export_requests_rows roundTripStore) (export_managers_rows roundTripStore)
        (export_stock_movements_rows roundTripStore) false "t9" = .ok t ∧
      (∀ it ∈ roundTripStore.items, ∃ it2 ∈ t.items,
        it2.itemId = it.itemId ∧ it2.qtyAvailable = it.qtyAvailable) ∧
      (∀ r ∈ roundTripStore.requests, ∃ r2 ∈ t.requests,
        r2.requestId = r.requestId ∧ r2.status = r.status) ∧
      t.movements.length = roundTripStore.movements.length :=
  ⟨roundTripStore_exportwf,
    c9_export_import_round_trip roundTripStore "t9" roundTripStore_exportwf⟩

/-! ### Claim C4: the APPROVE validation as implemented -/

theorem deductRequestLines_movements_length {rows : List LineJoin} {rid : Nat}
    {actor now : String} : ∀ s : Store,
    (deductRequestLines s rows rid actor now).movements.length
      = s.movements.length + rows.length := by
  induction rows with
  | nil =>
    intro s
    exact (Nat.add_zero _).symm
  | cons l rest ih =>
    intro s
    rw [deductRequestLines_cons, ih]
    simp only [List.length_append, List.length_cons, List.length_nil]
    omega

theorem find?_map_pres {α : Type} {p : α → Bool} {f : α → α}
    (hp : ∀ a, p (f a) = p a) :
    ∀ l : List α, (l.map f).find? p = (l.find? p).map f := by
  intro l
  induction l with
  | nil => rfl
  | cons a tl ih =>
    rw [List.map_cons, List.find?_cons, List.find?_cons, hp]
    cases hpa : p a
    · exact ih
    · rfl

/-- C4 (amended): what the single-request APPROVE actually validates. On a
PENDING request it checks ONLY the quantities, stopping at the first joined
line whose request exceeds the current stock: it then fails reporting that one
line (not every offender) and returns the store unchanged; is_active is never
consulted (the C4 counterexample approves a request for an inactive item). If
every line fits, all lines are deducted, one OUT movement per line is
appended, and the request's status becomes APPROVED. -/
theorem c4_approve_validation (s : Store) (reqId : Nat) (actor now : String)
    (r : RequestRow) (hfr : findRequest s reqId = some r)
    (hp : r.status = "PENDING") :
    (∃ row ∈ requestLinesJoined s reqId,
        row.qtyAvailable < row.qtyRequested ∧
        manager_decide_request s reqId "APPROVE" "" actor now
          = (s, .insufficient row.itemName row.qtyRequested row.qtyAvailable)) ∨
    ((∀ row ∈ requestLinesJoined s reqId,
        row.qtyRequested ≤ row.qtyAvailable) ∧
      (manager_decide_request s reqId "APPROVE" "" actor now).2 = .approvedOk ∧
      (manager_decide_request s reqId "APPROVE" "" actor now).1.movements.length
        = s.movements.length + (requestLinesJoined s reqId).length ∧
      ((findRequest (manager_decide_request s reqId "APPROVE" "" actor now).1
        reqId).map (fun x => x.status)) = some "APPROVED") := by
  simp only [manager_decide_request]
  rw [if_neg (by simp)]
  simp only [hfr]
  rw [if_neg (by rw [hp]; simp)]
  cases hblock : (requestLinesJoined s reqId).find?
      (fun row => decide (row.qtyAvailable < row.qtyRequested)) with
  | some row =>
    simp only [hblock]
    left
    refine ⟨row, List.mem_of_find?_eq_some hblock, ?_, by trivial⟩
    simpa using List.find?_some hblock
  | none =>
    simp only [hblock]
    right
    obtain ⟨hdmem, hdreq, hdlin, hdman, hdnii, hdnri⟩ :=
      deductRequestLines_fields s (requestLinesJoined s reqId) reqId actor now
    refine ⟨?_, by trivial, ?_, ?_⟩
    · intro row hrow
      have hnotlt := List.find?_eq_none.mp hblock row hrow
      have hle : ¬ row.qtyAvailable < row.qtyRequested := by simpa using hnotlt
      exact le_of_not_lt hle
    · show (deductRequestLines s (requestLinesJoined s reqId)
        reqId actor now).movements.length
        = s.movements.length + (requestLinesJoined s reqId).length
      exact deductRequestLines_movements_length s
    · show ((markRequestApproved (deductRequestLines s (requestLinesJoined s reqId)
        reqId actor now).requests reqId actor now).find?
          (fun rr => rr.requestId == reqId)).map (fun x => x.status)
        = some "APPROVED"
      rw [hdreq]
      unfold markRequestApproved
      rw [find?_map_pres (fun a => by split <;> rfl)]
      have hfr2 : s.requests.find? (fun rr => rr.requestId == reqId) = some r := hfr
      rw [hfr2]
      have hbeq0 := List.find?_some hfr2
      have hbeq : (r.requestId == reqId) = true := hbeq0
      dsimp only [Option.map]
      rw [if_pos hbeq]

theorem c4_approve_validation_witness :
    findRequest baseStore 1 = some requestA ∧ requestA.status = "PENDING" ∧
    ((∃ row ∈ requestLinesJoined baseStore 1,
        row.qtyAvailable < row.qtyRequested ∧
        manager_decide_request baseStore 1 "APPROVE" "" "mgr" "t1"
          = (baseStore,
            .insufficient row.itemName row.qtyRequested row.qtyAvailable)) ∨
      ((∀ row ∈ requestLinesJoined baseStore 1,
          row.qtyRequested ≤ row.qtyAvailable) ∧
        (manager_decide_request baseStore 1 "APPROVE" "" "mgr" "t1").2
          = .approvedOk ∧
        (manager_decide_request baseStore 1 "APPROVE" ""
            "mgr" "t1").1.movements.length
          = baseStore.movements.length + (requestLinesJoined baseStore 1).length ∧
        ((findRequest (manager_decide_request baseStore 1 "APPROVE" ""
          "mgr" "t1").1 1).map (fun x => x.status)) = some "APPROVED")) :=
  ⟨by decide, rfl,
    c4_approve_validation baseStore 1 "mgr" "t1" requestA (by decide) rfl⟩

end Pantry
